import Mathlib

/-!
# Verification of the sudoku solving engine

A shallow embedding of the TypeScript sudoku solver
(`src/app/utils/types.ts`, `src/app/utils/utils.ts`,
`src/app/utils/boxLineReduction.ts`, `hiddenPairs.ts`, `nakedTriples.ts`,
`xwing.ts`) in Lean 4, together with theorems checking the
natural-language specification against it.

Modelling conventions:

* A JavaScript number appearing in this program is either a genuine
  integer or `NaN`; we model it as `Option ℤ` (`none` = NaN).  Strict
  equality `===` never relates NaN to anything (`jsEq`), while the
  SameValueZero comparison used by `Set.has` / `Set.delete` /
  `Array.includes` treats NaN as equal to itself (`svz`).
* A JS `Set<number>` keeps insertion order and the candidate sets of this
  program are only ever created from the ascending list `[1..9]`, from a
  one-element list, or as copies, and then filtered by deletions; we model
  them as lists (order preserved by `delete`), which reproduces the
  iteration order of the source exactly.
* 9x9 arrays are modelled as functions `ℕ → ℕ → _`; the program only ever
  reads and writes indices `0..8`.
* The mutable `Sudoku` session object (`game`) is threaded explicitly:
  a function that mutates `game` and returns a boolean becomes a function
  `Game → Bool × Game`.
* The `while (changed)` scheduler loop is translated with explicit fuel
  `measureG g + 1`; `measureG` (number of empty cells plus total number of
  candidates) strictly decreases on every productive pass, which is proved
  below, so the fuel never runs out on states the program can reach.
-/

namespace SudokuTs

/-- A JavaScript number of this program: a genuine integer, or NaN (`none`). -/
abbrev JSNum := Option ℤ

/-- JS SameValueZero comparison (used by `Set.has`, `Set.delete`,
`Array.includes`): NaN compares equal to NaN. -/
def svz : JSNum → JSNum → Bool
  | none, none => true
  | some a, some b => a == b
  | _, _ => false

/-- JS strict equality `===` on numbers: NaN is not equal to anything. -/
def jsEq : JSNum → JSNum → Bool
  | some a, some b => a == b
  | _, _ => false

/-- A 9x9 board, `number[][]` in the source; `some 0` is an empty cell. -/
structure Board where
  rows : List (List JSNum)
deriving DecidableEq

/-- Read one board cell (JS `board[r][c]`); the program only reads
indices `0..8` of a 9x9 board, so the defaults are never exercised. -/
def Board.cell (b : Board) (r c : ℕ) : JSNum := (b.rows.getD r []).getD c (some 0)

instance : CoeFun Board (fun _ => ℕ → ℕ → JSNum) := ⟨Board.cell⟩

/-- The 9x9 grid of candidate sets, `Set<number>[][]` in the source
(each set modelled as an insertion-ordered duplicate-free list). -/
structure Cands where
  rows : List (List (List JSNum))
deriving DecidableEq

/-- Read one candidate set (JS `candidates[r][c]`). -/
def Cands.cell (cs : Cands) (r c : ℕ) : List JSNum := (cs.rows.getD r []).getD c []

instance : CoeFun Cands (fun _ => ℕ → ℕ → List JSNum) := ⟨Cands.cell⟩

/-- Write one board cell (JS `board[r][c] = v`). -/
def setCell (b : Board) (r c : ℕ) (v : JSNum) : Board :=
  ⟨b.rows.set r ((b.rows.getD r []).set c v)⟩

/-- Replace one candidate set (JS `candidates[r][c] = s`). -/
def setCands (cs : Cands) (r c : ℕ) (l : List JSNum) : Cands :=
  ⟨cs.rows.set r ((cs.rows.getD r []).set c l)⟩

/-- JS `set.has(d)` (SameValueZero). -/
def setHas (l : List JSNum) (d : JSNum) : Bool := l.any (fun x => svz d x)

/-- JS `set.delete(d)`: the set after removal (SameValueZero). -/
def setDelete (l : List JSNum) (d : JSNum) : List JSNum :=
  l.filter (fun x => !svz d x)

/-- JS `new Set(xs)`: deduplicate keeping the first occurrence
(insertion order). -/
def setFromList (xs : List JSNum) : List JSNum :=
  xs.foldl (fun acc x => if setHas acc x then acc else acc ++ [x]) []

/-- `BOARD_SIZE = 9` (`utils.ts`). -/
def BOARD_SIZE : ℕ := 9

/-- `BOX_SIZE = 3` (`utils.ts`). -/
def BOX_SIZE : ℕ := 3

/-- The row-major list of all 81 cell coordinates (the iteration space of
the nested `for (row) for (col)` loops). -/
def allCells : List (ℕ × ℕ) :=
  (List.range 9).flatMap (fun r => (List.range 9).map (fun c => (r, c)))

/-- Snapshot highlight data (`SudokuSnapshot['highlight']`); fields that a
call site does not pass are `none`. -/
structure Highlight where
  rows : Option (List ℕ)
  cols : Option (List ℕ)
  blocks : Option (List (ℕ × ℕ))
  boxes : Option (List (ℕ × ℕ))
  candidates : Option (List (ℕ × ℕ × JSNum))
  removedCandidates : Option (List (ℕ × ℕ × JSNum))
deriving DecidableEq

/-- An empty highlight, to be updated per call site. -/
def Highlight.empty : Highlight :=
  ⟨none, none, none, none, none, none⟩

/-- `SudokuSnapshot` (`types.ts`). -/
structure Snapshot where
  board : Board
  candidates : Cands
  kind : String
  variant : Option String
  difficulty : ℕ
  highlight : Option Highlight

/-- The mutable solving session (`Sudoku` in `types.ts`): board,
candidate grid and the ordered snapshot list. -/
structure Game where
  board : Board
  candidates : Cands
  snapshots : List Snapshot

/-- `deepCloneBoard` (`utils.ts`): `board.map((row) => [...row])` —
fresh arrays with the same values, so the identity on values. -/
def deepCloneBoard (b : Board) : Board := ⟨b.rows.map (fun row => row)⟩

/-- `deepCloneCandidates` (`utils.ts`): fresh sets with the same
elements in the same insertion order. -/
def deepCloneCandidates (cs : Cands) : Cands :=
  ⟨cs.rows.map (fun row => row.map (fun cellSet => cellSet))⟩

/-- `addSnapshot` (`utils.ts`): push a deep copy of the current state
plus metadata onto `game.snapshots`. -/
def addSnapshot (g : Game) (kind : String) (variant : Option String)
    (difficulty : ℕ) (highlight : Option Highlight) : Game :=
  { g with
    snapshots := g.snapshots ++
      [{ board := deepCloneBoard g.board
         candidates := deepCloneCandidates g.candidates
         kind := kind, variant := variant, difficulty := difficulty
         highlight := highlight }] }

/-- `SolverOptions` (`types.ts`): all flags optional booleans. -/
structure SolverOptions where
  nakedSingles : Option Bool := none
  nakedPairs : Option Bool := none
  nakedPairsRows : Option Bool := none
  nakedPairsCols : Option Bool := none
  nakedPairsBoxes : Option Bool := none
  hiddenSingles : Option Bool := none
  hiddenSinglesRows : Option Bool := none
  hiddenSinglesCols : Option Bool := none
  hiddenSinglesBoxes : Option Bool := none
  nakedTriples : Option Bool := none
  nakedTriplesRows : Option Bool := none
  nakedTriplesCols : Option Bool := none
  nakedTriplesBoxes : Option Bool := none
  hiddenPairs : Option Bool := none
  hiddenPairsRows : Option Bool := none
  hiddenPairsCols : Option Bool := none
  hiddenPairsBoxes : Option Bool := none
  boxLineReduction : Option Bool := none
  boxLineReductionRows : Option Bool := none
  boxLineReductionCols : Option Bool := none
  xWing : Option Bool := none
  xWingRows : Option Bool := none
  xWingCols : Option Bool := none
deriving DecidableEq

/-- `opts?.flag === false` for an optional `opts` parameter. -/
def flagIsFalse (opts : Option SolverOptions) (f : SolverOptions → Option Bool) : Bool :=
  match opts with
  | none => false
  | some o => f o == some false

/-- `isComplete` (`utils.ts`): no cell of the 9x9 board is `0`. -/
def isComplete (b : Board) : Bool :=
  allCells.all (fun rc => !jsEq (b rc.1 rc.2) (some 0))

/-- JS `parseInt(char, 10)` on a one-character string: a digit parses to
its value, anything else gives NaN. -/
def parseIntChar (ch : Char) : JSNum :=
  if ch.isDigit then some ((ch.toNat : ℤ) - ('0'.toNat : ℤ)) else none

/-- JS `<` on numbers: false whenever one side is NaN. -/
def jsLt : JSNum → JSNum → Bool
  | some a, some b => a < b
  | _, _ => false

/-- `stringToBoard` (`utils.ts`): parse an 81-character puzzle string into
a 9x9 board.  Throwing is modelled with `Except String`.  Note that for a
character that is not a digit, `parseInt` returns NaN and both
comparisons `digit < 1` and `digit > 9` are false, so the
`Invalid character` branch is not taken and NaN is pushed. -/
def stringToBoard (puzzleString : String) : Except String (List (List JSNum)) := do
  if puzzleString.length ≠ 81 then
    throw "Puzzle string must be exactly 81 characters long."
  let mut board : List (List JSNum) := []
  for row in List.range 9 do
    let mut rowArray : List JSNum := []
    for col in List.range 9 do
      let index := row * 9 + col
      let char := puzzleString.toList.getD index ' '
      if char = '.' ∨ char = '0' then
        rowArray := rowArray ++ [some 0]
      else
        let digit := parseIntChar char
        if jsLt digit (some 1) ∨ jsLt (some 9) digit then
          throw s!"Invalid character at index {index}."
        rowArray := rowArray ++ [digit]
    board := board ++ [rowArray]
  return board

/-- View a parsed (or caller-supplied) 9x9 number matrix as a `Board`
(the source passes the `number[][]` along unchanged). -/
def matrixToBoard (m : List (List JSNum)) : Board := ⟨m⟩

/-- The digits `1..9` as iterated by `for (let digit = 1; digit <= 9; digit++)`. -/
def digitsZ : List ℤ := [1, 2, 3, 4, 5, 6, 7, 8, 9]

/-- `new Set<number>([1, 2, 3, 4, 5, 6, 7, 8, 9])`. -/
def fullCandidateSet : List JSNum :=
  [some 1, some 2, some 3, some 4, some 5, some 6, some 7, some 8, some 9]

/-- `${digit}` — JS number-to-string conversion. -/
def jsNumToString : JSNum → String
  | none => "NaN"
  | some z => toString z

/-!
## Candidate building and basic elimination (`types.ts` §1)
-/

/-- JS `candidates[r][c].delete(digit)` as a grid operation. -/
def delCell (cs : Cands) (r c : ℕ) (d : JSNum) : Cands :=
  setCands cs r c (setDelete (cs r c) d)

/-- `eliminateFromPeers` (`types.ts`): delete `digit` from the candidate
set of every empty peer (same row, column, box) of `(row, col)`. -/
def eliminateFromPeers (board : Board) (cands : Cands) (row col : ℕ)
    (digit : JSNum) : Cands :=
  -- Row
  let cands := (List.range 9).foldl (fun cs c =>
    if c ≠ col ∧ jsEq (board row c) (some 0) = true then
      delCell cs row c digit
    else cs) cands
  -- Column
  let cands := (List.range 9).foldl (fun cs r =>
    if r ≠ row ∧ jsEq (board r col) (some 0) = true then
      delCell cs r col digit
    else cs) cands
  -- Box
  let startRow := row - row % BOX_SIZE
  let startCol := col - col % BOX_SIZE
  (List.range 3).foldl (fun cs r =>
    (List.range 3).foldl (fun cs c =>
      let rr := startRow + r
      let cc := startCol + c
      if (rr ≠ row ∨ cc ≠ col) ∧ jsEq (board rr cc) (some 0) = true then
        delCell cs rr cc digit
      else cs) cs) cands

/-- `buildCandidates` (`types.ts`): every cell starts with `{1..9}`; every
filled cell collapses to a singleton and its digit is deleted from empty
peers, scanning cells in row-major order. -/
def buildCandidates (board : Board) : Cands :=
  let init : Cands := ⟨List.replicate 9 (List.replicate 9 fullCandidateSet)⟩
  allCells.foldl (fun cands rc =>
    let (row, col) := rc
    let val := board row col
    if jsEq val (some 0) = true then cands
    else
      let cands := setCands cands row col [val]
      eliminateFromPeers board cands row col val) init

/-!
## Generic loop shapes

The six short-circuiting strategies all follow the JS pattern
`for (item of items) { if (<hit>) { <mutate>; return true } }` where the
state is only mutated at the first hit; we express that as `firstHit`.
Elimination loops follow the pattern
`if (set.delete(val)) removedCandidates.push([r, c, val])`; we express a
sequence of such guarded deletions as `processDeletes`.
-/

/-- First-hit scan over a list of loop items. -/
def firstHit {α : Type} (f : α → Option Game) : List α → Option Game
  | [] => none
  | a :: rest =>
    match f a with
    | some g' => some g'
    | none => firstHit f rest

/-- One guarded `set.delete` request
(`if (candidates[r][c].delete(d)) removedCandidates.push([r, c, d])`). -/
def processDeletesStep (acc : Cands × List (ℕ × ℕ × JSNum))
    (req : ℕ × ℕ × JSNum) : Cands × List (ℕ × ℕ × JSNum) :=
  let (r, c, d) := req
  if setHas (acc.1 r c) d then
    (delCell acc.1 r c d, acc.2 ++ [(r, c, d)])
  else acc

/-- Run guarded `set.delete` requests in order, recording the successful
ones. -/
def processDeletes (cs : Cands) (reqs : List (ℕ × ℕ × JSNum)) :
    Cands × List (ℕ × ℕ × JSNum) :=
  reqs.foldl processDeletesStep (cs, [])

/-- All pairs `(l[i], l[j])` with `i < j`, in the order of the JS nested
loops `for (i) for (j = i + 1)`. -/
def upperPairs {α : Type} : List α → List (α × α)
  | [] => []
  | x :: rest => rest.map (fun y => (x, y)) ++ upperPairs rest

/-- All triples `(l[i], l[j], l[k])` with `i < j < k`, in JS loop order. -/
def upperTriples {α : Type} : List α → List (α × α × α)
  | [] => []
  | x :: rest => (upperPairs rest).map (fun p => (x, p.1, p.2)) ++ upperTriples rest

/-!
## Naked singles (`types.ts` §2.1)
-/

/-- The body of the naked-singles double loop for one cell: an empty cell
with exactly one candidate is filled, its digit eliminated from peers, and
a snapshot recorded; the `changed` flag accumulates. -/
def nakedSinglesStep (acc : Bool × Game) (rc : ℕ × ℕ) : Bool × Game :=
  let (row, col) := rc
  let g := acc.2
  if jsEq (g.board row col) (some 0) = true ∧ (g.candidates row col).length = 1 then
    let digit := (g.candidates row col).headD none
    let board := setCell g.board row col digit
    let cands := eliminateFromPeers board g.candidates row col digit
    let g := addSnapshot { g with board := board, candidates := cands }
      "Naked Single" (some (jsNumToString digit)) 1
      (some { Highlight.empty with blocks := some [(row, col)] })
    (true, g)
  else acc

/-- `applyNakedSingles` (`types.ts`): scans all 81 cells without an early
return. -/
def applyNakedSingles (g : Game) (opts : Option SolverOptions) : Bool × Game :=
  if flagIsFalse opts (·.nakedSingles) then (false, g)
  else allCells.foldl nakedSinglesStep (false, g)

/-!
## Hidden singles (`types.ts` §2.2)
-/

/-- `isDigitInRow` (`types.ts`). -/
def isDigitInRow (b : Board) (row : ℕ) (digit : ℤ) : Bool :=
  (List.range 9).any (fun col => jsEq (b row col) (some digit))

/-- `isDigitInCol` (`types.ts`). -/
def isDigitInCol (b : Board) (col : ℕ) (digit : ℤ) : Bool :=
  (List.range 9).any (fun row => jsEq (b row col) (some digit))

/-- `isDigitInBox` (`types.ts`). -/
def isDigitInBox (b : Board) (boxRow boxCol : ℕ) (digit : ℤ) : Bool :=
  (List.range 3).any (fun r => (List.range 3).any (fun c =>
    jsEq (b (boxRow * 3 + r) (boxCol * 3 + c)) (some digit)))

/-- One `(row, digit)` iteration of `applyHiddenSinglesInRows`. -/
def hiddenSinglesRowHit (g : Game) (rd : ℕ × ℤ) : Option Game :=
  let (row, digit) := rd
  if isDigitInRow g.board row digit then none
  else
    let possibleCols := (List.range 9).filter (fun col =>
      jsEq (g.board row col) (some 0) ∧ setHas (g.candidates row col) (some digit))
    if possibleCols.length = 1 then
      let col := possibleCols.headD 0
      let board := setCell g.board row col (some digit)
      let cands := eliminateFromPeers board g.candidates row col (some digit)
      some (addSnapshot { g with board := board, candidates := cands }
        "Hidden Single" (some "Row") 3
        (some { Highlight.empty with rows := some [row], blocks := some [(row, col)] }))
    else none

/-- `applyHiddenSinglesInRows` (`types.ts`): first hit returns. -/
def applyHiddenSinglesInRows (g : Game) : Bool × Game :=
  match firstHit (hiddenSinglesRowHit g)
      ((List.range 9).flatMap (fun row => digitsZ.map (fun d => (row, d)))) with
  | some g' => (true, g')
  | none => (false, g)

/-- One `(col, digit)` iteration of `applyHiddenSinglesInColumns`. -/
def hiddenSinglesColHit (g : Game) (cd : ℕ × ℤ) : Option Game :=
  let (col, digit) := cd
  if isDigitInCol g.board col digit then none
  else
    let possibleRows := (List.range 9).filter (fun row =>
      jsEq (g.board row col) (some 0) ∧ setHas (g.candidates row col) (some digit))
    if possibleRows.length = 1 then
      let row := possibleRows.headD 0
      let board := setCell g.board row col (some digit)
      let cands := eliminateFromPeers board g.candidates row col (some digit)
      some (addSnapshot { g with board := board, candidates := cands }
        "Hidden Single" (some "Column") 3
        (some { Highlight.empty with cols := some [col], blocks := some [(row, col)] }))
    else none

/-- `applyHiddenSinglesInColumns` (`types.ts`). -/
def applyHiddenSinglesInColumns (g : Game) : Bool × Game :=
  match firstHit (hiddenSinglesColHit g)
      ((List.range 9).flatMap (fun col => digitsZ.map (fun d => (col, d)))) with
  | some g' => (true, g')
  | none => (false, g)

/-- The cells of the 3x3 box `(boxRow, boxCol)` in scan order. -/
def boxCells (boxRow boxCol : ℕ) : List (ℕ × ℕ) :=
  (List.range 3).flatMap (fun r => (List.range 3).map (fun c =>
    (boxRow * 3 + r, boxCol * 3 + c)))

/-- One `(boxRow, boxCol, digit)` iteration of `applyHiddenSinglesInBoxes`. -/
def hiddenSinglesBoxHit (g : Game) (bd : (ℕ × ℕ) × ℤ) : Option Game :=
  let (box, digit) := bd
  let (boxRow, boxCol) := box
  if isDigitInBox g.board boxRow boxCol digit then none
  else
    let possibleCells := (boxCells boxRow boxCol).filter (fun rc =>
      jsEq (g.board rc.1 rc.2) (some 0) ∧ setHas (g.candidates rc.1 rc.2) (some digit))
    if possibleCells.length = 1 then
      let rc := possibleCells.headD (0, 0)
      let board := setCell g.board rc.1 rc.2 (some digit)
      let cands := eliminateFromPeers board g.candidates rc.1 rc.2 (some digit)
      some (addSnapshot { g with board := board, candidates := cands }
        "Hidden Single" (some "Box") 3
        (some { Highlight.empty with
                boxes := some [(boxRow, boxCol)], blocks := some [(rc.1, rc.2)] }))
    else none

/-- The box coordinates `(0,0) .. (2,2)` in scan order. -/
def allBoxes : List (ℕ × ℕ) :=
  (List.range 3).flatMap (fun br => (List.range 3).map (fun bc => (br, bc)))

/-- `applyHiddenSinglesInBoxes` (`types.ts`). -/
def applyHiddenSinglesInBoxes (g : Game) : Bool × Game :=
  match firstHit (hiddenSinglesBoxHit g)
      (allBoxes.flatMap (fun box => digitsZ.map (fun d => (box, d)))) with
  | some g' => (true, g')
  | none => (false, g)

/-- `applyHiddenSingles` (`types.ts`): boxes, then rows, then columns,
each independently toggleable, returning at the first change. -/
def applyHiddenSingles (g : Game) (opts : Option SolverOptions) : Bool × Game :=
  if flagIsFalse opts (·.hiddenSingles) then (false, g)
  else
    let tryBoxes :=
      if !flagIsFalse opts (·.hiddenSinglesBoxes) then applyHiddenSinglesInBoxes g
      else (false, g)
    if tryBoxes.1 then (true, tryBoxes.2)
    else
      let tryRows :=
        if !flagIsFalse opts (·.hiddenSinglesRows) then applyHiddenSinglesInRows g
        else (false, g)
      if tryRows.1 then (true, tryRows.2)
      else
        let tryCols :=
          if !flagIsFalse opts (·.hiddenSinglesCols) then applyHiddenSinglesInColumns g
          else (false, g)
        if tryCols.1 then (true, tryCols.2) else (false, g)

/-!
## Naked pairs (`types.ts` §2.3)
-/

/-- `areSetsEqual` (`types.ts`): same size and `a ⊆ b`. -/
def areSetsEqual (a b : List JSNum) : Bool :=
  a.length = b.length && a.all (fun x => setHas b x)

/-- One pair `(col1, col2)` of `applyNakedPairsInRow`: a hit when both
cells hold the same two candidates and at least one candidate is removed
elsewhere in the row. -/
def nakedPairsRowHit (g : Game) (row : ℕ) (p : ℕ × ℕ) : Option Game :=
  let (col1, col2) := p
  let cands1 := g.candidates row col1
  let cands2 := g.candidates row col2
  if cands1.length = 2 ∧ cands2.length = 2 ∧ areSetsEqual cands1 cands2 then
    let pairValues := cands1
    let reqs := ((List.range 9).filter (fun c =>
        c ≠ col1 ∧ c ≠ col2 ∧ jsEq (g.board row c) (some 0))).flatMap
      (fun c => pairValues.map (fun val => (row, c, val)))
    let pd := processDeletes g.candidates reqs
    if pd.2.length > 0 then
      some (addSnapshot { g with candidates := pd.1 } "Naked Pair" (some "Row") 2
        (some { Highlight.empty with
                rows := some [row]
                blocks := some [(row, col1), (row, col2)]
                candidates := some [(row, col1, pairValues.headD none),
                  (row, col1, (pairValues.drop 1).headD none),
                  (row, col2, pairValues.headD none),
                  (row, col2, (pairValues.drop 1).headD none)]
                removedCandidates := some pd.2 }))
    else none
  else none

/-- `applyNakedPairsInRow` (`types.ts`). -/
def applyNakedPairsInRow (g : Game) (row : ℕ) : Bool × Game :=
  let emptyCols := (List.range 9).filter (fun col => jsEq (g.board row col) (some 0))
  match firstHit (nakedPairsRowHit g row) (upperPairs emptyCols) with
  | some g' => (true, g')
  | none => (false, g)

/-- One pair `(row1, row2)` of `applyNakedPairsInCol`. -/
def nakedPairsColHit (g : Game) (col : ℕ) (p : ℕ × ℕ) : Option Game :=
  let (row1, row2) := p
  let cands1 := g.candidates row1 col
  let cands2 := g.candidates row2 col
  if cands1.length = 2 ∧ cands2.length = 2 ∧ areSetsEqual cands1 cands2 then
    let pairValues := cands1
    let reqs := ((List.range 9).filter (fun r =>
        r ≠ row1 ∧ r ≠ row2 ∧ jsEq (g.board r col) (some 0))).flatMap
      (fun r => pairValues.map (fun val => (r, col, val)))
    let pd := processDeletes g.candidates reqs
    if pd.2.length > 0 then
      some (addSnapshot { g with candidates := pd.1 } "Naked Pair" (some "Column") 2
        (some { Highlight.empty with
                cols := some [col]
                blocks := some [(row1, col), (row2, col)]
                candidates := some [(row1, col, pairValues.headD none),
                  (row1, col, (pairValues.drop 1).headD none),
                  (row2, col, pairValues.headD none),
                  (row2, col, (pairValues.drop 1).headD none)]
                removedCandidates := some pd.2 }))
    else none
  else none

/-- `applyNakedPairsInCol` (`types.ts`). -/
def applyNakedPairsInCol (g : Game) (col : ℕ) : Bool × Game :=
  let emptyRows := (List.range 9).filter (fun row => jsEq (g.board row col) (some 0))
  match firstHit (nakedPairsColHit g col) (upperPairs emptyRows) with
  | some g' => (true, g')
  | none => (false, g)

/-- One pair of empty cells of `applyNakedPairsInBox`; `others` is the
list of the remaining empty cells of the box (`k ≠ i, k ≠ j`). -/
def nakedPairsBoxHit (g : Game) (boxRow boxCol : ℕ)
    (p : ((ℕ × ℕ) × (ℕ × ℕ)) × List (ℕ × ℕ)) : Option Game :=
  let ((cell1, cell2), others) := p
  let cands1 := g.candidates cell1.1 cell1.2
  let cands2 := g.candidates cell2.1 cell2.2
  if cands1.length = 2 ∧ cands2.length = 2 ∧ areSetsEqual cands1 cands2 then
    let pairValues := cands1
    let reqs := others.flatMap (fun rc => pairValues.map (fun val => (rc.1, rc.2, val)))
    let pd := processDeletes g.candidates reqs
    if pd.2.length > 0 then
      some (addSnapshot { g with candidates := pd.1 } "Naked Pair" (some "Box") 2
        (some { Highlight.empty with
                boxes := some [(boxRow, boxCol)]
                blocks := some [cell1, cell2]
                candidates := some [(cell1.1, cell1.2, pairValues.headD none),
                  (cell1.1, cell1.2, (pairValues.drop 1).headD none),
                  (cell2.1, cell2.2, pairValues.headD none),
                  (cell2.1, cell2.2, (pairValues.drop 1).headD none)]
                removedCandidates := some pd.2 }))
    else none
  else none

/-- All `(i, j)` pairs of a list together with the remaining elements
(`k ≠ i, k ≠ j` in original order), matching the JS index loops. -/
def upperPairsWithRest {α : Type} [DecidableEq α] (l : List α) :
    List ((α × α) × List α) :=
  (upperPairs l).map (fun p => (p, l.filter (fun x => x ≠ p.1 ∧ x ≠ p.2)))

/-- `applyNakedPairsInBox` (`types.ts`). -/
def applyNakedPairsInBox (g : Game) (boxRow boxCol : ℕ) : Bool × Game :=
  let cells := (boxCells boxRow boxCol).filter (fun rc =>
    jsEq (g.board rc.1 rc.2) (some 0))
  match firstHit (nakedPairsBoxHit g boxRow boxCol) (upperPairsWithRest cells) with
  | some g' => (true, g')
  | none => (false, g)

/-- `applyNakedPairs` (`types.ts`): rows, then columns, then boxes, each
toggleable, returning at the first productive unit. -/
def applyNakedPairs (g : Game) (opts : Option SolverOptions) : Bool × Game :=
  if flagIsFalse opts (·.nakedPairs) then (false, g)
  else
    let tryRows :=
      if !flagIsFalse opts (·.nakedPairsRows) then
        firstHit (fun r => match applyNakedPairsInRow g r with
          | (true, g') => some g'
          | (false, _) => none) (List.range 9)
      else none
    match tryRows with
    | some g' => (true, g')
    | none =>
      let tryCols :=
        if !flagIsFalse opts (·.nakedPairsCols) then
          firstHit (fun c => match applyNakedPairsInCol g c with
            | (true, g') => some g'
            | (false, _) => none) (List.range 9)
        else none
      match tryCols with
      | some g' => (true, g')
      | none =>
        let tryBoxes :=
          if !flagIsFalse opts (·.nakedPairsBoxes) then
            firstHit (fun bb => match applyNakedPairsInBox g bb.1 bb.2 with
              | (true, g') => some g'
              | (false, _) => none) allBoxes
          else none
        match tryBoxes with
        | some g' => (true, g')
        | none => (false, g)

/-!
## Naked triples (`nakedTriples.ts`)
-/

/-- `isSubset` (`nakedTriples.ts`). -/
def isSubset (a b : List JSNum) : Bool := a.all (fun x => setHas b x)

/-- One triple of columns of `applyNakedTriplesInRow`; accumulates the
changed flag and threads the game (the unit scan does not short-circuit). -/
def nakedTriplesRowStep (row : ℕ) (acc : Bool × Game) (t : ℕ × ℕ × ℕ) :
    Bool × Game :=
  let (col1, col2, col3) := t
  let g := acc.2
  let cands1 := g.candidates row col1
  let cands2 := g.candidates row col2
  let cands3 := g.candidates row col3
  let union := setFromList (cands1 ++ cands2 ++ cands3)
  if union.length = 3 ∧ isSubset cands1 union ∧ isSubset cands2 union ∧
      isSubset cands3 union then
    let tripleValues := union
    let reqs := ((List.range 9).filter (fun c =>
        c ≠ col1 ∧ c ≠ col2 ∧ c ≠ col3 ∧ jsEq (g.board row c) (some 0))).flatMap
      (fun c => tripleValues.map (fun val => (row, c, val)))
    let pd := processDeletes g.candidates reqs
    let changed := acc.1 || pd.2.length > 0
    let g := { g with candidates := pd.1 }
    if pd.2.length > 0 then
      (changed, addSnapshot g "Naked Triple" (some "Row") 4
        (some { Highlight.empty with
                rows := some [row]
                blocks := some [(row, col1), (row, col2), (row, col3)]
                candidates := some (cands1.map (fun d => (row, col1, d)) ++
                  cands2.map (fun d => (row, col2, d)) ++
                  cands3.map (fun d => (row, col3, d)))
                removedCandidates := some pd.2 }))
    else (changed, g)
  else acc

/-- `applyNakedTriplesInRow` (`nakedTriples.ts`): scans all column
triples of the row, accumulating changes. -/
def applyNakedTriplesInRow (g : Game) (row : ℕ) : Bool × Game :=
  let emptyCols := (List.range 9).filter (fun col => jsEq (g.board row col) (some 0))
  (upperTriples emptyCols).foldl (nakedTriplesRowStep row) (false, g)

/-- One triple of rows of `applyNakedTriplesInColumn`. -/
def nakedTriplesColStep (col : ℕ) (acc : Bool × Game) (t : ℕ × ℕ × ℕ) :
    Bool × Game :=
  let (row1, row2, row3) := t
  let g := acc.2
  let cands1 := g.candidates row1 col
  let cands2 := g.candidates row2 col
  let cands3 := g.candidates row3 col
  let union := setFromList (cands1 ++ cands2 ++ cands3)
  if union.length = 3 ∧ isSubset cands1 union ∧ isSubset cands2 union ∧
      isSubset cands3 union then
    let tripleValues := union
    let reqs := ((List.range 9).filter (fun r =>
        r ≠ row1 ∧ r ≠ row2 ∧ r ≠ row3 ∧ jsEq (g.board r col) (some 0))).flatMap
      (fun r => tripleValues.map (fun val => (r, col, val)))
    let pd := processDeletes g.candidates reqs
    let changed := acc.1 || pd.2.length > 0
    let g := { g with candidates := pd.1 }
    if pd.2.length > 0 then
      (changed, addSnapshot g "Naked Triple" (some "Column") 4
        (some { Highlight.empty with
                cols := some [col]
                blocks := some [(row1, col), (row2, col), (row3, col)]
                candidates := some (cands1.map (fun d => (row1, col, d)) ++
                  cands2.map (fun d => (row2, col, d)) ++
                  cands3.map (fun d => (row3, col, d)))
                removedCandidates := some pd.2 }))
    else (changed, g)
  else acc

/-- `applyNakedTriplesInColumn` (`nakedTriples.ts`). -/
def applyNakedTriplesInColumn (g : Game) (col : ℕ) : Bool × Game :=
  let emptyRows := (List.range 9).filter (fun row => jsEq (g.board row col) (some 0))
  (upperTriples emptyRows).foldl (nakedTriplesColStep col) (false, g)

/-- One triple of cells of `applyNakedTriplesInBox`; the elimination loop
rescans the whole box, skipping the triple cells. -/
def nakedTriplesBoxStep (boxRow boxCol : ℕ) (acc : Bool × Game)
    (t : (ℕ × ℕ) × (ℕ × ℕ) × (ℕ × ℕ)) : Bool × Game :=
  let (cell1, cell2, cell3) := t
  let g := acc.2
  let cands1 := g.candidates cell1.1 cell1.2
  let cands2 := g.candidates cell2.1 cell2.2
  let cands3 := g.candidates cell3.1 cell3.2
  let union := setFromList (cands1 ++ cands2 ++ cands3)
  if union.length = 3 ∧ isSubset cands1 union ∧ isSubset cands2 union ∧
      isSubset cands3 union then
    let tripleValues := union
    let reqs := ((boxCells boxRow boxCol).filter (fun rc =>
        rc ≠ cell1 ∧ rc ≠ cell2 ∧ rc ≠ cell3 ∧
          jsEq (g.board rc.1 rc.2) (some 0))).flatMap
      (fun rc => tripleValues.map (fun val => (rc.1, rc.2, val)))
    let pd := processDeletes g.candidates reqs
    let changed := acc.1 || pd.2.length > 0
    let g := { g with candidates := pd.1 }
    if pd.2.length > 0 then
      (changed, addSnapshot g "Naked Triple" (some "Box") 4
        (some { Highlight.empty with
                boxes := some [(boxRow, boxCol)]
                blocks := some [cell1, cell2, cell3]
                candidates := some (cands1.map (fun d => (cell1.1, cell1.2, d)) ++
                  cands2.map (fun d => (cell2.1, cell2.2, d)) ++
                  cands3.map (fun d => (cell3.1, cell3.2, d)))
                removedCandidates := some pd.2 }))
    else (changed, g)
  else acc

/-- `applyNakedTriplesInBox` (`nakedTriples.ts`). -/
def applyNakedTriplesInBox (g : Game) (boxRow boxCol : ℕ) : Bool × Game :=
  let emptyCells := (boxCells boxRow boxCol).filter (fun rc =>
    jsEq (g.board rc.1 rc.2) (some 0))
  (upperTriples emptyCells).foldl (nakedTriplesBoxStep boxRow boxCol) (false, g)

/-- `applyNakedTriples` (`nakedTriples.ts`): rows, then columns, then
boxes; the dispatcher returns at the first productive unit. -/
def applyNakedTriples (g : Game) (opts : Option SolverOptions) : Bool × Game :=
  if flagIsFalse opts (·.nakedTriples) then (false, g)
  else
    let tryRows :=
      if !flagIsFalse opts (·.nakedTriplesRows) then
        firstHit (fun r => match applyNakedTriplesInRow g r with
          | (true, g') => some g'
          | (false, _) => none) (List.range 9)
      else none
    match tryRows with
    | some g' => (true, g')
    | none =>
      let tryCols :=
        if !flagIsFalse opts (·.nakedTriplesCols) then
          firstHit (fun c => match applyNakedTriplesInColumn g c with
            | (true, g') => some g'
            | (false, _) => none) (List.range 9)
        else none
      match tryCols with
      | some g' => (true, g')
      | none =>
        let tryBoxes :=
          if !flagIsFalse opts (·.nakedTriplesBoxes) then
            firstHit (fun bb => match applyNakedTriplesInBox g bb.1 bb.2 with
              | (true, g') => some g'
              | (false, _) => none) allBoxes
          else none
        match tryBoxes with
        | some g' => (true, g')
        | none => (false, g)

/-!
## Hidden pairs (`hiddenPairs.ts`)
-/

/-- `arrayEquals` (`hiddenPairs.ts`). -/
def arrayEquals (a b : List ℕ) : Bool := a == b

/-- `stripOtherCandidates` (`hiddenPairs.ts`): remove every digit of
`candidates[row][col]` not in `allowed` (via `Array.includes`, i.e.
SameValueZero), recording removals.  Returns the changed flag, the new
grid and the removals. -/
def stripOtherCandidates (cs : Cands) (row col : ℕ) (allowed : List JSNum) :
    Bool × Cands × List (ℕ × ℕ × JSNum) :=
  let toRemove := (cs row col).filter (fun digit =>
    !allowed.any (fun a => svz digit a))
  let pd := processDeletes cs (toRemove.map (fun d => (row, col, d)))
  (pd.2.length > 0, pd.1, pd.2)

/-- The per-digit position lists of a row (`positionsForDigit[d]`): the
columns of the empty cells of `row` that still hold `d`, in column order. -/
def positionsForDigitInRow (g : Game) (row : ℕ) (d : ℤ) : List ℕ :=
  (List.range 9).filter (fun col =>
    jsEq (g.board row col) (some 0) ∧ setHas (g.candidates row col) (some d))

/-- One digit pair `(d1, d2)` of `applyHiddenPairsInRow`: on identical
length-2 position lists, strip the other digits from the two cells and
snapshot if anything was removed; the scan continues either way. -/
def hiddenPairsRowStep (row : ℕ) (positions : ℤ → List ℕ) (acc : Bool × Game)
    (p : ℤ × ℤ) : Bool × Game :=
  let (d1, d2) := p
  let cols1 := positions d1
  if cols1.length = 2 then
    if arrayEquals cols1 (positions d2) then
      let c1 := cols1.headD 0
      let c2 := (cols1.drop 1).headD 0
      let g := acc.2
      let s1 := stripOtherCandidates g.candidates row c1 [some d1, some d2]
      let s2 := stripOtherCandidates s1.2.1 row c2 [some d1, some d2]
      let changed := s1.1 || s2.1 || acc.1
      let removed := s1.2.2 ++ s2.2.2
      let g := { g with candidates := s2.2.1 }
      if removed.length > 0 then
        (changed, addSnapshot g "Hidden Pair" (some "Row") 5
          (some { Highlight.empty with
                  rows := some [row]
                  blocks := some [(row, c1), (row, c2)]
                  candidates := some [(row, c1, some d1), (row, c1, some d2),
                    (row, c2, some d1), (row, c2, some d2)]
                  removedCandidates := some removed }))
      else (changed, g)
    else acc
  else acc

/-- `applyHiddenPairsInRow` (`hiddenPairs.ts`): skips rows with fewer
than two empty cells; computes the position lists once, then scans all
digit pairs to completion (no short-circuit inside the unit). -/
def applyHiddenPairsInRow (g : Game) (row : ℕ) : Bool × Game :=
  let emptyCells := ((List.range 9).filter (fun col =>
    jsEq (g.board row col) (some 0))).length
  if emptyCells < 2 then (false, g)
  else
    (upperPairs digitsZ).foldl (hiddenPairsRowStep row (positionsForDigitInRow g row))
      (false, g)

/-- Per-digit position lists of a column. -/
def positionsForDigitInCol (g : Game) (col : ℕ) (d : ℤ) : List ℕ :=
  (List.range 9).filter (fun row =>
    jsEq (g.board row col) (some 0) ∧ setHas (g.candidates row col) (some d))

/-- One digit pair of `applyHiddenPairsInColumn`. -/
def hiddenPairsColStep (col : ℕ) (positions : ℤ → List ℕ) (acc : Bool × Game)
    (p : ℤ × ℤ) : Bool × Game :=
  let (d1, d2) := p
  let rows1 := positions d1
  if rows1.length = 2 then
    if arrayEquals rows1 (positions d2) then
      let r1 := rows1.headD 0
      let r2 := (rows1.drop 1).headD 0
      let g := acc.2
      let s1 := stripOtherCandidates g.candidates r1 col [some d1, some d2]
      let s2 := stripOtherCandidates s1.2.1 r2 col [some d1, some d2]
      let changed := s1.1 || s2.1 || acc.1
      let removed := s1.2.2 ++ s2.2.2
      let g := { g with candidates := s2.2.1 }
      if removed.length > 0 then
        (changed, addSnapshot g "Hidden Pair" (some "Column") 5
          (some { Highlight.empty with
                  cols := some [col]
                  blocks := some [(r1, col), (r2, col)]
                  candidates := some [(r1, col, some d1), (r1, col, some d2),
                    (r2, col, some d1), (r2, col, some d2)]
                  removedCandidates := some removed }))
      else (changed, g)
    else acc
  else acc

/-- `applyHiddenPairsInColumn` (`hiddenPairs.ts`). -/
def applyHiddenPairsInColumn (g : Game) (col : ℕ) : Bool × Game :=
  let emptyCells := ((List.range 9).filter (fun row =>
    jsEq (g.board row col) (some 0))).length
  if emptyCells < 2 then (false, g)
  else
    (upperPairs digitsZ).foldl (hiddenPairsColStep col (positionsForDigitInCol g col))
      (false, g)

/-- Insertion step of the JS coordinate sort `(p1[0] - p2[0]) || (p1[1] - p2[1])`. -/
def insertCoord (p : ℕ × ℕ) : List (ℕ × ℕ) → List (ℕ × ℕ)
  | [] => [p]
  | q :: rest =>
    if p.1 < q.1 ∨ (p.1 = q.1 ∧ p.2 ≤ q.2) then p :: q :: rest
    else q :: insertCoord p rest

/-- Sort coordinates lexicographically (the JS `sort` comparator). -/
def sortCoords : List (ℕ × ℕ) → List (ℕ × ℕ)
  | [] => []
  | p :: rest => insertCoord p (sortCoords rest)

/-- `coordsEquals` (`hiddenPairs.ts`): equality of coordinate lists up to
the lexicographic sort. -/
def coordsEquals (a b : List (ℕ × ℕ)) : Bool :=
  a.length = b.length && sortCoords a == sortCoords b

/-- Per-digit position lists of a box: the empty cells of the box that
still hold `d`, in box scan order. -/
def positionsForDigitInBox (g : Game) (boxRow boxCol : ℕ) (d : ℤ) :
    List (ℕ × ℕ) :=
  ((boxCells boxRow boxCol).filter (fun rc =>
    jsEq (g.board rc.1 rc.2) (some 0))).filter (fun rc =>
      setHas (g.candidates rc.1 rc.2) (some d))

/-- One digit pair of `applyHiddenPairsInBox`. -/
def hiddenPairsBoxStep (boxRow boxCol : ℕ) (positions : ℤ → List (ℕ × ℕ))
    (acc : Bool × Game) (p : ℤ × ℤ) : Bool × Game :=
  let (d1, d2) := p
  let coords1 := positions d1
  if coords1.length = 2 then
    let coords2 := positions d2
    if coords2.length = 2 ∧ coordsEquals coords1 coords2 then
      let cellA := coords1.headD (0, 0)
      let cellB := (coords1.drop 1).headD (0, 0)
      let g := acc.2
      let s1 :=
        stripOtherCandidates g.candidates cellA.1 cellA.2 [some d1, some d2]
      let s2 :=
        stripOtherCandidates s1.2.1 cellB.1 cellB.2 [some d1, some d2]
      let changed := s1.1 || s2.1 || acc.1
      let removed := s1.2.2 ++ s2.2.2
      let g := { g with candidates := s2.2.1 }
      if removed.length > 0 then
        (changed, addSnapshot g "Hidden Pair" (some "Box") 5
          (some { Highlight.empty with
                  boxes := some [(boxRow, boxCol)]
                  blocks := some [cellA, cellB]
                  candidates := some [(cellA.1, cellA.2, some d1),
                    (cellA.1, cellA.2, some d2), (cellB.1, cellB.2, some d1),
                    (cellB.1, cellB.2, some d2)]
                  removedCandidates := some removed }))
      else (changed, g)
    else acc
  else acc

/-- `applyHiddenPairsInBox` (`hiddenPairs.ts`). -/
def applyHiddenPairsInBox (g : Game) (boxRow boxCol : ℕ) : Bool × Game :=
  let emptyCells := (boxCells boxRow boxCol).filter (fun rc =>
    jsEq (g.board rc.1 rc.2) (some 0))
  if emptyCells.length < 2 then (false, g)
  else
    (upperPairs digitsZ).foldl
      (hiddenPairsBoxStep boxRow boxCol (positionsForDigitInBox g boxRow boxCol))
      (false, g)

/-- `applyHiddenPairs` (`hiddenPairs.ts`): boxes, then rows, then
columns; returns `true` as soon as a single *unit* call reports a change. -/
def applyHiddenPairs (g : Game) (opts : Option SolverOptions) : Bool × Game :=
  if flagIsFalse opts (·.hiddenPairs) then (false, g)
  else
    let tryBoxes :=
      if !flagIsFalse opts (·.hiddenPairsBoxes) then
        firstHit (fun bb => match applyHiddenPairsInBox g bb.1 bb.2 with
          | (true, g') => some g'
          | (false, _) => none) allBoxes
      else none
    match tryBoxes with
    | some g' => (true, g')
    | none =>
      let tryRows :=
        if !flagIsFalse opts (·.hiddenPairsRows) then
          firstHit (fun r => match applyHiddenPairsInRow g r with
            | (true, g') => some g'
            | (false, _) => none) (List.range 9)
        else none
      match tryRows with
      | some g' => (true, g')
      | none =>
        let tryCols :=
          if !flagIsFalse opts (·.hiddenPairsCols) then
            firstHit (fun c => match applyHiddenPairsInColumn g c with
              | (true, g') => some g'
              | (false, _) => none) (List.range 9)
          else none
        match tryCols with
        | some g' => (true, g')
        | none => (false, g)

/-!
## Box-line reduction (`boxLineReduction.ts`)
-/

/-- `eliminateDigitFromBox` (`boxLineReduction.ts`): delete `digit` from
the empty cells of a box, skipping an excluded row or column (whose
matching cells are collected as highlight blocks instead); snapshot and
report `true` if anything was removed. -/
def eliminateDigitFromBox (g : Game) (boxRow boxCol : ℕ) (digit : ℤ)
    (excludeRow excludeCol : Option ℕ) : Bool × Game :=
  let excluded : ℕ × ℕ → Bool := fun rc =>
    (match excludeRow with | some er => rc.1 = er | none => false) ||
    (match excludeCol with | some ec => rc.2 = ec | none => false)
  let blockHighlight := (boxCells boxRow boxCol).filter (fun rc =>
    excluded rc ∧ jsEq (g.board rc.1 rc.2) (some 0) ∧
      setHas (g.candidates rc.1 rc.2) (some digit))
  let reqs := ((boxCells boxRow boxCol).filter (fun rc =>
    !excluded rc ∧ jsEq (g.board rc.1 rc.2) (some 0))).map
    (fun rc => (rc.1, rc.2, (some digit : JSNum)))
  let pd := processDeletes g.candidates reqs
  if pd.2.length > 0 then
    let g := addSnapshot { g with candidates := pd.1 } "Box Line Reduction"
      (some (if excludeRow.isNone then "Column" else "Row")) 5
      (some { Highlight.empty with
              rows := some (match excludeRow with | some er => [er] | none => [])
              cols := some (match excludeCol with | some ec => [ec] | none => [])
              boxes := some [(boxRow, boxCol)]
              blocks := some blockHighlight
              candidates := some (blockHighlight.map (fun rc => (rc.1, rc.2, some digit)))
              removedCandidates := some pd.2 })
    (true, g)
  else (false, g)

/-- One `(row, digit)` iteration of `applyBoxLineReductionInRows`. -/
def blrRowHit (g : Game) (rd : ℕ × ℤ) : Option Game :=
  let (row, digit) := rd
  if isDigitInRow g.board row digit then none
  else
    let colsForDigit := (List.range 9).filter (fun col =>
      jsEq (g.board row col) (some 0) ∧ setHas (g.candidates row col) (some digit))
    if colsForDigit.length > 1 ∧ colsForDigit.length ≤ 3 then
      let boxColStart := colsForDigit.headD 0 / 3
      if colsForDigit.all (fun c => c / 3 = boxColStart) then
        let rowBox := row / 3
        match eliminateDigitFromBox g rowBox boxColStart digit (some row) none with
        | (true, g') => some g'
        | (false, _) => none
      else none
    else none

/-- `applyBoxLineReductionInRows` (`boxLineReduction.ts`). -/
def applyBoxLineReductionInRows (g : Game) : Bool × Game :=
  match firstHit (blrRowHit g)
      ((List.range 9).flatMap (fun row => digitsZ.map (fun d => (row, d)))) with
  | some g' => (true, g')
  | none => (false, g)

/-- One `(col, digit)` iteration of `applyBoxLineReductionInColumns`. -/
def blrColHit (g : Game) (cd : ℕ × ℤ) : Option Game :=
  let (col, digit) := cd
  if isDigitInCol g.board col digit then none
  else
    let rowsForDigit := (List.range 9).filter (fun row =>
      jsEq (g.board row col) (some 0) ∧ setHas (g.candidates row col) (some digit))
    if rowsForDigit.length > 1 ∧ rowsForDigit.length ≤ 3 then
      let boxRowStart := rowsForDigit.headD 0 / 3
      if rowsForDigit.all (fun r => r / 3 = boxRowStart) then
        let boxCol := col / 3
        match eliminateDigitFromBox g boxRowStart boxCol digit none (some col) with
        | (true, g') => some g'
        | (false, _) => none
      else none
    else none

/-- `applyBoxLineReductionInColumns` (`boxLineReduction.ts`). -/
def applyBoxLineReductionInColumns (g : Game) : Bool × Game :=
  match firstHit (blrColHit g)
      ((List.range 9).flatMap (fun col => digitsZ.map (fun d => (col, d)))) with
  | some g' => (true, g')
  | none => (false, g)

/-- `applyBoxLineReduction` (`boxLineReduction.ts`): rows then columns,
each toggleable, returning at the first change. -/
def applyBoxLineReduction (g : Game) (opts : Option SolverOptions) : Bool × Game :=
  if flagIsFalse opts (·.boxLineReduction) then (false, g)
  else
    let tryRows :=
      if !flagIsFalse opts (·.boxLineReductionRows) then applyBoxLineReductionInRows g
      else (false, g)
    if tryRows.1 then (true, tryRows.2)
    else
      let tryCols :=
        if !flagIsFalse opts (·.boxLineReductionCols) then applyBoxLineReductionInColumns g
        else (false, g)
      if tryCols.1 then (true, tryCols.2) else (false, g)

/-!
## X-Wing (`xwing.ts`)
-/

/-- One row pair `(r1, r2)` of `applyXWingRows` for digit `d`; `pos` is
the per-row column list computed once at the start of the call. -/
def xwingRowStep (d : ℤ) (pos : ℕ → List ℕ) (acc : Bool × Game) (p : ℕ × ℕ) :
    Bool × Game :=
  let (r1, r2) := p
  if (pos r1).length = 2 ∧ (pos r2).length = 2 then
    let c1 := (pos r1).headD 0
    let c2 := ((pos r1).drop 1).headD 0
    if (pos r2).headD 0 = c1 ∧ ((pos r2).drop 1).headD 0 = c2 then
      let g := acc.2
      let reqs := ((List.range 9).filter (fun rx => rx ≠ r1 ∧ rx ≠ r2)).flatMap
        (fun rx =>
          (if jsEq (g.board rx c1) (some 0) then [(rx, c1, (some d : JSNum))] else []) ++
          (if jsEq (g.board rx c2) (some 0) then [(rx, c2, (some d : JSNum))] else []))
      let pd := processDeletes g.candidates reqs
      let changed := acc.1 || pd.2.length > 0
      let g := { g with candidates := pd.1 }
      if pd.2.length > 0 then
        (changed, addSnapshot g "X-Wing" (some "Row") 6
          (some { Highlight.empty with
                  rows := some [r1, r2]
                  cols := some [c1, c2]
                  blocks := some [(r1, c1), (r2, c1), (r1, c2), (r2, c2)]
                  candidates := some [(r1, c1, some d), (r2, c1, some d),
                    (r1, c2, some d), (r2, c2, some d)]
                  removedCandidates := some pd.2 }))
      else (changed, g)
    else acc
  else acc

/-- `applyXWingRows` (`xwing.ts`): position lists are computed once; all
row pairs are scanned, accumulating changes. -/
def applyXWingRows (g : Game) (d : ℤ) : Bool × Game :=
  let pos := fun r => (List.range 9).filter (fun c =>
    jsEq (g.board r c) (some 0) ∧ setHas (g.candidates r c) (some d))
  (upperPairs (List.range 9)).foldl (xwingRowStep d pos) (false, g)

/-- One column pair `(c1, c2)` of `applyXWingColumns` for digit `d`. -/
def xwingColStep (d : ℤ) (pos : ℕ → List ℕ) (acc : Bool × Game) (p : ℕ × ℕ) :
    Bool × Game :=
  let (c1, c2) := p
  if (pos c1).length = 2 ∧ (pos c2).length = 2 then
    let r1 := (pos c1).headD 0
    let r2 := ((pos c1).drop 1).headD 0
    if (pos c2).headD 0 = r1 ∧ ((pos c2).drop 1).headD 0 = r2 then
      let g := acc.2
      let reqs := ((List.range 9).filter (fun cx => cx ≠ c1 ∧ cx ≠ c2)).flatMap
        (fun cx =>
          (if jsEq (g.board r1 cx) (some 0) then [(r1, cx, (some d : JSNum))] else []) ++
          (if jsEq (g.board r2 cx) (some 0) then [(r2, cx, (some d : JSNum))] else []))
      let pd := processDeletes g.candidates reqs
      let changed := acc.1 || pd.2.length > 0
      let g := { g with candidates := pd.1 }
      if pd.2.length > 0 then
        (changed, addSnapshot g "X-Wing" (some "Column") 6
          (some { Highlight.empty with
                  rows := some [r1, r2]
                  cols := some [c1, c2]
                  blocks := some [(r1, c1), (r2, c1), (r1, c2), (r2, c2)]
                  candidates := some [(r1, c1, some d), (r2, c1, some d),
                    (r1, c2, some d), (r2, c2, some d)]
                  removedCandidates := some pd.2 }))
      else (changed, g)
    else acc
  else acc

/-- `applyXWingColumns` (`xwing.ts`). -/
def applyXWingColumns (g : Game) (d : ℤ) : Bool × Game :=
  let pos := fun c => (List.range 9).filter (fun r =>
    jsEq (g.board r c) (some 0) ∧ setHas (g.candidates r c) (some d))
  (upperPairs (List.range 9)).foldl (xwingColStep d pos) (false, g)

/-- `applyXWing` (`xwing.ts`): for each digit, row-based then
column-based, returning at the first productive digit/orientation. -/
def applyXWing (g : Game) (opts : Option SolverOptions) : Bool × Game :=
  if flagIsFalse opts (·.xWing) then (false, g)
  else
    match firstHit (fun dk : ℤ × Bool =>
        let (d, isRow) := dk
        if isRow then
          if !flagIsFalse opts (·.xWingRows) then
            match applyXWingRows g d with
            | (true, g') => some g'
            | (false, _) => none
          else none
        else
          if !flagIsFalse opts (·.xWingCols) then
            match applyXWingColumns g d with
            | (true, g') => some g'
            | (false, _) => none
          else none)
      (digitsZ.flatMap (fun d => [(d, true), (d, false)])) with
    | some g' => (true, g')
    | none => (false, g)

/-!
## Strategy scheduler and `solveSudoku` (`types.ts`)
-/

/-- One iteration of the `while (changed)` body of
`applyLogicalStrategies`: strategies are tried in the fixed order Naked
Singles, Naked Pairs, Hidden Singles, Naked Triples, Hidden Pairs,
Box-Line Reduction, X-Wing; the `!changed &&` short-circuit stops the
iteration at the first strategy reporting a change. -/
def passStrategies (g : Game) (opts : Option SolverOptions) : Bool × Game :=
  let r1 := applyNakedSingles g opts
  if r1.1 then (true, r1.2)
  else
    let r2 := applyNakedPairs r1.2 opts
    if r2.1 then (true, r2.2)
    else
      let r3 := applyHiddenSingles r2.2 opts
      if r3.1 then (true, r3.2)
      else
        let r4 := applyNakedTriples r3.2 opts
        if r4.1 then (true, r4.2)
        else
          let r5 := applyHiddenPairs r4.2 opts
          if r5.1 then (true, r5.2)
          else
            let r6 := applyBoxLineReduction r5.2 opts
            if r6.1 then (true, r6.2)
            else
              let r7 := applyXWing r6.2 opts
              if r7.1 then (true, r7.2)
              else (false, r7.2)

/-- The number of empty cells of the board. -/
def emptyCount (b : Board) : ℕ :=
  ((allCells.filter (fun rc => jsEq (b rc.1 rc.2) (some 0))).length)

/-- The total number of candidates over all 81 cells. -/
def totalCands (cs : Cands) : ℕ :=
  (allCells.map (fun rc => (cs rc.1 rc.2).length)).sum

/-- Termination measure for the scheduler loop: empty cells plus total
candidates.  Every pass that reports a change strictly decreases it
(proved below for the states the program reaches). -/
def measureG (g : Game) : ℕ := emptyCount g.board + totalCands g.candidates

/-- The `while (changed)` loop of `applyLogicalStrategies`, with explicit
fuel. -/
def applyLogicalStrategiesFuel : ℕ → Game → Option SolverOptions → Game
  | 0, g, _ => g
  | n + 1, g, opts =>
    match passStrategies g opts with
    | (true, g') => applyLogicalStrategiesFuel n g' opts
    | (false, g') => g'

/-- `applyLogicalStrategies` (`types.ts`): loop until a full pass over
all seven strategies produces no change.  The fuel `measureG g + 1` is
enough for every state whose empty cells carry only digit candidates
(`WFGame`, proved below). -/
def applyLogicalStrategies (g : Game) (opts : Option SolverOptions) : Game :=
  applyLogicalStrategiesFuel (measureG g + 1) g opts

/-- `solveSudoku` (`types.ts`): parse/clone the input, build candidates,
record the seed snapshot and run the logical phase.  The backtracking
fallback of the design is commented out in the source and therefore not
part of this function. -/
def solveSudoku (startingBoard : List (List JSNum) ⊕ String)
    (options : Option SolverOptions) : Except String Game := do
  let m ← match startingBoard with
    | .inr s => stringToBoard s
    | .inl mat => pure mat
  let board := deepCloneBoard (matrixToBoard m)
  let game : Game := { board := board, candidates := buildCandidates board, snapshots := [] }
  let game := addSnapshot game "Initial Board" none 0 none
  let game := applyLogicalStrategies game options
  return game

/-!
## Backtracking (`types.ts` §3)
-/

/-- `findEmptyCell` (`types.ts`): the first empty cell in row-major
order; `none` models the `[-1, -1]` sentinel. -/
def findEmptyCell (b : Board) : Option (ℕ × ℕ) :=
  allCells.find? (fun rc => jsEq (b rc.1 rc.2) (some 0))

/-- `isValid` (`types.ts`): no cell of the row, column or box already
holds `digit` (`===`, so a NaN digit is never found). -/
def isValid (b : Board) (row col : ℕ) (digit : JSNum) : Bool :=
  ((List.range 9).all (fun c => !jsEq (b row c) digit)) &&
  ((List.range 9).all (fun r => !jsEq (b r col) digit)) &&
  ((List.range 3).all (fun r => (List.range 3).all (fun c =>
    !jsEq (b (row - row % BOX_SIZE + r) (col - col % BOX_SIZE + c)) digit)))

/-- `rebuildAllCandidates` (`types.ts`): replace every candidate set by
the ones freshly built from the current board. -/
def rebuildAllCandidates (g : Game) : Game :=
  { g with candidates := buildCandidates g.board }

/-- The `for (const digit of possibleDigits)` loop of `backtrack`:
`recurse` is the recursive call at the next fuel level. -/
def backtrackTry (recurse : Game → Bool × Game) (row col : ℕ) :
    List JSNum → Game → Bool × Game
  | [], g => (false, g)
  | digit :: rest, g =>
    if isValid g.board row col digit then
      let oldCandidates := g.candidates row col
      let board := setCell g.board row col digit
      let cands := setCands g.candidates row col [digit]
      let cands := eliminateFromPeers board cands row col digit
      match recurse { g with board := board, candidates := cands } with
      | (true, g') => (true, g')
      | (false, g') =>
        let board' := setCell g'.board row col (some 0)
        let cands' := setCands g'.candidates row col oldCandidates
        let g'' := rebuildAllCandidates { g' with board := board', candidates := cands' }
        backtrackTry recurse row col rest g''
    else backtrackTry recurse row col rest g

/-- `backtrack` (`types.ts`) with explicit fuel; each placement fills an
empty cell, so `emptyCount g.board + 1` fuel is enough (every recursive
call has one fewer empty cell). -/
def backtrackFuel : ℕ → Game → Bool × Game
  | 0, g => (false, g)
  | n + 1, g =>
    match findEmptyCell g.board with
    | none => (true, g)
    | some (row, col) =>
      backtrackTry (backtrackFuel n) row col (g.candidates row col) g

/-- `backtrack` (`types.ts`). -/
def backtrack (g : Game) : Bool × Game :=
  backtrackFuel (emptyCount g.board + 1) g

/-!
## Basic lemmas about the grid primitives
-/

theorem jsEq_some_zero {v : JSNum} (h : jsEq v (some 0) = true) : v = some 0 := by
  cases v with
  | none => simp [jsEq] at h
  | some a =>
    simp only [jsEq, beq_iff_eq] at h
    exact congrArg some h

theorem svz_eq_true_iff (d x : JSNum) : svz d x = true ↔ d = x := by
  cases d <;> cases x <;> simp [svz]

/-- `setHas` is exactly list membership. -/
theorem setHas_iff_mem (l : List JSNum) (d : JSNum) : setHas l d = true ↔ d ∈ l := by
  simp only [setHas, List.any_eq_true]
  constructor
  · rintro ⟨x, hx, hsvz⟩
    rw [(svz_eq_true_iff d x).mp hsvz]; exact hx
  · intro h
    exact ⟨d, h, (svz_eq_true_iff d d).mpr rfl⟩

/-- `setDelete` removes exactly the occurrences of `d`. -/
theorem mem_setDelete_iff (l : List JSNum) (d x : JSNum) :
    x ∈ setDelete l d ↔ x ∈ l ∧ x ≠ d := by
  simp only [setDelete, List.mem_filter, Bool.not_eq_true']
  constructor
  · rintro ⟨hm, hne⟩
    refine ⟨hm, fun h => ?_⟩
    rw [h] at hne
    simp [(svz_eq_true_iff d d).mpr rfl] at hne
  · rintro ⟨hm, hne⟩
    refine ⟨hm, ?_⟩
    cases hsvz : svz d x
    · rfl
    · exact absurd ((svz_eq_true_iff d x).mp hsvz).symm hne

theorem setDelete_sublist (l : List JSNum) (d : JSNum) :
    (setDelete l d).Sublist l := List.filter_sublist l

theorem getD_set_eq {α : Type} (l : List α) (i : ℕ) (v d : α) (h : i < l.length) :
    (l.set i v).getD i d = v := by
  rw [List.getD_eq_getElem?_getD, List.getElem?_set_self h]
  rfl

theorem getD_set_ne {α : Type} (l : List α) {i j : ℕ} (v d : α) (h : i ≠ j) :
    (l.set i v).getD j d = l.getD j d := by
  rw [List.getD_eq_getElem?_getD, List.getElem?_set_ne h, ← List.getD_eq_getElem?_getD]

/-- A cell whose lookup is nonempty lies in range of both indices. -/
theorem cands_lookup_ranges {cs : Cands} {r c : ℕ} (h : cs r c ≠ []) :
    r < cs.rows.length ∧ c < (cs.rows.getD r []).length := by
  by_cases hr : r < cs.rows.length
  · refine ⟨hr, ?_⟩
    by_cases hc : c < (cs.rows.getD r []).length
    · exact hc
    · exfalso
      apply h
      show (cs.rows.getD r []).getD c [] = []
      rw [List.getD_eq_getElem?_getD, List.getElem?_eq_none (le_of_not_lt hc)]
      rfl
  · exfalso
    apply h
    show (cs.rows.getD r []).getD c [] = []
    rw [List.getD_eq_getElem?_getD (cs.rows), List.getElem?_eq_none (le_of_not_lt hr)]
    rfl

/-- Reading back the written candidate cell (for in-range indices). -/
theorem setCands_cell_same {cs : Cands} {r c : ℕ} (l : List JSNum)
    (hr : r < cs.rows.length) (hc : c < (cs.rows.getD r []).length) :
    (setCands cs r c l) r c = l := by
  show ((cs.rows.set r _).getD r []).getD c [] = l
  rw [getD_set_eq _ _ _ _ hr, getD_set_eq _ _ _ _ hc]

/-- Writing one candidate cell leaves every other cell unchanged. -/
theorem setCands_cell_ne {cs : Cands} {r c : ℕ} (l : List JSNum) {r' c' : ℕ}
    (h : ¬(r' = r ∧ c' = c)) : (setCands cs r c l) r' c' = cs r' c' := by
  show ((cs.rows.set r _).getD r' []).getD c' [] = (cs.rows.getD r' []).getD c' []
  by_cases hr : r' = r
  · subst hr
    have hc : c ≠ c' := fun hcc => h ⟨rfl, hcc.symm⟩
    by_cases hrange : r' < cs.rows.length
    · rw [getD_set_eq _ _ _ _ hrange, getD_set_ne _ _ _ hc]
    · have hle := le_of_not_lt hrange
      rw [List.getD_eq_getElem?_getD (cs.rows.set r' _),
        List.getElem?_eq_none (by simpa using hle),
        List.getD_eq_getElem?_getD (cs.rows), List.getElem?_eq_none hle]
  · rw [getD_set_ne _ _ _ (fun hrr => hr hrr.symm)]

/-- Pointwise sublist order between candidate grids. -/
def CandsLE (cs' cs : Cands) : Prop := ∀ r c, (cs' r c).Sublist (cs r c)

theorem CandsLE.refl (cs : Cands) : CandsLE cs cs := fun _ _ => List.Sublist.refl _

theorem CandsLE.trans {a b c : Cands} (h1 : CandsLE a b) (h2 : CandsLE b c) :
    CandsLE a c := fun r cc => (h1 r cc).trans (h2 r cc)

theorem totalCands_le_of_candsLE {cs' cs : Cands} (h : CandsLE cs' cs) :
    totalCands cs' ≤ totalCands cs := by
  unfold totalCands
  exact List.sum_le_sum (fun rc _ => (h rc.1 rc.2).length_le)

theorem mem_allCells {rc : ℕ × ℕ} : rc ∈ allCells ↔ rc.1 < 9 ∧ rc.2 < 9 := by
  obtain ⟨r, c⟩ := rc
  simp [allCells, List.mem_flatMap]

theorem totalCands_lt_of_candsLE_of_lt {cs' cs : Cands} (h : CandsLE cs' cs)
    {r c : ℕ} (hr : r < 9) (hc : c < 9)
    (hlt : (cs' r c).length < (cs r c).length) :
    totalCands cs' < totalCands cs := by
  unfold totalCands
  refine List.sum_lt_sum _ _ (fun rc _ => (h rc.1 rc.2).length_le) ?_
  exact ⟨(r, c), mem_allCells.mpr ⟨hr, hc⟩, hlt⟩

/-!
### `delCell`
-/

theorem list_set_self {α : Type} (l : List α) (i : ℕ) (h : i < l.length) :
    l.set i l[i] = l := by
  apply List.ext_getElem
  · simp
  · intro n h1 h2
    by_cases hn : n = i
    · subst hn; simp
    · rw [List.getElem_set_ne (fun hh => hn hh.symm)]

/-- The deleting cell after `delCell`: either the filtered set (indices in
range) or unchanged (out-of-range writes are no-ops on an empty default). -/
theorem delCell_cell_self (cs : Cands) (r c : ℕ) (d : JSNum) :
    (delCell cs r c d) r c = setDelete (cs r c) d ∨ delCell cs r c d = cs := by
  by_cases h1 : r < cs.rows.length
  · by_cases h2 : c < (cs.rows.getD r []).length
    · exact Or.inl (setCands_cell_same _ h1 h2)
    · right
      show setCands cs r c _ = cs
      unfold setCands
      have hrow : (cs.rows.getD r []).set c (setDelete (cs r c) d) = cs.rows.getD r [] :=
        List.set_eq_of_length_le (le_of_not_lt h2)
      rw [hrow]
      have : cs.rows.set r (cs.rows.getD r []) = cs.rows := by
        rw [List.getD_eq_getElem?_getD, List.getElem?_eq_getElem h1,
          Option.getD_some]
        exact list_set_self _ _ h1
      rw [this]
  · right
    show setCands cs r c _ = cs
    unfold setCands
    rw [List.set_eq_of_length_le (le_of_not_lt h1)]

theorem delCell_candsLE (cs : Cands) (r c : ℕ) (d : JSNum) :
    CandsLE (delCell cs r c d) cs := by
  intro r' c'
  by_cases hsame : r' = r ∧ c' = c
  · obtain ⟨rfl, rfl⟩ := hsame
    rcases delCell_cell_self cs r' c' d with h | h
    · rw [h]; exact setDelete_sublist _ _
    · rw [h]
  · rw [show delCell cs r c d r' c' = cs r' c' from setCands_cell_ne _ hsame]

theorem delCell_cell_ne {cs : Cands} {r c : ℕ} (d : JSNum) {r' c' : ℕ}
    (h : ¬(r' = r ∧ c' = c)) : (delCell cs r c d) r' c' = cs r' c' :=
  setCands_cell_ne _ h

/-- When the deleted digit is present, the deleting cell genuinely
shrinks and afterwards no longer contains it. -/
theorem delCell_of_mem {cs : Cands} {r c : ℕ} {d : JSNum} (hmem : d ∈ cs r c) :
    (delCell cs r c d) r c = setDelete (cs r c) d := by
  have hne : cs r c ≠ [] := fun h => by simp [h] at hmem
  rcases cands_lookup_ranges hne with ⟨h1, h2⟩
  exact setCands_cell_same _ h1 h2

/-!
### A generic fold preserving `CandsLE`
-/

theorem foldl_candsLE {α : Type} {f : Cands → α → Cands}
    (hf : ∀ cs a, CandsLE (f cs a) cs) (l : List α) (cs : Cands) :
    CandsLE (l.foldl f cs) cs := by
  induction l generalizing cs with
  | nil => exact CandsLE.refl cs
  | cons a rest ih => exact (ih (f cs a)).trans (hf cs a)

theorem eliminateFromPeers_candsLE (b : Board) (cs : Cands) (row col : ℕ)
    (digit : JSNum) : CandsLE (eliminateFromPeers b cs row col digit) cs := by
  unfold eliminateFromPeers
  dsimp only
  refine CandsLE.trans (foldl_candsLE (fun cs r => ?_) _ _)
    (CandsLE.trans (foldl_candsLE (fun cs r => ?_) _ _)
      (foldl_candsLE (fun cs c => ?_) _ _))
  · refine foldl_candsLE (fun cs c => ?_) _ _
    dsimp only
    split
    · exact delCell_candsLE _ _ _ _
    · exact CandsLE.refl _
  · dsimp only
    split
    · exact delCell_candsLE _ _ _ _
    · exact CandsLE.refl _
  · dsimp only
    split
    · exact delCell_candsLE _ _ _ _
    · exact CandsLE.refl _

/-!
### Board writes and the empty-cell count
-/

/-- The 9x9 shape of a board, true of every board the program builds. -/
def ShapeB (b : Board) : Prop :=
  b.rows.length = 9 ∧ ∀ row ∈ b.rows, row.length = 9

instance : DecidablePred ShapeB := fun b => by
  unfold ShapeB
  infer_instance

theorem setCell_cell_same {b : Board} {r c : ℕ} (v : JSNum)
    (hb : ShapeB b) (hr : r < 9) (hc : c < 9) : (setCell b r c v) r c = v := by
  obtain ⟨hlen, hrow⟩ := hb
  have h1 : r < b.rows.length := by omega
  have h2 : c < (b.rows.getD r []).length := by
    rw [List.getD_eq_getElem?_getD, List.getElem?_eq_getElem h1, Option.getD_some,
      hrow _ (List.getElem_mem h1)]
    exact hc
  show ((b.rows.set r _).getD r []).getD c (some 0) = v
  rw [getD_set_eq _ _ _ _ h1, getD_set_eq _ _ _ _ h2]

theorem setCell_cell_ne {b : Board} {r c : ℕ} (v : JSNum) {r' c' : ℕ}
    (h : ¬(r' = r ∧ c' = c)) : (setCell b r c v) r' c' = b r' c' := by
  show ((b.rows.set r _).getD r' []).getD c' (some 0) =
    (b.rows.getD r' []).getD c' (some 0)
  by_cases hr : r' = r
  · subst hr
    have hc : c ≠ c' := fun hcc => h ⟨rfl, hcc.symm⟩
    by_cases hrange : r' < b.rows.length
    · rw [getD_set_eq _ _ _ _ hrange, getD_set_ne _ _ _ hc]
    · have hle := le_of_not_lt hrange
      rw [List.getD_eq_getElem?_getD (b.rows.set r' _),
        List.getElem?_eq_none (by simpa using hle),
        List.getD_eq_getElem?_getD (b.rows), List.getElem?_eq_none hle]
  · rw [getD_set_ne _ _ _ (fun hrr => hr hrr.symm)]

theorem setCell_shape {b : Board} {r c : ℕ} (v : JSNum) (hb : ShapeB b) :
    ShapeB (setCell b r c v) := by
  obtain ⟨hlen, hrow⟩ := hb
  by_cases h1 : r < b.rows.length
  · constructor
    · show (b.rows.set r _).length = 9
      rw [List.length_set]; exact hlen
    · intro row hmem
      rcases List.mem_or_eq_of_mem_set hmem with hmem' | rfl
      · exact hrow _ hmem'
      · rw [List.length_set]
        exact hrow _ (by
          rw [List.getD_eq_getElem?_getD, List.getElem?_eq_getElem h1, Option.getD_some]
          exact List.getElem_mem h1)
  · have : setCell b r c v = b := by
      show (⟨b.rows.set r _⟩ : Board) = b
      rw [List.set_eq_of_length_le (le_of_not_lt h1)]
    rw [this]
    exact ⟨hlen, hrow⟩

theorem length_filter_eq_sum_indicator {α : Type} (l : List α) (p : α → Bool) :
    (l.filter p).length = (l.map (fun a => if p a then 1 else 0)).sum := by
  induction l with
  | nil => rfl
  | cons a rest ih =>
    by_cases h : p a
    · simp [List.filter_cons, h, ih, Nat.add_comm]
    · simp [List.filter_cons, h, ih]

theorem emptyCount_eq_sum (b : Board) :
    emptyCount b = (allCells.map (fun rc =>
      if jsEq (b rc.1 rc.2) (some 0) = true then 1 else 0)).sum := by
  unfold emptyCount
  rw [length_filter_eq_sum_indicator]

/-- Filling an empty in-range cell with a non-zero value strictly
decreases the number of empty cells. -/
theorem emptyCount_setCell_lt {b : Board} {r c : ℕ} {v : JSNum}
    (hb : ShapeB b) (hr : r < 9) (hc : c < 9)
    (hemp : jsEq (b r c) (some 0) = true) (hv : jsEq v (some 0) = false) :
    emptyCount (setCell b r c v) < emptyCount b := by
  rw [emptyCount_eq_sum, emptyCount_eq_sum]
  refine List.sum_lt_sum _ _ (fun rc _ => ?_) ?_
  · by_cases hsame : rc.1 = r ∧ rc.2 = c
    · obtain ⟨h1, h2⟩ := hsame
      rw [h1, h2, setCell_cell_same v hb hr hc, hv, hemp]
      simp
    · rw [setCell_cell_ne v hsame]
  · refine ⟨(r, c), mem_allCells.mpr ⟨hr, hc⟩, ?_⟩
    show (if jsEq (setCell b r c v r c) (some 0) = true then 1 else 0) <
      (if jsEq (b r c) (some 0) = true then 1 else 0)
    rw [setCell_cell_same v hb hr hc, hv, hemp]
    simp

/-!
### `processDeletes`
-/

/-- Generalized invariant of the guarded-deletion fold. -/
theorem processDeletes_go (reqs : List (ℕ × ℕ × JSNum)) :
    ∀ (cs : Cands) (acc : List (ℕ × ℕ × JSNum)),
    (∀ t ∈ reqs, t.1 < 9 ∧ t.2.1 < 9) →
    ∃ nw,
      (reqs.foldl processDeletesStep (cs, acc)).2 = acc ++ nw ∧
      CandsLE (reqs.foldl processDeletesStep (cs, acc)).1 cs ∧
      (nw = [] → (reqs.foldl processDeletesStep (cs, acc)).1 = cs) ∧
      (nw ≠ [] →
        totalCands (reqs.foldl processDeletesStep (cs, acc)).1 < totalCands cs) ∧
      ∀ t ∈ nw, t.2.2 ∈ cs t.1 t.2.1 ∧
        t.2.2 ∉ (reqs.foldl processDeletesStep (cs, acc)).1 t.1 t.2.1 := by
  induction reqs with
  | nil =>
    intro cs acc _
    exact ⟨[], by simp, CandsLE.refl cs, fun _ => rfl,
      fun h => absurd rfl h, by simp⟩
  | cons req rest ih =>
    intro cs acc hreq
    obtain ⟨r, c, d⟩ := req
    obtain ⟨hr, hc⟩ := hreq _ (List.mem_cons_self _ _)
    have hreq' : ∀ t ∈ rest, t.1 < 9 ∧ t.2.1 < 9 :=
      fun t ht => hreq t (List.mem_cons_of_mem _ ht)
    by_cases hhas : setHas (cs r c) d = true
    · have hmem : d ∈ cs r c := (setHas_iff_mem _ _).mp hhas
      have hstep : processDeletesStep (cs, acc) (r, c, d) =
          (delCell cs r c d, acc ++ [(r, c, d)]) := by
        unfold processDeletesStep
        simp [hhas]
      obtain ⟨nw, h2, hle, hnil, hlt, hmemnw⟩ :=
        ih (delCell cs r c d) (acc ++ [(r, c, d)]) hreq'
      have hcellLT : ((delCell cs r c d) r c).length < (cs r c).length := by
        rw [delCell_of_mem hmem]
        unfold setDelete
        rw [List.length_filter_lt_length_iff_exists]
        exact ⟨d, hmem, by simp [(svz_eq_true_iff d d).mpr rfl]⟩
      have hdelLT : totalCands (delCell cs r c d) < totalCands cs :=
        totalCands_lt_of_candsLE_of_lt (delCell_candsLE cs r c d) hr hc hcellLT
      have hdnotin : d ∉ (delCell cs r c d) r c := by
        rw [delCell_of_mem hmem]
        intro hx
        exact ((mem_setDelete_iff _ _ _).mp hx).2 rfl
      refine ⟨(r, c, d) :: nw, ?_, ?_, ?_, ?_, ?_⟩
      · show (List.foldl processDeletesStep (processDeletesStep (cs, acc) _) rest).2 = _
        rw [hstep, h2, List.append_assoc]
        rfl
      · show CandsLE (List.foldl processDeletesStep (processDeletesStep (cs, acc) _) rest).1 cs
        rw [hstep]
        exact hle.trans (delCell_candsLE cs r c d)
      · intro habs
        exact absurd habs (List.cons_ne_nil _ _)
      · intro _
        show totalCands (List.foldl processDeletesStep (processDeletesStep (cs, acc) _) rest).1 < _
        rw [hstep]
        by_cases hnw : nw = []
        · rw [hnil hnw]
          exact hdelLT
        · exact lt_trans (hlt hnw) hdelLT
      · intro t ht
        rcases List.mem_cons.mp ht with rfl | ht'
        · refine ⟨hmem, ?_⟩
          show d ∉ (List.foldl processDeletesStep (processDeletesStep (cs, acc) _) rest).1 r c
          rw [hstep]
          intro hx
          exact hdnotin ((hle r c).mem hx)
        · obtain ⟨hin, hout⟩ := hmemnw t ht'
          refine ⟨((delCell_candsLE cs r c d) t.1 t.2.1).mem hin, ?_⟩
          show t.2.2 ∉ (List.foldl processDeletesStep (processDeletesStep (cs, acc) _) rest).1 t.1 t.2.1
          rw [hstep]
          exact hout
    · have hstep : processDeletesStep (cs, acc) (r, c, d) = (cs, acc) := by
        unfold processDeletesStep
        simp [hhas]
      obtain ⟨nw, h2, hle, hnil, hlt, hmemnw⟩ := ih cs acc hreq'
      refine ⟨nw, ?_, ?_, ?_, ?_, ?_⟩
      · show (List.foldl processDeletesStep (processDeletesStep (cs, acc) _) rest).2 = _
        rw [hstep]
        exact h2
      · show CandsLE (List.foldl processDeletesStep (processDeletesStep (cs, acc) _) rest).1 cs
        rw [hstep]
        exact hle
      · intro h
        show (List.foldl processDeletesStep (processDeletesStep (cs, acc) _) rest).1 = cs
        rw [hstep]
        exact hnil h
      · intro h
        show totalCands (List.foldl processDeletesStep (processDeletesStep (cs, acc) _) rest).1 < _
        rw [hstep]
        exact hlt h
      · intro t ht
        obtain ⟨hin, hout⟩ := hmemnw t ht
        refine ⟨hin, ?_⟩
        show t.2.2 ∉ (List.foldl processDeletesStep (processDeletesStep (cs, acc) _) rest).1 t.1 t.2.1
        rw [hstep]
        exact hout

/-- The specification of `processDeletes` used by every strategy. -/
theorem processDeletes_spec (cs : Cands) (reqs : List (ℕ × ℕ × JSNum))
    (hreq : ∀ t ∈ reqs, t.1 < 9 ∧ t.2.1 < 9) :
    CandsLE (processDeletes cs reqs).1 cs ∧
    ((processDeletes cs reqs).2 = [] → (processDeletes cs reqs).1 = cs) ∧
    ((processDeletes cs reqs).2 ≠ [] →
      totalCands (processDeletes cs reqs).1 < totalCands cs) ∧
    (∀ t ∈ (processDeletes cs reqs).2,
      t.2.2 ∈ cs t.1 t.2.1 ∧ t.2.2 ∉ (processDeletes cs reqs).1 t.1 t.2.1) := by
  obtain ⟨nw, h2, hle, hnil, hlt, hmemnw⟩ := processDeletes_go reqs cs [] hreq
  unfold processDeletes
  rw [List.nil_append] at h2
  refine ⟨hle, ?_, ?_, ?_⟩
  · intro h
    exact hnil (by rw [← h2]; exact h)
  · intro h
    exact hlt (by rw [← h2]; exact h)
  · intro t ht
    exact hmemnw t (by rw [← h2]; exact ht)

/-!
### Session invariants

`WFGame` is the shape + candidate-range invariant that makes the
scheduler's measure argument work; `Sound` is the snapshot-soundness
invariant of claim C7 (each `removedCandidates` triple was present in the
previous snapshot and is absent in its own snapshot, and the latest
snapshot always records the current state).
-/

/-- Every state the solver reaches satisfies this: the board is 9x9 and
every empty cell's candidate set only holds the digits `1..9`. -/
def WFGame (g : Game) : Prop :=
  ShapeB g.board ∧
  ∀ r < 9, ∀ c < 9, jsEq (g.board r c) (some 0) = true →
    ∀ x ∈ g.candidates r c, x ∈ fullCandidateSet

instance : DecidablePred WFGame := fun g => by
  unfold WFGame
  infer_instance

theorem mem_fullCandidateSet_ne_zero {x : JSNum} (h : x ∈ fullCandidateSet) :
    jsEq x (some 0) = false := by
  simp only [fullCandidateSet, List.mem_cons, List.not_mem_nil, or_false] at h
  rcases h with rfl | rfl | rfl | rfl | rfl | rfl | rfl | rfl | rfl <;> rfl

theorem deepCloneBoard_eq (b : Board) : deepCloneBoard b = b := by
  unfold deepCloneBoard
  cases b with
  | mk rows => simp

theorem deepCloneCandidates_eq (cs : Cands) : deepCloneCandidates cs = cs := by
  unfold deepCloneCandidates
  cases cs with
  | mk rows =>
    simp only [Cands.mk.injEq]
    rw [show (fun (row : List (List JSNum)) => row.map (fun cellSet => cellSet)) =
      (fun row => row) from funext (fun row => by simp), List.map_id']

theorem addSnapshot_board (g : Game) (k : String) (v : Option String) (d : ℕ)
    (h : Option Highlight) : (addSnapshot g k v d h).board = g.board := rfl

theorem addSnapshot_candidates (g : Game) (k : String) (v : Option String) (d : ℕ)
    (h : Option Highlight) : (addSnapshot g k v d h).candidates = g.candidates := rfl

theorem addSnapshot_snapshots (g : Game) (k : String) (v : Option String) (d : ℕ)
    (h : Option Highlight) : (addSnapshot g k v d h).snapshots =
      g.snapshots ++ [⟨g.board, g.candidates, k, v, d, h⟩] := by
  unfold addSnapshot
  rw [deepCloneBoard_eq, deepCloneCandidates_eq]

/-- The `removedCandidates` list a snapshot carries (empty when absent). -/
def removedOf (s : Snapshot) : List (ℕ × ℕ × JSNum) :=
  match s.highlight with
  | some h => h.removedCandidates.getD []
  | none => []

/-- Same, read off an optional highlight directly. -/
def removedOfH : Option Highlight → List (ℕ × ℕ × JSNum)
  | some hl => hl.removedCandidates.getD []
  | none => []

theorem removedOf_mk (b : Board) (cs : Cands) (k : String) (v : Option String)
    (d : ℕ) (h : Option Highlight) :
    removedOf ⟨b, cs, k, v, d, h⟩ = removedOfH h := by
  cases h <;> rfl

/-- Soundness of one snapshot relative to its predecessor. -/
def okStep (prev s : Snapshot) : Prop :=
  ∀ t ∈ removedOf s,
    t.2.2 ∈ prev.candidates t.1 t.2.1 ∧ t.2.2 ∉ s.candidates t.1 t.2.1

/-- Soundness of each adjacent pair of a snapshot list. -/
def soundList : List Snapshot → Prop
  | [] => True
  | [_] => True
  | a :: b :: rest => okStep a b ∧ soundList (b :: rest)

/-- The latest snapshot records exactly the current board and grid. -/
def lastMatches (g : Game) : Prop :=
  ∃ s, g.snapshots.getLast? = some s ∧ s.board = g.board ∧ s.candidates = g.candidates

/-- The running snapshot invariant. -/
def Sound (g : Game) : Prop := soundList g.snapshots ∧ lastMatches g

theorem soundList_append_one : ∀ (l : List Snapshot) (s : Snapshot),
    soundList l → (∀ prev, l.getLast? = some prev → okStep prev s) →
    soundList (l ++ [s])
  | [], s, _, _ => trivial
  | [a], s, _, hok => ⟨hok a rfl, trivial⟩
  | a :: b :: rest, s, h, hok => by
    obtain ⟨hab, hrest⟩ := h
    exact ⟨hab, soundList_append_one (b :: rest) s hrest
      (fun prev hp => hok prev (by rw [List.getLast?_cons_cons]; exact hp))⟩

/-- Appending a snapshot of the current (post-batch) state preserves
`Sound`, provided the batch's recorded removals were present at the
pre-batch state and are gone now. -/
theorem sound_addSnapshot {gpre : Game} (gpost : Game) (k : String)
    (v : Option String) (d : ℕ) (h : Option Highlight)
    (hs : Sound gpre) (hsnap : gpost.snapshots = gpre.snapshots)
    (hrm : ∀ t ∈ removedOfH h,
      t.2.2 ∈ gpre.candidates t.1 t.2.1 ∧ t.2.2 ∉ gpost.candidates t.1 t.2.1) :
    Sound (addSnapshot gpost k v d h) := by
  obtain ⟨hl, prev, hprev, hpb, hpc⟩ := hs
  constructor
  · rw [addSnapshot_snapshots, hsnap]
    refine soundList_append_one _ _ hl (fun p hp => ?_)
    rw [hprev] at hp
    obtain rfl := Option.some.inj hp
    intro t ht
    rw [removedOf_mk] at ht
    obtain ⟨hin, hout⟩ := hrm t ht
    rw [hpc]
    exact ⟨hin, hout⟩
  · refine ⟨⟨gpost.board, gpost.candidates, k, v, d, h⟩, ?_, rfl, rfl⟩
    rw [addSnapshot_snapshots, List.getLast?_concat]

/-- The contract every strategy call obeys: no change on `false`, strict
measure decrease (on well-formed states) on `true`, and snapshot
soundness always. -/
def CallOK (g : Game) (r : Bool × Game) : Prop :=
  (r.1 = false → r.2 = g) ∧
  (r.1 = true → WFGame g → measureG r.2 < measureG g ∧ WFGame r.2) ∧
  (Sound g → Sound r.2)

theorem CallOK.of_eq {g : Game} {r : Bool × Game} (h : r = (false, g)) :
    CallOK g r := by
  subst h
  exact ⟨fun _ => rfl, fun h => by simp at h, fun hs => hs⟩

theorem measureG_addSnapshot (g : Game) (k : String) (v : Option String)
    (d : ℕ) (h : Option Highlight) : measureG (addSnapshot g k v d h) = measureG g := rfl

theorem wf_addSnapshot {g : Game} (k : String) (v : Option String) (d : ℕ)
    (h : Option Highlight) (hwf : WFGame g) : WFGame (addSnapshot g k v d h) := hwf

/-!
### The three hit shapes shared by the strategies
-/

/-- A candidates-only update `{g with candidates := cs'}` with
`CandsLE cs' g.candidates` keeps the game well-formed. -/
theorem wf_set_candidates {g : Game} {cs' : Cands}
    (hle : CandsLE cs' g.candidates) (hwf : WFGame g) :
    WFGame { g with candidates := cs' } := by
  obtain ⟨hshape, hcand⟩ := hwf
  exact ⟨hshape, fun r hr c hc hemp x hx =>
    hcand r hr c hc hemp x ((hle r c).mem hx)⟩

/-- Hit shape 1: run a batch of guarded deletions and snapshot the
result (naked pairs, naked triples, box-line reduction, X-wing). -/
theorem hit_deletes_ok (g : Game) (reqs : List (ℕ × ℕ × JSNum))
    (hreq : ∀ t ∈ reqs, t.1 < 9 ∧ t.2.1 < 9)
    (hne : (processDeletes g.candidates reqs).2 ≠ [])
    (k : String) (v : Option String) (d : ℕ) (hl : Highlight)
    (hhl : hl.removedCandidates = some (processDeletes g.candidates reqs).2) :
    measureG (addSnapshot { g with candidates := (processDeletes g.candidates reqs).1 }
        k v d (some hl)) < measureG g ∧
    (WFGame g → WFGame (addSnapshot
      { g with candidates := (processDeletes g.candidates reqs).1 } k v d (some hl))) ∧
    (Sound g → Sound (addSnapshot
      { g with candidates := (processDeletes g.candidates reqs).1 } k v d (some hl))) := by
  obtain ⟨hle, _, hlt, hmem⟩ := processDeletes_spec g.candidates reqs hreq
  refine ⟨?_, ?_, ?_⟩
  · rw [measureG_addSnapshot]
    show emptyCount g.board + totalCands _ < emptyCount g.board + totalCands g.candidates
    exact Nat.add_lt_add_left (hlt hne) _
  · intro hwf
    exact wf_addSnapshot k v d (some hl) (wf_set_candidates hle hwf)
  · intro hs
    refine sound_addSnapshot _ k v d (some hl) hs rfl ?_
    intro t ht
    rw [removedOfH, hhl, Option.getD_some] at ht
    exact hmem t ht

/-- `stripOtherCandidates` through the `processDeletes` specification. -/
theorem strip_spec (cs : Cands) (r c : ℕ) (allowed : List JSNum)
    (hr : r < 9) (hc : c < 9) :
    CandsLE (stripOtherCandidates cs r c allowed).2.1 cs ∧
    ((stripOtherCandidates cs r c allowed).2.2 = [] →
      (stripOtherCandidates cs r c allowed).2.1 = cs) ∧
    ((stripOtherCandidates cs r c allowed).2.2 ≠ [] →
      totalCands (stripOtherCandidates cs r c allowed).2.1 < totalCands cs) ∧
    (∀ t ∈ (stripOtherCandidates cs r c allowed).2.2,
      t.2.2 ∈ cs t.1 t.2.1 ∧
      t.2.2 ∉ (stripOtherCandidates cs r c allowed).2.1 t.1 t.2.1) := by
  unfold stripOtherCandidates
  have hreq : ∀ t ∈ ((cs r c).filter (fun digit =>
      !allowed.any (fun a => svz digit a))).map (fun d => (r, c, d)),
      t.1 < 9 ∧ t.2.1 < 9 := by
    intro t ht
    obtain ⟨d, _, rfl⟩ := List.mem_map.mp ht
    exact ⟨hr, hc⟩
  obtain ⟨h1, h2, h3, h4⟩ := processDeletes_spec cs _ hreq
  exact ⟨h1, h2, h3, h4⟩

/-- Hit shape 2: two strips in sequence and one snapshot (hidden pairs). -/
theorem hit_strip2_ok (g : Game) (r1 c1 r2 c2 : ℕ) (allowed : List JSNum)
    (hr1 : r1 < 9) (hc1 : c1 < 9) (hr2 : r2 < 9) (hc2 : c2 < 9)
    (k : String) (v : Option String) (d : ℕ) (hl : Highlight)
    (hhl : hl.removedCandidates = some
      ((stripOtherCandidates g.candidates r1 c1 allowed).2.2 ++
       (stripOtherCandidates (stripOtherCandidates g.candidates r1 c1 allowed).2.1
         r2 c2 allowed).2.2))
    (hne : (stripOtherCandidates g.candidates r1 c1 allowed).2.2 ++
       (stripOtherCandidates (stripOtherCandidates g.candidates r1 c1 allowed).2.1
         r2 c2 allowed).2.2 ≠ []) :
    measureG (addSnapshot { g with candidates :=
      (stripOtherCandidates (stripOtherCandidates g.candidates r1 c1 allowed).2.1
        r2 c2 allowed).2.1 } k v d (some hl)) < measureG g ∧
    (WFGame g → WFGame (addSnapshot { g with candidates :=
      (stripOtherCandidates (stripOtherCandidates g.candidates r1 c1 allowed).2.1
        r2 c2 allowed).2.1 } k v d (some hl))) ∧
    (Sound g → Sound (addSnapshot { g with candidates :=
      (stripOtherCandidates (stripOtherCandidates g.candidates r1 c1 allowed).2.1
        r2 c2 allowed).2.1 } k v d (some hl))) := by
  obtain ⟨hle1, hnil1, hlt1, hmem1⟩ := strip_spec g.candidates r1 c1 allowed hr1 hc1
  obtain ⟨hle2, hnil2, hlt2, hmem2⟩ :=
    strip_spec (stripOtherCandidates g.candidates r1 c1 allowed).2.1 r2 c2 allowed hr2 hc2
  have hleT := hle2.trans hle1
  have hltT : totalCands (stripOtherCandidates
      (stripOtherCandidates g.candidates r1 c1 allowed).2.1 r2 c2 allowed).2.1 <
      totalCands g.candidates := by
    by_cases h1 : (stripOtherCandidates g.candidates r1 c1 allowed).2.2 = []
    · have h2 : (stripOtherCandidates (stripOtherCandidates g.candidates r1 c1 allowed).2.1
          r2 c2 allowed).2.2 ≠ [] := by
        intro h2
        exact hne (by rw [h1, h2]; rfl)
      calc totalCands _ < totalCands (stripOtherCandidates g.candidates r1 c1 allowed).2.1 :=
            hlt2 h2
        _ = totalCands g.candidates := by rw [hnil1 h1]
    · exact lt_of_le_of_lt (totalCands_le_of_candsLE hle2) (hlt1 h1)
  refine ⟨?_, ?_, ?_⟩
  · rw [measureG_addSnapshot]
    show emptyCount g.board + totalCands _ < emptyCount g.board + totalCands g.candidates
    exact Nat.add_lt_add_left hltT _
  · intro hwf
    exact wf_addSnapshot k v d (some hl) (wf_set_candidates hleT hwf)
  · intro hs
    refine sound_addSnapshot _ k v d (some hl) hs rfl ?_
    intro t ht
    rw [removedOfH, hhl, Option.getD_some] at ht
    rcases List.mem_append.mp ht with h1 | h2
    · obtain ⟨hin, hout⟩ := hmem1 t h1
      exact ⟨hin, fun hx => hout ((hle2 t.1 t.2.1).mem hx)⟩
    · obtain ⟨hin, hout⟩ := hmem2 t h2
      exact ⟨(hle1 t.1 t.2.1).mem hin, hout⟩

/-- Hit shape 3a (measure and well-formedness): place a digit in an empty
cell and eliminate it from peers (naked and hidden singles). -/
theorem hit_place_wf (g : Game) (row col : ℕ) (digit : JSNum)
    (hr : row < 9) (hc : col < 9)
    (hemp : jsEq (g.board row col) (some 0) = true)
    (hdig : jsEq digit (some 0) = false) (hwf : WFGame g)
    (k : String) (v : Option String) (d : ℕ) (hl : Option Highlight) :
    measureG (addSnapshot { g with
        board := setCell g.board row col digit,
        candidates := eliminateFromPeers (setCell g.board row col digit)
          g.candidates row col digit } k v d hl) < measureG g ∧
    WFGame (addSnapshot { g with
        board := setCell g.board row col digit,
        candidates := eliminateFromPeers (setCell g.board row col digit)
          g.candidates row col digit } k v d hl) := by
  obtain ⟨hshape, hcand⟩ := hwf
  have hble := eliminateFromPeers_candsLE (setCell g.board row col digit)
    g.candidates row col digit
  constructor
  · rw [measureG_addSnapshot]
    show emptyCount _ + totalCands _ < emptyCount g.board + totalCands g.candidates
    exact Nat.add_lt_add_of_lt_of_le
      (emptyCount_setCell_lt ⟨hshape.1, hshape.2⟩ hr hc hemp hdig)
      (totalCands_le_of_candsLE hble)
  · refine wf_addSnapshot k v d hl ?_
    refine ⟨setCell_shape digit ⟨hshape.1, hshape.2⟩, ?_⟩
    intro r' hr' c' hc' hemp' x hx
    dsimp only at hemp' hx
    by_cases hsame : r' = row ∧ c' = col
    · obtain ⟨rfl, rfl⟩ := hsame
      rw [show (setCell g.board r' c' digit) r' c' = digit from
        setCell_cell_same digit ⟨hshape.1, hshape.2⟩ hr hc, hdig] at hemp'
      simp at hemp'
    · rw [setCell_cell_ne digit hsame] at hemp'
      exact hcand r' hr' c' hc' hemp' x ((hble r' c').mem hx)

/-- Hit shape 3b (soundness): a placement snapshot never carries a
`removedCandidates` list. -/
theorem hit_place_sound (g : Game) (board' : Board) (cands' : Cands)
    (k : String) (v : Option String) (d : ℕ) (hl : Option Highlight)
    (hhl : removedOfH hl = []) (hs : Sound g) :
    Sound (addSnapshot { g with board := board', candidates := cands' } k v d hl) := by
  refine sound_addSnapshot _ k v d hl hs rfl ?_
  rw [hhl]
  intro t ht
  exact absurd ht (List.not_mem_nil t)

/-!
### Loop combinators
-/

theorem firstHit_ok {α : Type} {f : α → Option Game} {P : Game → Prop} :
    ∀ (l : List α), (∀ a ∈ l, ∀ g', f a = some g' → P g') →
    ∀ {g'}, firstHit f l = some g' → P g' := by
  intro l
  induction l with
  | nil => intro _ g' h; simp [firstHit] at h
  | cons a rest ih =>
    intro hf g' h
    unfold firstHit at h
    cases hfa : f a with
    | some g'' =>
      rw [hfa] at h
      exact hf a (List.mem_cons_self _ _) g' (by rw [hfa, Option.some.inj h])
    | none =>
      rw [hfa] at h
      exact ih (fun a ha => hf a (List.mem_cons_of_mem _ ha)) h

theorem headD_mem {α : Type} {l : List α} (h : l ≠ []) (d : α) : l.headD d ∈ l := by
  cases l with
  | nil => exact absurd rfl h
  | cons a rest => exact List.mem_cons_self _ _

theorem mem_digitsZ_jsEq_zero {d : ℤ} (h : d ∈ digitsZ) :
    jsEq (some d) (some 0) = false := by
  simp only [digitsZ, List.mem_cons, List.not_mem_nil, or_false] at h
  rcases h with rfl | rfl | rfl | rfl | rfl | rfl | rfl | rfl | rfl <;> rfl

/-- Any first-hit strategy built over per-item hit facts satisfies the
call contract. -/
theorem callOK_firstHit {g : Game} {α : Type} {f : α → Option Game} {l : List α}
    (hf : ∀ a ∈ l, ∀ g', f a = some g' →
      (WFGame g → measureG g' < measureG g ∧ WFGame g') ∧ (Sound g → Sound g')) :
    CallOK g (match firstHit f l with
      | some g' => (true, g')
      | none => (false, g)) := by
  cases hres : firstHit f l with
  | some g' =>
    obtain ⟨hm, hs⟩ := firstHit_ok l hf hres
    exact ⟨fun h => by simp at h, fun _ => hm, hs⟩
  | none => exact CallOK.of_eq rfl

theorem foldl_inv {α β : Type} {step : β → α → β} {I : β → Prop}
    (h : ∀ b a, I b → I (step b a)) :
    ∀ (l : List α) (b : β), I b → I (l.foldl step b) := by
  intro l
  induction l with
  | nil => intro b hb; exact hb
  | cons a rest ih => intro b hb; exact ih _ (h b a hb)

theorem foldl_inv_mem {α β : Type} {step : β → α → β} {I : β → Prop} :
    ∀ (l : List α), (∀ b, ∀ a ∈ l, I b → I (step b a)) →
    ∀ (b : β), I b → I (l.foldl step b) := by
  intro l
  induction l with
  | nil => intro _ b hb; exact hb
  | cons a rest ih =>
    intro h b hb
    exact ih (fun b' a' ha' => h b' a' (List.mem_cons_of_mem _ ha'))
      _ (h b a (List.mem_cons_self _ _) hb)

/-- The running invariant of an accumulate-style strategy scan. -/
def ScanInv (g0 : Game) (acc : Bool × Game) : Prop :=
  acc = (false, g0) ∨
  (acc.1 = true ∧ (WFGame g0 → measureG acc.2 < measureG g0 ∧ WFGame acc.2) ∧
    (Sound g0 → Sound acc.2))

theorem callOK_of_scanInv {g0 : Game} {r : Bool × Game} (h : ScanInv g0 r) :
    CallOK g0 r := by
  rcases h with rfl | ⟨hb, hm, hs⟩
  · exact CallOK.of_eq rfl
  · refine ⟨fun hf => ?_, fun _ => hm, hs⟩
    rw [hf] at hb
    exact absurd hb (by simp)

/-- A scan step preserves `ScanInv` as soon as it either leaves the
accumulator alone or fires with the local facts. -/
theorem scanInv_step {g0 : Game} {α : Type} {step : Bool × Game → α → Bool × Game}
    (hstep : ∀ (bg : Bool × Game) (a : α), step bg a = bg ∨
      ((step bg a).1 = true ∧
        (WFGame bg.2 → measureG (step bg a).2 < measureG bg.2 ∧ WFGame (step bg a).2) ∧
        (Sound bg.2 → Sound (step bg a).2))) :
    ∀ (bg : Bool × Game) (a : α), ScanInv g0 bg → ScanInv g0 (step bg a) := by
  intro bg a hinv
  rcases hstep bg a with heq | ⟨hb, hm, hs⟩
  · rw [heq]; exact hinv
  · rcases hinv with rfl | ⟨hb0, hm0, hs0⟩
    · exact Or.inr ⟨hb, hm, hs⟩
    · refine Or.inr ⟨hb, fun hwf => ?_, fun hsnd => hs (hs0 hsnd)⟩
      obtain ⟨hlt0, hwf0⟩ := hm0 hwf
      obtain ⟨hlt, hwf'⟩ := hm hwf0
      exact ⟨lt_trans hlt hlt0, hwf'⟩

/-- Pointwise form of `scanInv_step`. -/
theorem scanInv_preserve {g0 : Game} {bg bg' : Bool × Game}
    (hstep : bg' = bg ∨ (bg'.1 = true ∧
      (WFGame bg.2 → measureG bg'.2 < measureG bg.2 ∧ WFGame bg'.2) ∧
      (Sound bg.2 → Sound bg'.2)))
    (hinv : ScanInv g0 bg) : ScanInv g0 bg' := by
  rcases hstep with heq | ⟨hb, hm, hs⟩
  · rw [heq]; exact hinv
  · rcases hinv with rfl | ⟨hb0, hm0, hs0⟩
    · exact Or.inr ⟨hb, hm, hs⟩
    · refine Or.inr ⟨hb, fun hwf => ?_, fun hsnd => hs (hs0 hsnd)⟩
      obtain ⟨hlt0, hwf0⟩ := hm0 hwf
      obtain ⟨hlt, hwf'⟩ := hm hwf0
      exact ⟨lt_trans hlt hlt0, hwf'⟩

/-!
### The seven strategies satisfy the call contract
-/

theorem hiddenSinglesRowHit_ok (g : Game) (rd : ℕ × ℤ) (hrow : rd.1 < 9)
    (hdig : rd.2 ∈ digitsZ) (g' : Game) (h : hiddenSinglesRowHit g rd = some g') :
    (WFGame g → measureG g' < measureG g ∧ WFGame g') ∧ (Sound g → Sound g') := by
  obtain ⟨row, digit⟩ := rd
  simp only at hrow hdig
  unfold hiddenSinglesRowHit at h
  dsimp only at h
  split at h
  · exact absurd h (by simp)
  · split at h
    case isTrue hlen =>
      obtain rfl := Option.some.inj h
      have hne : (List.range 9).filter (fun col =>
          jsEq (g.board row col) (some 0) ∧ setHas (g.candidates row col) (some digit)) ≠ [] := by
        intro hnil
        rw [hnil] at hlen
        simp at hlen
      have hcolmem := headD_mem hne (0 : ℕ)
      rw [List.mem_filter] at hcolmem
      obtain ⟨hcolrange, hcolprop⟩ := hcolmem
      have hcol9 := List.mem_range.mp hcolrange
      have hemp := (of_decide_eq_true hcolprop).1
      refine ⟨fun hwf => ?_, ?_⟩
      · exact hit_place_wf g row _ (some digit) hrow hcol9 hemp
          (mem_digitsZ_jsEq_zero hdig) hwf _ _ _ _
      · intro hs
        exact hit_place_sound g _ _ _ _ _ _ rfl hs
    · exact absurd h (by simp)

theorem applyHiddenSinglesInRows_ok (g : Game) :
    CallOK g (applyHiddenSinglesInRows g) := by
  unfold applyHiddenSinglesInRows
  refine callOK_firstHit (fun rd hrd g' h => ?_)
  obtain ⟨rowv, hrowv, hmem⟩ := List.mem_flatMap.mp hrd
  obtain ⟨d, hd, rfl⟩ := List.mem_map.mp hmem
  exact hiddenSinglesRowHit_ok g _ (List.mem_range.mp hrowv) hd g' h

theorem hiddenSinglesColHit_ok (g : Game) (cd : ℕ × ℤ) (hcol : cd.1 < 9)
    (hdig : cd.2 ∈ digitsZ) (g' : Game) (h : hiddenSinglesColHit g cd = some g') :
    (WFGame g → measureG g' < measureG g ∧ WFGame g') ∧ (Sound g → Sound g') := by
  obtain ⟨col, digit⟩ := cd
  simp only at hcol hdig
  unfold hiddenSinglesColHit at h
  dsimp only at h
  split at h
  · exact absurd h (by simp)
  · split at h
    case isTrue hlen =>
      obtain rfl := Option.some.inj h
      have hne : (List.range 9).filter (fun row =>
          jsEq (g.board row col) (some 0) ∧ setHas (g.candidates row col) (some digit)) ≠ [] := by
        intro hnil
        rw [hnil] at hlen
        simp at hlen
      have hrowmem := headD_mem hne (0 : ℕ)
      rw [List.mem_filter] at hrowmem
      obtain ⟨hrowrange, hrowprop⟩ := hrowmem
      have hrow9 := List.mem_range.mp hrowrange
      have hemp := (of_decide_eq_true hrowprop).1
      refine ⟨fun hwf => ?_, ?_⟩
      · exact hit_place_wf g _ col (some digit) hrow9 hcol hemp
          (mem_digitsZ_jsEq_zero hdig) hwf _ _ _ _
      · intro hs
        exact hit_place_sound g _ _ _ _ _ _ rfl hs
    · exact absurd h (by simp)

theorem applyHiddenSinglesInColumns_ok (g : Game) :
    CallOK g (applyHiddenSinglesInColumns g) := by
  unfold applyHiddenSinglesInColumns
  refine callOK_firstHit (fun cd hcd g' h => ?_)
  obtain ⟨colv, hcolv, hmem⟩ := List.mem_flatMap.mp hcd
  obtain ⟨d, hd, rfl⟩ := List.mem_map.mp hmem
  exact hiddenSinglesColHit_ok g _ (List.mem_range.mp hcolv) hd g' h

theorem mem_boxCells_lt {br bc : ℕ} (hbr : br < 3) (hbc : bc < 3)
    {rc : ℕ × ℕ} (h : rc ∈ boxCells br bc) : rc.1 < 9 ∧ rc.2 < 9 := by
  obtain ⟨r, hr, hmem⟩ := List.mem_flatMap.mp h
  obtain ⟨c, hc, rfl⟩ := List.mem_map.mp hmem
  have hr3 := List.mem_range.mp hr
  have hc3 := List.mem_range.mp hc
  constructor <;> simp <;> omega

theorem hiddenSinglesBoxHit_ok (g : Game) (bd : (ℕ × ℕ) × ℤ)
    (hbr : bd.1.1 < 3) (hbc : bd.1.2 < 3) (hdig : bd.2 ∈ digitsZ) (g' : Game)
    (h : hiddenSinglesBoxHit g bd = some g') :
    (WFGame g → measureG g' < measureG g ∧ WFGame g') ∧ (Sound g → Sound g') := by
  obtain ⟨⟨boxRow, boxCol⟩, digit⟩ := bd
  simp only at hbr hbc hdig
  unfold hiddenSinglesBoxHit at h
  dsimp only at h
  split at h
  · exact absurd h (by simp)
  · split at h
    case isTrue hlen =>
      obtain rfl := Option.some.inj h
      have hne : (boxCells boxRow boxCol).filter (fun rc =>
          jsEq (g.board rc.1 rc.2) (some 0) ∧
            setHas (g.candidates rc.1 rc.2) (some digit)) ≠ [] := by
        intro hnil
        rw [hnil] at hlen
        simp at hlen
      have hcellmem := headD_mem hne ((0, 0) : ℕ × ℕ)
      rw [List.mem_filter] at hcellmem
      obtain ⟨hcellrange, hcellprop⟩ := hcellmem
      obtain ⟨hr9, hc9⟩ := mem_boxCells_lt hbr hbc hcellrange
      have hemp := (of_decide_eq_true hcellprop).1
      refine ⟨fun hwf => ?_, ?_⟩
      · exact hit_place_wf g _ _ (some digit) hr9 hc9 hemp
          (mem_digitsZ_jsEq_zero hdig) hwf _ _ _ _
      · intro hs
        exact hit_place_sound g _ _ _ _ _ _ rfl hs
    · exact absurd h (by simp)

theorem mem_allBoxes {bb : ℕ × ℕ} (h : bb ∈ allBoxes) : bb.1 < 3 ∧ bb.2 < 3 := by
  obtain ⟨br, hbr, hmem⟩ := List.mem_flatMap.mp h
  obtain ⟨bc, hbc, rfl⟩ := List.mem_map.mp hmem
  exact ⟨List.mem_range.mp hbr, List.mem_range.mp hbc⟩

theorem applyHiddenSinglesInBoxes_ok (g : Game) :
    CallOK g (applyHiddenSinglesInBoxes g) := by
  unfold applyHiddenSinglesInBoxes
  refine callOK_firstHit (fun bd hbd g' h => ?_)
  obtain ⟨bb, hbb, hmem⟩ := List.mem_flatMap.mp hbd
  obtain ⟨d, hd, rfl⟩ := List.mem_map.mp hmem
  obtain ⟨h1, h2⟩ := mem_allBoxes hbb
  exact hiddenSinglesBoxHit_ok g _ h1 h2 hd g' h

/-- Composing orientation calls: each orientation is tried on the same
state (the earlier ones did not change it when they reported `false`). -/
theorem callOK_orient2 {g : Game} {r1 r2 : Bool × Game}
    (h1 : CallOK g r1) (h2 : CallOK g r2) :
    CallOK g (if r1.1 then (true, r1.2) else if r2.1 then (true, r2.2) else (false, g)) := by
  by_cases hb1 : r1.1
  · rw [if_pos hb1]
    exact ⟨fun h => by simp at h, fun _ => h1.2.1 hb1, h1.2.2⟩
  · rw [if_neg hb1]
    by_cases hb2 : r2.1
    · rw [if_pos hb2]
      exact ⟨fun h => by simp at h, fun _ => h2.2.1 hb2, h2.2.2⟩
    · rw [if_neg hb2]
      exact CallOK.of_eq rfl

theorem applyHiddenSingles_ok (g : Game) (opts : Option SolverOptions) :
    CallOK g (applyHiddenSingles g opts) := by
  unfold applyHiddenSingles
  split
  · exact CallOK.of_eq rfl
  · have hboxes : CallOK g (if !flagIsFalse opts (·.hiddenSinglesBoxes) then
        applyHiddenSinglesInBoxes g else (false, g)) := by
      split
      · exact applyHiddenSinglesInBoxes_ok g
      · exact CallOK.of_eq rfl
    have hrows : CallOK g (if !flagIsFalse opts (·.hiddenSinglesRows) then
        applyHiddenSinglesInRows g else (false, g)) := by
      split
      · exact applyHiddenSinglesInRows_ok g
      · exact CallOK.of_eq rfl
    have hcols : CallOK g (if !flagIsFalse opts (·.hiddenSinglesCols) then
        applyHiddenSinglesInColumns g else (false, g)) := by
      split
      · exact applyHiddenSinglesInColumns_ok g
      · exact CallOK.of_eq rfl
    dsimp only
    by_cases hb1 : (if !flagIsFalse opts (·.hiddenSinglesBoxes) then
        applyHiddenSinglesInBoxes g else (false, g)).1
    · rw [if_pos hb1]
      exact ⟨fun h => by simp at h, fun _ => hboxes.2.1 hb1, hboxes.2.2⟩
    · rw [if_neg hb1]
      by_cases hb2 : (if !flagIsFalse opts (·.hiddenSinglesRows) then
          applyHiddenSinglesInRows g else (false, g)).1
      · rw [if_pos hb2]
        exact ⟨fun h => by simp at h, fun _ => hrows.2.1 hb2, hrows.2.2⟩
      · rw [if_neg hb2]
        by_cases hb3 : (if !flagIsFalse opts (·.hiddenSinglesCols) then
            applyHiddenSinglesInColumns g else (false, g)).1
        · rw [if_pos hb3]
          exact ⟨fun h => by simp at h, fun _ => hcols.2.1 hb3, hcols.2.2⟩
        · rw [if_neg hb3]
          exact CallOK.of_eq rfl

/-- Turn per-unit call contracts into the hit facts of the dispatcher's
`(true, g') ↦ some g'` wrapper around a first-hit scan over units. -/
theorem firstHit_unit_facts {g : Game} {α : Type} {u : α → Bool × Game} {l : List α}
    (hok : ∀ a ∈ l, CallOK g (u a)) {g' : Game}
    (h : firstHit (fun a => match u a with
      | (true, g2) => some g2
      | (false, _) => none) l = some g') :
    (WFGame g → measureG g' < measureG g ∧ WFGame g') ∧ (Sound g → Sound g') := by
  refine @firstHit_ok _ _ (fun gg => (WFGame g → measureG gg < measureG g ∧ WFGame gg) ∧
    (Sound g → Sound gg)) l (fun a ha g2 h2 => ?_) g' h
  have hcall := hok a ha
  revert h2
  rcases hpair : u a with ⟨b, gr⟩
  cases b
  · intro h2
    exact absurd h2 (by simp)
  · intro h2
    obtain rfl := Option.some.inj h2
    rw [hpair] at hcall
    exact ⟨fun hwf => hcall.2.1 rfl hwf, hcall.2.2⟩

/-- A hit result satisfies the call contract. -/
theorem callOK_hit {g g' : Game}
    (hm : WFGame g → measureG g' < measureG g ∧ WFGame g')
    (hs : Sound g → Sound g') : CallOK g (true, g') :=
  ⟨fun h => by simp at h, fun _ => hm, hs⟩

theorem nakedPairsRowHit_ok (g : Game) (row : ℕ) (hrow : row < 9) (p : ℕ × ℕ)
    (g' : Game) (h : nakedPairsRowHit g row p = some g') :
    (WFGame g → measureG g' < measureG g ∧ WFGame g') ∧ (Sound g → Sound g') := by
  obtain ⟨col1, col2⟩ := p
  unfold nakedPairsRowHit at h
  dsimp only at h
  split at h
  · split at h
    case isTrue hlen =>
      obtain rfl := Option.some.inj h
      refine (fun z => ⟨fun hwf => ⟨z.1, z.2.1 hwf⟩, z.2.2⟩)
        (hit_deletes_ok g _ ?_ ?_ "Naked Pair" (some "Row") 2 _ rfl)
      · intro t ht
        obtain ⟨c, hcmem, hmap⟩ := List.mem_flatMap.mp ht
        obtain ⟨val, hval, rfl⟩ := List.mem_map.mp hmap
        exact ⟨hrow, List.mem_range.mp (List.mem_filter.mp hcmem).1⟩
      · intro hnil
        rw [hnil] at hlen
        simp at hlen
    · exact absurd h (by simp)
  · exact absurd h (by simp)

theorem nakedPairsColHit_ok (g : Game) (col : ℕ) (hcol : col < 9) (p : ℕ × ℕ)
    (g' : Game) (h : nakedPairsColHit g col p = some g') :
    (WFGame g → measureG g' < measureG g ∧ WFGame g') ∧ (Sound g → Sound g') := by
  obtain ⟨row1, row2⟩ := p
  unfold nakedPairsColHit at h
  dsimp only at h
  split at h
  · split at h
    case isTrue hlen =>
      obtain rfl := Option.some.inj h
      refine (fun z => ⟨fun hwf => ⟨z.1, z.2.1 hwf⟩, z.2.2⟩)
        (hit_deletes_ok g _ ?_ ?_ "Naked Pair" (some "Column") 2 _ rfl)
      · intro t ht
        obtain ⟨r, hrmem, hmap⟩ := List.mem_flatMap.mp ht
        obtain ⟨val, hval, rfl⟩ := List.mem_map.mp hmap
        exact ⟨List.mem_range.mp (List.mem_filter.mp hrmem).1, hcol⟩
      · intro hnil
        rw [hnil] at hlen
        simp at hlen
    · exact absurd h (by simp)
  · exact absurd h (by simp)

theorem nakedPairsBoxHit_ok (g : Game) (boxRow boxCol : ℕ)
    (p : ((ℕ × ℕ) × (ℕ × ℕ)) × List (ℕ × ℕ))
    (hothers : ∀ rc ∈ p.2, rc.1 < 9 ∧ rc.2 < 9)
    (g' : Game) (h : nakedPairsBoxHit g boxRow boxCol p = some g') :
    (WFGame g → measureG g' < measureG g ∧ WFGame g') ∧ (Sound g → Sound g') := by
  obtain ⟨⟨cell1, cell2⟩, others⟩ := p
  unfold nakedPairsBoxHit at h
  dsimp only at h
  split at h
  · split at h
    case isTrue hlen =>
      obtain rfl := Option.some.inj h
      refine (fun z => ⟨fun hwf => ⟨z.1, z.2.1 hwf⟩, z.2.2⟩)
        (hit_deletes_ok g _ ?_ ?_ "Naked Pair" (some "Box") 2 _ rfl)
      · intro t ht
        obtain ⟨rc, hrc, hmap⟩ := List.mem_flatMap.mp ht
        obtain ⟨val, hval, rfl⟩ := List.mem_map.mp hmap
        exact hothers rc hrc
      · intro hnil
        rw [hnil] at hlen
        simp at hlen
    · exact absurd h (by simp)
  · exact absurd h (by simp)

theorem applyNakedPairsInRow_ok (g : Game) (row : ℕ) (hrow : row < 9) :
    CallOK g (applyNakedPairsInRow g row) := by
  unfold applyNakedPairsInRow
  exact callOK_firstHit (fun p _ g' h => nakedPairsRowHit_ok g row hrow p g' h)

theorem applyNakedPairsInCol_ok (g : Game) (col : ℕ) (hcol : col < 9) :
    CallOK g (applyNakedPairsInCol g col) := by
  unfold applyNakedPairsInCol
  exact callOK_firstHit (fun p _ g' h => nakedPairsColHit_ok g col hcol p g' h)

theorem mem_upperPairsWithRest_rest {α : Type} [DecidableEq α] {l : List α}
    {p : (α × α) × List α} (h : p ∈ upperPairsWithRest l) : ∀ x ∈ p.2, x ∈ l := by
  unfold upperPairsWithRest at h
  obtain ⟨q, _, rfl⟩ := List.mem_map.mp h
  intro x hx
  exact (List.mem_filter.mp hx).1

theorem applyNakedPairsInBox_ok (g : Game) (boxRow boxCol : ℕ)
    (hbr : boxRow < 3) (hbc : boxCol < 3) :
    CallOK g (applyNakedPairsInBox g boxRow boxCol) := by
  unfold applyNakedPairsInBox
  refine callOK_firstHit (fun p hp g' h => ?_)
  refine nakedPairsBoxHit_ok g boxRow boxCol p (fun rc hrc => ?_) g' h
  have hmem := mem_upperPairsWithRest_rest hp rc hrc
  exact mem_boxCells_lt hbr hbc (List.mem_filter.mp hmem).1

theorem applyNakedPairs_ok (g : Game) (opts : Option SolverOptions) :
    CallOK g (applyNakedPairs g opts) := by
  unfold applyNakedPairs
  split
  · exact CallOK.of_eq rfl
  · dsimp only
    split
    next x g1 hres1 =>
      have hfacts : (WFGame g → measureG g1 < measureG g ∧ WFGame g1) ∧
          (Sound g → Sound g1) := by
        split at hres1
        · exact firstHit_unit_facts (fun r hr =>
            applyNakedPairsInRow_ok g r (List.mem_range.mp hr)) hres1
        · exact absurd hres1 (by simp)
      exact callOK_hit hfacts.1 hfacts.2
    next x hres1 =>
      split
      next y g2 hres2 =>
        have hfacts : (WFGame g → measureG g2 < measureG g ∧ WFGame g2) ∧
            (Sound g → Sound g2) := by
          split at hres2
          · exact firstHit_unit_facts (fun c hc =>
              applyNakedPairsInCol_ok g c (List.mem_range.mp hc)) hres2
          · exact absurd hres2 (by simp)
        exact callOK_hit hfacts.1 hfacts.2
      next y hres2 =>
        split
        next z g3 hres3 =>
          have hfacts : (WFGame g → measureG g3 < measureG g ∧ WFGame g3) ∧
              (Sound g → Sound g3) := by
            split at hres3
            · refine firstHit_unit_facts (fun bb hbb => ?_) hres3
              obtain ⟨h1, h2⟩ := mem_allBoxes hbb
              exact applyNakedPairsInBox_ok g bb.1 bb.2 h1 h2
            · exact absurd hres3 (by simp)
          exact callOK_hit hfacts.1 hfacts.2
        next z hres3 => exact CallOK.of_eq rfl

theorem nakedTriplesRowStep_fact (row : ℕ) (hrow : row < 9)
    (bg : Bool × Game) (t : ℕ × ℕ × ℕ) :
    nakedTriplesRowStep row bg t = bg ∨
    ((nakedTriplesRowStep row bg t).1 = true ∧
      (WFGame bg.2 → measureG (nakedTriplesRowStep row bg t).2 < measureG bg.2 ∧
        WFGame (nakedTriplesRowStep row bg t).2) ∧
      (Sound bg.2 → Sound (nakedTriplesRowStep row bg t).2)) := by
  obtain ⟨col1, col2, col3⟩ := t
  unfold nakedTriplesRowStep
  dsimp only
  split
  case isFalse => exact Or.inl rfl
  case isTrue hcond =>
    have hreq : ∀ tr ∈ ((List.range 9).filter (fun c =>
        c ≠ col1 ∧ c ≠ col2 ∧ c ≠ col3 ∧ jsEq (bg.2.board row c) (some 0))).flatMap
        (fun c => (setFromList (bg.2.candidates row col1 ++ bg.2.candidates row col2 ++
          bg.2.candidates row col3)).map (fun val => (row, c, val))),
        tr.1 < 9 ∧ tr.2.1 < 9 := by
      intro tr htr
      obtain ⟨c, hcmem, hmap⟩ := List.mem_flatMap.mp htr
      obtain ⟨val, _, rfl⟩ := List.mem_map.mp hmap
      exact ⟨hrow, List.mem_range.mp (List.mem_filter.mp hcmem).1⟩
    split
    case isTrue hlen =>
      refine (fun z => Or.inr ⟨by rw [decide_eq_true hlen]; exact Bool.or_true _,
          fun hwf => ⟨z.1, z.2.1 hwf⟩, z.2.2⟩)
        (hit_deletes_ok bg.2 _ hreq (List.ne_nil_of_length_pos hlen)
          "Naked Triple" (some "Row") 4 _ rfl)
    case isFalse hlen =>
      have hz := Nat.le_zero.mp (Nat.not_lt.mp hlen)
      obtain ⟨_, hnil, _, _⟩ := processDeletes_spec bg.2.candidates _ hreq
      left
      rw [hnil (List.eq_nil_of_length_eq_zero hz)]
      show (bg.1 || decide _, { bg.2 with candidates := bg.2.candidates }) = bg
      rw [hz]
      simp

theorem nakedTriplesColStep_fact (col : ℕ) (hcol : col < 9)
    (bg : Bool × Game) (t : ℕ × ℕ × ℕ) :
    nakedTriplesColStep col bg t = bg ∨
    ((nakedTriplesColStep col bg t).1 = true ∧
      (WFGame bg.2 → measureG (nakedTriplesColStep col bg t).2 < measureG bg.2 ∧
        WFGame (nakedTriplesColStep col bg t).2) ∧
      (Sound bg.2 → Sound (nakedTriplesColStep col bg t).2)) := by
  obtain ⟨row1, row2, row3⟩ := t
  unfold nakedTriplesColStep
  dsimp only
  split
  case isFalse => exact Or.inl rfl
  case isTrue hcond =>
    have hreq : ∀ tr ∈ ((List.range 9).filter (fun r =>
        r ≠ row1 ∧ r ≠ row2 ∧ r ≠ row3 ∧ jsEq (bg.2.board r col) (some 0))).flatMap
        (fun r => (setFromList (bg.2.candidates row1 col ++ bg.2.candidates row2 col ++
          bg.2.candidates row3 col)).map (fun val => (r, col, val))),
        tr.1 < 9 ∧ tr.2.1 < 9 := by
      intro tr htr
      obtain ⟨r, hrmem, hmap⟩ := List.mem_flatMap.mp htr
      obtain ⟨val, _, rfl⟩ := List.mem_map.mp hmap
      exact ⟨List.mem_range.mp (List.mem_filter.mp hrmem).1, hcol⟩
    split
    case isTrue hlen =>
      refine (fun z => Or.inr ⟨by rw [decide_eq_true hlen]; exact Bool.or_true _,
          fun hwf => ⟨z.1, z.2.1 hwf⟩, z.2.2⟩)
        (hit_deletes_ok bg.2 _ hreq (List.ne_nil_of_length_pos hlen)
          "Naked Triple" (some "Column") 4 _ rfl)
    case isFalse hlen =>
      have hz := Nat.le_zero.mp (Nat.not_lt.mp hlen)
      obtain ⟨_, hnil, _, _⟩ := processDeletes_spec bg.2.candidates _ hreq
      left
      rw [hnil (List.eq_nil_of_length_eq_zero hz)]
      show (bg.1 || decide _, { bg.2 with candidates := bg.2.candidates }) = bg
      rw [hz]
      simp

theorem nakedTriplesBoxStep_fact (boxRow boxCol : ℕ) (hbr : boxRow < 3)
    (hbc : boxCol < 3) (bg : Bool × Game) (t : (ℕ × ℕ) × (ℕ × ℕ) × (ℕ × ℕ)) :
    nakedTriplesBoxStep boxRow boxCol bg t = bg ∨
    ((nakedTriplesBoxStep boxRow boxCol bg t).1 = true ∧
      (WFGame bg.2 → measureG (nakedTriplesBoxStep boxRow boxCol bg t).2 < measureG bg.2 ∧
        WFGame (nakedTriplesBoxStep boxRow boxCol bg t).2) ∧
      (Sound bg.2 → Sound (nakedTriplesBoxStep boxRow boxCol bg t).2)) := by
  obtain ⟨cell1, cell2, cell3⟩ := t
  unfold nakedTriplesBoxStep
  dsimp only
  split
  case isFalse => exact Or.inl rfl
  case isTrue hcond =>
    have hreq : ∀ tr ∈ ((boxCells boxRow boxCol).filter (fun rc =>
        rc ≠ cell1 ∧ rc ≠ cell2 ∧ rc ≠ cell3 ∧
          jsEq (bg.2.board rc.1 rc.2) (some 0))).flatMap
        (fun rc => (setFromList (bg.2.candidates cell1.1 cell1.2 ++
          bg.2.candidates cell2.1 cell2.2 ++
          bg.2.candidates cell3.1 cell3.2)).map (fun val => (rc.1, rc.2, val))),
        tr.1 < 9 ∧ tr.2.1 < 9 := by
      intro tr htr
      obtain ⟨rc, hrcmem, hmap⟩ := List.mem_flatMap.mp htr
      obtain ⟨val, _, rfl⟩ := List.mem_map.mp hmap
      exact mem_boxCells_lt hbr hbc (List.mem_filter.mp hrcmem).1
    split
    case isTrue hlen =>
      refine (fun z => Or.inr ⟨by rw [decide_eq_true hlen]; exact Bool.or_true _,
          fun hwf => ⟨z.1, z.2.1 hwf⟩, z.2.2⟩)
        (hit_deletes_ok bg.2 _ hreq (List.ne_nil_of_length_pos hlen)
          "Naked Triple" (some "Box") 4 _ rfl)
    case isFalse hlen =>
      have hz := Nat.le_zero.mp (Nat.not_lt.mp hlen)
      obtain ⟨_, hnil, _, _⟩ := processDeletes_spec bg.2.candidates _ hreq
      left
      rw [hnil (List.eq_nil_of_length_eq_zero hz)]
      show (bg.1 || decide _, { bg.2 with candidates := bg.2.candidates }) = bg
      rw [hz]
      simp

theorem applyNakedTriplesInRow_ok (g : Game) (row : ℕ) (hrow : row < 9) :
    CallOK g (applyNakedTriplesInRow g row) := by
  unfold applyNakedTriplesInRow
  exact callOK_of_scanInv (foldl_inv
    (scanInv_step (nakedTriplesRowStep_fact row hrow)) _ _ (Or.inl rfl))

theorem applyNakedTriplesInColumn_ok (g : Game) (col : ℕ) (hcol : col < 9) :
    CallOK g (applyNakedTriplesInColumn g col) := by
  unfold applyNakedTriplesInColumn
  exact callOK_of_scanInv (foldl_inv
    (scanInv_step (nakedTriplesColStep_fact col hcol)) _ _ (Or.inl rfl))

theorem applyNakedTriplesInBox_ok (g : Game) (boxRow boxCol : ℕ)
    (hbr : boxRow < 3) (hbc : boxCol < 3) :
    CallOK g (applyNakedTriplesInBox g boxRow boxCol) := by
  unfold applyNakedTriplesInBox
  exact callOK_of_scanInv (foldl_inv
    (scanInv_step (nakedTriplesBoxStep_fact boxRow boxCol hbr hbc)) _ _ (Or.inl rfl))

theorem applyNakedTriples_ok (g : Game) (opts : Option SolverOptions) :
    CallOK g (applyNakedTriples g opts) := by
  unfold applyNakedTriples
  split
  · exact CallOK.of_eq rfl
  · dsimp only
    split
    next x g1 hres1 =>
      have hfacts : (WFGame g → measureG g1 < measureG g ∧ WFGame g1) ∧
          (Sound g → Sound g1) := by
        split at hres1
        · exact firstHit_unit_facts (fun r hr =>
            applyNakedTriplesInRow_ok g r (List.mem_range.mp hr)) hres1
        · exact absurd hres1 (by simp)
      exact callOK_hit hfacts.1 hfacts.2
    next x hres1 =>
      split
      next y g2 hres2 =>
        have hfacts : (WFGame g → measureG g2 < measureG g ∧ WFGame g2) ∧
            (Sound g → Sound g2) := by
          split at hres2
          · exact firstHit_unit_facts (fun c hc =>
              applyNakedTriplesInColumn_ok g c (List.mem_range.mp hc)) hres2
          · exact absurd hres2 (by simp)
        exact callOK_hit hfacts.1 hfacts.2
      next y hres2 =>
        split
        next z g3 hres3 =>
          have hfacts : (WFGame g → measureG g3 < measureG g ∧ WFGame g3) ∧
              (Sound g → Sound g3) := by
            split at hres3
            · refine firstHit_unit_facts (fun bb hbb => ?_) hres3
              obtain ⟨h1, h2⟩ := mem_allBoxes hbb
              exact applyNakedTriplesInBox_ok g bb.1 bb.2 h1 h2
            · exact absurd hres3 (by simp)
          exact callOK_hit hfacts.1 hfacts.2
        next z hres3 => exact CallOK.of_eq rfl

/-- One naked-singles cell visit either leaves the accumulator untouched
or fires the placement hit shape. -/
theorem nakedSinglesStep_fact (bg : Bool × Game) (rc : ℕ × ℕ)
    (hr : rc.1 < 9) (hc : rc.2 < 9) :
    nakedSinglesStep bg rc = bg ∨
    ((nakedSinglesStep bg rc).1 = true ∧
      (WFGame bg.2 → measureG (nakedSinglesStep bg rc).2 < measureG bg.2 ∧
        WFGame (nakedSinglesStep bg rc).2) ∧
      (Sound bg.2 → Sound (nakedSinglesStep bg rc).2)) := by
  obtain ⟨row, col⟩ := rc
  simp only at hr hc
  unfold nakedSinglesStep
  dsimp only
  split
  case isTrue hcond =>
    obtain ⟨hemp, hlen⟩ := hcond
    refine Or.inr ⟨rfl, fun hwf => ?_, fun hs => ?_⟩
    · have hne : bg.2.candidates row col ≠ [] := by
        intro hnil
        rw [hnil] at hlen
        simp at hlen
      have hdigmem := headD_mem hne (none : JSNum)
      have hdigfull := hwf.2 row hr col hc hemp _ hdigmem
      exact hit_place_wf bg.2 row col _ hr hc hemp
        (mem_fullCandidateSet_ne_zero hdigfull) hwf _ _ _ _
    · exact hit_place_sound bg.2 _ _ _ _ _ _ rfl hs
  case isFalse hcond => exact Or.inl rfl

theorem applyNakedSingles_ok (g : Game) (opts : Option SolverOptions) :
    CallOK g (applyNakedSingles g opts) := by
  unfold applyNakedSingles
  split
  · exact CallOK.of_eq rfl
  · refine callOK_of_scanInv ?_
    refine foldl_inv_mem allCells (fun bg rc hrc hinv => ?_) (false, g) (Or.inl rfl)
    obtain ⟨hr, hc⟩ := mem_allCells.mp hrc
    exact scanInv_preserve (nakedSinglesStep_fact bg rc hr hc) hinv

/-- The changed flag of a strip is exactly nonemptiness of its removal
list. -/
theorem strip_changed_iff (cs : Cands) (r c : ℕ) (allowed : List JSNum) :
    (stripOtherCandidates cs r c allowed).1 = true ↔
      (stripOtherCandidates cs r c allowed).2.2 ≠ [] := by
  unfold stripOtherCandidates
  dsimp only
  constructor
  · intro h
    exact List.ne_nil_of_length_pos (of_decide_eq_true h)
  · intro h
    exact decide_eq_true (List.length_pos.mpr h)

/-- The combined changed flag of two strips in sequence is `true` when
their removals are jointly nonempty. -/
theorem strip2_flag_true {cs : Cands} {r1 c1 r2 c2 : ℕ} {allowed : List JSNum}
    (b : Bool)
    (hrem : 0 < ((stripOtherCandidates cs r1 c1 allowed).2.2 ++
      (stripOtherCandidates (stripOtherCandidates cs r1 c1 allowed).2.1
        r2 c2 allowed).2.2).length) :
    ((stripOtherCandidates cs r1 c1 allowed).1 ||
      (stripOtherCandidates (stripOtherCandidates cs r1 c1 allowed).2.1
        r2 c2 allowed).1 || b) = true := by
  rw [List.length_append] at hrem
  rcases Nat.eq_zero_or_pos (stripOtherCandidates cs r1 c1 allowed).2.2.length with h | h
  · have h2 : 0 < (stripOtherCandidates
        (stripOtherCandidates cs r1 c1 allowed).2.1 r2 c2 allowed).2.2.length := by omega
    rw [(strip_changed_iff _ _ _ _).mpr (List.ne_nil_of_length_pos h2)]
    simp
  · rw [(strip_changed_iff _ _ _ _).mpr (List.ne_nil_of_length_pos h)]
    simp

theorem mem_positionsForDigitInRow_lt {g : Game} {row : ℕ} {d : ℤ} {c : ℕ}
    (h : c ∈ positionsForDigitInRow g row d) : c < 9 :=
  List.mem_range.mp (List.mem_filter.mp h).1

theorem mem_positionsForDigitInCol_lt {g : Game} {col : ℕ} {d : ℤ} {r : ℕ}
    (h : r ∈ positionsForDigitInCol g col d) : r < 9 :=
  List.mem_range.mp (List.mem_filter.mp h).1

theorem mem_positionsForDigitInBox_lt {g : Game} {br bc : ℕ}
    (hbr : br < 3) (hbc : bc < 3) {d : ℤ} {p : ℕ × ℕ}
    (h : p ∈ positionsForDigitInBox g br bc d) : p.1 < 9 ∧ p.2 < 9 := by
  unfold positionsForDigitInBox at h
  exact mem_boxCells_lt hbr hbc (List.mem_filter.mp (List.mem_filter.mp h).1).1

/-- One hidden-pairs digit-pair visit of a row either leaves the
accumulator untouched or fires the double-strip hit shape. -/
theorem hiddenPairsRowStep_fact (row : ℕ) (positions : ℤ → List ℕ)
    (hrow : row < 9) (hpos : ∀ d, ∀ c ∈ positions d, c < 9)
    (bg : Bool × Game) (p : ℤ × ℤ) :
    hiddenPairsRowStep row positions bg p = bg ∨
    ((hiddenPairsRowStep row positions bg p).1 = true ∧
      (WFGame bg.2 → measureG (hiddenPairsRowStep row positions bg p).2 < measureG bg.2 ∧
        WFGame (hiddenPairsRowStep row positions bg p).2) ∧
      (Sound bg.2 → Sound (hiddenPairsRowStep row positions bg p).2)) := by
  obtain ⟨d1, d2⟩ := p
  unfold hiddenPairsRowStep
  dsimp only
  split
  case isFalse => exact Or.inl rfl
  case isTrue hlen =>
    split
    case isFalse => exact Or.inl rfl
    case isTrue heqp =>
      have hne1 : positions d1 ≠ [] := List.ne_nil_of_length_pos (by omega)
      have hne2 : (positions d1).drop 1 ≠ [] :=
        List.ne_nil_of_length_pos (by rw [List.length_drop]; omega)
      have hc1 : (positions d1).headD 0 < 9 := hpos d1 _ (headD_mem hne1 0)
      have hc2 : ((positions d1).drop 1).headD 0 < 9 :=
        hpos d1 _ (List.mem_of_mem_drop (headD_mem hne2 0))
      split
      case isTrue hrem =>
        exact Or.inr ⟨strip2_flag_true bg.1 hrem,
          (fun z => ⟨fun hwf => ⟨z.1, z.2.1 hwf⟩, z.2.2⟩)
            (hit_strip2_ok bg.2 row _ row _ [some d1, some d2] hrow hc1 hrow hc2
              "Hidden Pair" (some "Row") 5 _ rfl
              (List.ne_nil_of_length_pos hrem))⟩
      case isFalse hrem =>
        left
        have hz := Nat.le_zero.mp (Nat.not_lt.mp hrem)
        rw [List.length_append] at hz
        obtain ⟨_, hnil1, _, _⟩ := strip_spec bg.2.candidates row
          ((positions d1).headD 0) [some d1, some d2] hrow hc1
        obtain ⟨_, hnil2, _, _⟩ := strip_spec
          (stripOtherCandidates bg.2.candidates row ((positions d1).headD 0)
            [some d1, some d2]).2.1 row (((positions d1).drop 1).headD 0)
          [some d1, some d2] hrow hc2
        have h1 : (stripOtherCandidates bg.2.candidates row ((positions d1).headD 0)
            [some d1, some d2]).2.2 = [] := List.eq_nil_of_length_eq_zero (by omega)
        have h2 : (stripOtherCandidates
            (stripOtherCandidates bg.2.candidates row ((positions d1).headD 0)
              [some d1, some d2]).2.1 row (((positions d1).drop 1).headD 0)
            [some d1, some d2]).2.2 = [] := List.eq_nil_of_length_eq_zero (by omega)
        have hf1 : (stripOtherCandidates bg.2.candidates row ((positions d1).headD 0)
            [some d1, some d2]).1 = false := by
          rw [Bool.eq_false_iff]
          intro ht
          exact (strip_changed_iff _ _ _ _).mp ht h1
        have hf2 : (stripOtherCandidates
            (stripOtherCandidates bg.2.candidates row ((positions d1).headD 0)
              [some d1, some d2]).2.1 row (((positions d1).drop 1).headD 0)
            [some d1, some d2]).1 = false := by
          rw [Bool.eq_false_iff]
          intro ht
          exact (strip_changed_iff _ _ _ _).mp ht h2
        rw [hf1, hf2, hnil2 h2, hnil1 h1]
        simp

/-- One hidden-pairs digit-pair visit of a column. -/
theorem hiddenPairsColStep_fact (col : ℕ) (positions : ℤ → List ℕ)
    (hcol : col < 9) (hpos : ∀ d, ∀ r ∈ positions d, r < 9)
    (bg : Bool × Game) (p : ℤ × ℤ) :
    hiddenPairsColStep col positions bg p = bg ∨
    ((hiddenPairsColStep col positions bg p).1 = true ∧
      (WFGame bg.2 → measureG (hiddenPairsColStep col positions bg p).2 < measureG bg.2 ∧
        WFGame (hiddenPairsColStep col positions bg p).2) ∧
      (Sound bg.2 → Sound (hiddenPairsColStep col positions bg p).2)) := by
  obtain ⟨d1, d2⟩ := p
  unfold hiddenPairsColStep
  dsimp only
  split
  case isFalse => exact Or.inl rfl
  case isTrue hlen =>
    split
    case isFalse => exact Or.inl rfl
    case isTrue heqp =>
      have hne1 : positions d1 ≠ [] := List.ne_nil_of_length_pos (by omega)
      have hne2 : (positions d1).drop 1 ≠ [] :=
        List.ne_nil_of_length_pos (by rw [List.length_drop]; omega)
      have hr1 : (positions d1).headD 0 < 9 := hpos d1 _ (headD_mem hne1 0)
      have hr2 : ((positions d1).drop 1).headD 0 < 9 :=
        hpos d1 _ (List.mem_of_mem_drop (headD_mem hne2 0))
      split
      case isTrue hrem =>
        exact Or.inr ⟨strip2_flag_true bg.1 hrem,
          (fun z => ⟨fun hwf => ⟨z.1, z.2.1 hwf⟩, z.2.2⟩)
            (hit_strip2_ok bg.2 _ col _ col [some d1, some d2] hr1 hcol hr2 hcol
              "Hidden Pair" (some "Column") 5 _ rfl
              (List.ne_nil_of_length_pos hrem))⟩
      case isFalse hrem =>
        left
        have hz := Nat.le_zero.mp (Nat.not_lt.mp hrem)
        rw [List.length_append] at hz
        obtain ⟨_, hnil1, _, _⟩ := strip_spec bg.2.candidates
          ((positions d1).headD 0) col [some d1, some d2] hr1 hcol
        obtain ⟨_, hnil2, _, _⟩ := strip_spec
          (stripOtherCandidates bg.2.candidates ((positions d1).headD 0) col
            [some d1, some d2]).2.1 (((positions d1).drop 1).headD 0) col
          [some d1, some d2] hr2 hcol
        have h1 : (stripOtherCandidates bg.2.candidates ((positions d1).headD 0) col
            [some d1, some d2]).2.2 = [] := List.eq_nil_of_length_eq_zero (by omega)
        have h2 : (stripOtherCandidates
            (stripOtherCandidates bg.2.candidates ((positions d1).headD 0) col
              [some d1, some d2]).2.1 (((positions d1).drop 1).headD 0) col
            [some d1, some d2]).2.2 = [] := List.eq_nil_of_length_eq_zero (by omega)
        have hf1 : (stripOtherCandidates bg.2.candidates ((positions d1).headD 0) col
            [some d1, some d2]).1 = false := by
          rw [Bool.eq_false_iff]
          intro ht
          exact (strip_changed_iff _ _ _ _).mp ht h1
        have hf2 : (stripOtherCandidates
            (stripOtherCandidates bg.2.candidates ((positions d1).headD 0) col
              [some d1, some d2]).2.1 (((positions d1).drop 1).headD 0) col
            [some d1, some d2]).1 = false := by
          rw [Bool.eq_false_iff]
          intro ht
          exact (strip_changed_iff _ _ _ _).mp ht h2
        rw [hf1, hf2, hnil2 h2, hnil1 h1]
        simp

/-- One hidden-pairs digit-pair visit of a box. -/
theorem hiddenPairsBoxStep_fact (boxRow boxCol : ℕ)
    (positions : ℤ → List (ℕ × ℕ))
    (hpos : ∀ d, ∀ p ∈ positions d, p.1 < 9 ∧ p.2 < 9)
    (bg : Bool × Game) (p : ℤ × ℤ) :
    hiddenPairsBoxStep boxRow boxCol positions bg p = bg ∨
    ((hiddenPairsBoxStep boxRow boxCol positions bg p).1 = true ∧
      (WFGame bg.2 →
        measureG (hiddenPairsBoxStep boxRow boxCol positions bg p).2 < measureG bg.2 ∧
        WFGame (hiddenPairsBoxStep boxRow boxCol positions bg p).2) ∧
      (Sound bg.2 → Sound (hiddenPairsBoxStep boxRow boxCol positions bg p).2)) := by
  obtain ⟨d1, d2⟩ := p
  unfold hiddenPairsBoxStep
  dsimp only
  split
  case isFalse => exact Or.inl rfl
  case isTrue hlen =>
    split
    case isFalse => exact Or.inl rfl
    case isTrue heqp =>
      have hne1 : positions d1 ≠ [] := List.ne_nil_of_length_pos (by omega)
      have hne2 : (positions d1).drop 1 ≠ [] :=
        List.ne_nil_of_length_pos (by rw [List.length_drop]; omega)
      obtain ⟨hr1, hc1⟩ := hpos d1 _ (headD_mem hne1 (0, 0))
      obtain ⟨hr2, hc2⟩ :=
        hpos d1 _ (List.mem_of_mem_drop (headD_mem hne2 (0, 0)))
      split
      case isTrue hrem =>
        exact Or.inr ⟨strip2_flag_true bg.1 hrem,
          (fun z => ⟨fun hwf => ⟨z.1, z.2.1 hwf⟩, z.2.2⟩)
            (hit_strip2_ok bg.2 _ _ _ _ [some d1, some d2] hr1 hc1 hr2 hc2
              "Hidden Pair" (some "Box") 5 _ rfl
              (List.ne_nil_of_length_pos hrem))⟩
      case isFalse hrem =>
        left
        have hz := Nat.le_zero.mp (Nat.not_lt.mp hrem)
        rw [List.length_append] at hz
        obtain ⟨_, hnil1, _, _⟩ := strip_spec bg.2.candidates
          ((positions d1).headD (0, 0)).1 ((positions d1).headD (0, 0)).2
          [some d1, some d2] hr1 hc1
        obtain ⟨_, hnil2, _, _⟩ := strip_spec
          (stripOtherCandidates bg.2.candidates ((positions d1).headD (0, 0)).1
            ((positions d1).headD (0, 0)).2 [some d1, some d2]).2.1
          (((positions d1).drop 1).headD (0, 0)).1
          (((positions d1).drop 1).headD (0, 0)).2 [some d1, some d2] hr2 hc2
        have h1 : (stripOtherCandidates bg.2.candidates
            ((positions d1).headD (0, 0)).1 ((positions d1).headD (0, 0)).2
            [some d1, some d2]).2.2 = [] := List.eq_nil_of_length_eq_zero (by omega)
        have h2 : (stripOtherCandidates
            (stripOtherCandidates bg.2.candidates ((positions d1).headD (0, 0)).1
              ((positions d1).headD (0, 0)).2 [some d1, some d2]).2.1
            (((positions d1).drop 1).headD (0, 0)).1
            (((positions d1).drop 1).headD (0, 0)).2
            [some d1, some d2]).2.2 = [] := List.eq_nil_of_length_eq_zero (by omega)
        have hf1 : (stripOtherCandidates bg.2.candidates
            ((positions d1).headD (0, 0)).1 ((positions d1).headD (0, 0)).2
            [some d1, some d2]).1 = false := by
          rw [Bool.eq_false_iff]
          intro ht
          exact (strip_changed_iff _ _ _ _).mp ht h1
        have hf2 : (stripOtherCandidates
            (stripOtherCandidates bg.2.candidates ((positions d1).headD (0, 0)).1
              ((positions d1).headD (0, 0)).2 [some d1, some d2]).2.1
            (((positions d1).drop 1).headD (0, 0)).1
            (((positions d1).drop 1).headD (0, 0)).2
            [some d1, some d2]).1 = false := by
          rw [Bool.eq_false_iff]
          intro ht
          exact (strip_changed_iff _ _ _ _).mp ht h2
        rw [hf1, hf2, hnil2 h2, hnil1 h1]
        simp

theorem applyHiddenPairsInRow_ok (g : Game) (row : ℕ) (hrow : row < 9) :
    CallOK g (applyHiddenPairsInRow g row) := by
  unfold applyHiddenPairsInRow
  dsimp only
  split
  · exact CallOK.of_eq rfl
  · exact callOK_of_scanInv (foldl_inv (scanInv_step
      (hiddenPairsRowStep_fact row (positionsForDigitInRow g row) hrow
        (fun d c hc => mem_positionsForDigitInRow_lt hc))) _ _ (Or.inl rfl))

theorem applyHiddenPairsInColumn_ok (g : Game) (col : ℕ) (hcol : col < 9) :
    CallOK g (applyHiddenPairsInColumn g col) := by
  unfold applyHiddenPairsInColumn
  dsimp only
  split
  · exact CallOK.of_eq rfl
  · exact callOK_of_scanInv (foldl_inv (scanInv_step
      (hiddenPairsColStep_fact col (positionsForDigitInCol g col) hcol
        (fun d r hr => mem_positionsForDigitInCol_lt hr))) _ _ (Or.inl rfl))

theorem applyHiddenPairsInBox_ok (g : Game) (boxRow boxCol : ℕ)
    (hbr : boxRow < 3) (hbc : boxCol < 3) :
    CallOK g (applyHiddenPairsInBox g boxRow boxCol) := by
  unfold applyHiddenPairsInBox
  dsimp only
  split
  · exact CallOK.of_eq rfl
  · exact callOK_of_scanInv (foldl_inv (scanInv_step
      (hiddenPairsBoxStep_fact boxRow boxCol
        (positionsForDigitInBox g boxRow boxCol)
        (fun d p hp => mem_positionsForDigitInBox_lt hbr hbc hp))) _ _ (Or.inl rfl))

theorem applyHiddenPairs_ok (g : Game) (opts : Option SolverOptions) :
    CallOK g (applyHiddenPairs g opts) := by
  unfold applyHiddenPairs
  split
  · exact CallOK.of_eq rfl
  · dsimp only
    split
    next x g1 hres1 =>
      have hfacts : (WFGame g → measureG g1 < measureG g ∧ WFGame g1) ∧
          (Sound g → Sound g1) := by
        split at hres1
        · refine firstHit_unit_facts (fun bb hbb => ?_) hres1
          obtain ⟨h1, h2⟩ := mem_allBoxes hbb
          exact applyHiddenPairsInBox_ok g bb.1 bb.2 h1 h2
        · exact absurd hres1 (by simp)
      exact callOK_hit hfacts.1 hfacts.2
    next x hres1 =>
      split
      next y g2 hres2 =>
        have hfacts : (WFGame g → measureG g2 < measureG g ∧ WFGame g2) ∧
            (Sound g → Sound g2) := by
          split at hres2
          · exact firstHit_unit_facts (fun r hr =>
              applyHiddenPairsInRow_ok g r (List.mem_range.mp hr)) hres2
          · exact absurd hres2 (by simp)
        exact callOK_hit hfacts.1 hfacts.2
      next y hres2 =>
        split
        next z g3 hres3 =>
          have hfacts : (WFGame g → measureG g3 < measureG g ∧ WFGame g3) ∧
              (Sound g → Sound g3) := by
            split at hres3
            · exact firstHit_unit_facts (fun c hc =>
                applyHiddenPairsInColumn_ok g c (List.mem_range.mp hc)) hres3
            · exact absurd hres3 (by simp)
          exact callOK_hit hfacts.1 hfacts.2
        next z hres3 => exact CallOK.of_eq rfl

/-- A productive `eliminateDigitFromBox` call on an in-range box fires
the deletion hit shape. -/
theorem eliminateDigitFromBox_fact (g : Game) (boxRow boxCol : ℕ) (digit : ℤ)
    (excludeRow excludeCol : Option ℕ) (hbr : boxRow < 3) (hbc : boxCol < 3)
    (g' : Game)
    (h : eliminateDigitFromBox g boxRow boxCol digit excludeRow excludeCol = (true, g')) :
    (WFGame g → measureG g' < measureG g ∧ WFGame g') ∧ (Sound g → Sound g') := by
  unfold eliminateDigitFromBox at h
  dsimp only at h
  split at h
  case isTrue hlen =>
    have hreq : ∀ t ∈ ((boxCells boxRow boxCol).filter (fun rc =>
        !((match excludeRow with | some er => decide (rc.1 = er) | none => false) ||
          (match excludeCol with | some ec => decide (rc.2 = ec) | none => false)) ∧
          jsEq (g.board rc.1 rc.2) (some 0))).map
        (fun rc => (rc.1, rc.2, (some digit : JSNum))),
        t.1 < 9 ∧ t.2.1 < 9 := by
      intro t ht
      obtain ⟨rc, hrc, rfl⟩ := List.mem_map.mp ht
      exact mem_boxCells_lt hbr hbc (List.mem_filter.mp hrc).1
    obtain ⟨-, rfl⟩ := Prod.mk.injEq .. |>.mp h
    exact (fun z => ⟨fun hwf => ⟨z.1, z.2.1 hwf⟩, z.2.2⟩)
      (hit_deletes_ok g _ hreq (List.ne_nil_of_length_pos hlen)
        "Box Line Reduction" _ 5 _ rfl)
  case isFalse =>
    exact absurd (Prod.mk.injEq .. |>.mp h).1 (by simp)

theorem blrRowHit_ok (g : Game) (rd : ℕ × ℤ) (hrow : rd.1 < 9) (g' : Game)
    (h : blrRowHit g rd = some g') :
    (WFGame g → measureG g' < measureG g ∧ WFGame g') ∧ (Sound g → Sound g') := by
  obtain ⟨row, digit⟩ := rd
  simp only at hrow
  unfold blrRowHit at h
  dsimp only at h
  split at h
  · exact absurd h (by simp)
  · split at h
    case isFalse => exact absurd h (by simp)
    case isTrue hlen =>
      split at h
      case isFalse => exact absurd h (by simp)
      case isTrue hall =>
        have hne : (List.range 9).filter (fun col =>
            jsEq (g.board row col) (some 0) ∧
              setHas (g.candidates row col) (some digit)) ≠ [] :=
          List.ne_nil_of_length_pos (by omega)
        have hcol9 : ((List.range 9).filter (fun col =>
            jsEq (g.board row col) (some 0) ∧
              setHas (g.candidates row col) (some digit))).headD 0 < 9 :=
          List.mem_range.mp (List.mem_filter.mp (headD_mem hne 0)).1
        revert h
        rcases hres : eliminateDigitFromBox g (row / 3)
          (((List.range 9).filter (fun col =>
            jsEq (g.board row col) (some 0) ∧
              setHas (g.candidates row col) (some digit))).headD 0 / 3)
          digit (some row) none with ⟨b, gr⟩
        cases b
        · intro h
          exact absurd h (by simp)
        · intro h
          obtain rfl := Option.some.inj h
          exact eliminateDigitFromBox_fact g _ _ digit _ _
            (by omega) (by omega) gr hres

theorem blrColHit_ok (g : Game) (cd : ℕ × ℤ) (hcol : cd.1 < 9) (g' : Game)
    (h : blrColHit g cd = some g') :
    (WFGame g → measureG g' < measureG g ∧ WFGame g') ∧ (Sound g → Sound g') := by
  obtain ⟨col, digit⟩ := cd
  simp only at hcol
  unfold blrColHit at h
  dsimp only at h
  split at h
  · exact absurd h (by simp)
  · split at h
    case isFalse => exact absurd h (by simp)
    case isTrue hlen =>
      split at h
      case isFalse => exact absurd h (by simp)
      case isTrue hall =>
        have hne : (List.range 9).filter (fun row =>
            jsEq (g.board row col) (some 0) ∧
              setHas (g.candidates row col) (some digit)) ≠ [] :=
          List.ne_nil_of_length_pos (by omega)
        have hrow9 : ((List.range 9).filter (fun row =>
            jsEq (g.board row col) (some 0) ∧
              setHas (g.candidates row col) (some digit))).headD 0 < 9 :=
          List.mem_range.mp (List.mem_filter.mp (headD_mem hne 0)).1
        revert h
        rcases hres : eliminateDigitFromBox g
          (((List.range 9).filter (fun row =>
            jsEq (g.board row col) (some 0) ∧
              setHas (g.candidates row col) (some digit))).headD 0 / 3)
          (col / 3) digit none (some col) with ⟨b, gr⟩
        cases b
        · intro h
          exact absurd h (by simp)
        · intro h
          obtain rfl := Option.some.inj h
          exact eliminateDigitFromBox_fact g _ _ digit _ _
            (by omega) (by omega) gr hres

theorem applyBoxLineReductionInRows_ok (g : Game) :
    CallOK g (applyBoxLineReductionInRows g) := by
  unfold applyBoxLineReductionInRows
  refine callOK_firstHit (fun rd hrd g' h => ?_)
  obtain ⟨r, hr, hmem⟩ := List.mem_flatMap.mp hrd
  obtain ⟨d, hd, rfl⟩ := List.mem_map.mp hmem
  exact blrRowHit_ok g _ (List.mem_range.mp hr) g' h

theorem applyBoxLineReductionInColumns_ok (g : Game) :
    CallOK g (applyBoxLineReductionInColumns g) := by
  unfold applyBoxLineReductionInColumns
  refine callOK_firstHit (fun cd hcd g' h => ?_)
  obtain ⟨c, hc, hmem⟩ := List.mem_flatMap.mp hcd
  obtain ⟨d, hd, rfl⟩ := List.mem_map.mp hmem
  exact blrColHit_ok g _ (List.mem_range.mp hc) g' h

theorem applyBoxLineReduction_ok (g : Game) (opts : Option SolverOptions) :
    CallOK g (applyBoxLineReduction g opts) := by
  unfold applyBoxLineReduction
  split
  · exact CallOK.of_eq rfl
  · have hrows : CallOK g (if !flagIsFalse opts (·.boxLineReductionRows) then
        applyBoxLineReductionInRows g else (false, g)) := by
      split
      · exact applyBoxLineReductionInRows_ok g
      · exact CallOK.of_eq rfl
    have hcols : CallOK g (if !flagIsFalse opts (·.boxLineReductionCols) then
        applyBoxLineReductionInColumns g else (false, g)) := by
      split
      · exact applyBoxLineReductionInColumns_ok g
      · exact CallOK.of_eq rfl
    dsimp only
    exact callOK_orient2 hrows hcols

/-- One X-wing row-pair visit either leaves the accumulator untouched or
fires the deletion hit shape. -/
theorem xwingRowStep_fact (d : ℤ) (pos : ℕ → List ℕ)
    (hpos : ∀ r, ∀ c ∈ pos r, c < 9) (bg : Bool × Game) (p : ℕ × ℕ) :
    xwingRowStep d pos bg p = bg ∨
    ((xwingRowStep d pos bg p).1 = true ∧
      (WFGame bg.2 → measureG (xwingRowStep d pos bg p).2 < measureG bg.2 ∧
        WFGame (xwingRowStep d pos bg p).2) ∧
      (Sound bg.2 → Sound (xwingRowStep d pos bg p).2)) := by
  obtain ⟨r1, r2⟩ := p
  unfold xwingRowStep
  dsimp only
  split
  case isFalse => exact Or.inl rfl
  case isTrue hlen =>
    obtain ⟨hl1, hl2⟩ := hlen
    split
    case isFalse => exact Or.inl rfl
    case isTrue hmatch =>
      have hne1 : pos r1 ≠ [] := List.ne_nil_of_length_pos (by omega)
      have hne1' : (pos r1).drop 1 ≠ [] :=
        List.ne_nil_of_length_pos (by rw [List.length_drop]; omega)
      have hc1 : (pos r1).headD 0 < 9 := hpos r1 _ (headD_mem hne1 0)
      have hc2 : ((pos r1).drop 1).headD 0 < 9 :=
        hpos r1 _ (List.mem_of_mem_drop (headD_mem hne1' 0))
      have hreq : ∀ t ∈ ((List.range 9).filter (fun rx => rx ≠ r1 ∧ rx ≠ r2)).flatMap
          (fun rx =>
            (if jsEq (bg.2.board rx ((pos r1).headD 0)) (some 0) = true then
              [(rx, (pos r1).headD 0, (some d : JSNum))] else []) ++
            (if jsEq (bg.2.board rx (((pos r1).drop 1).headD 0)) (some 0) = true then
              [(rx, ((pos r1).drop 1).headD 0, (some d : JSNum))] else [])),
          t.1 < 9 ∧ t.2.1 < 9 := by
        intro t ht
        obtain ⟨rx, hrx, hmem⟩ := List.mem_flatMap.mp ht
        have hrx9 : rx < 9 := List.mem_range.mp (List.mem_filter.mp hrx).1
        rcases List.mem_append.mp hmem with hm | hm
        · split at hm
          · rw [List.mem_singleton] at hm
            subst hm
            exact ⟨hrx9, hc1⟩
          · exact absurd hm (List.not_mem_nil t)
        · split at hm
          · rw [List.mem_singleton] at hm
            subst hm
            exact ⟨hrx9, hc2⟩
          · exact absurd hm (List.not_mem_nil t)
      split
      case isTrue hlen2 =>
        refine Or.inr ⟨by rw [decide_eq_true hlen2]; exact Bool.or_true _,
          (fun z => ⟨fun hwf => ⟨z.1, z.2.1 hwf⟩, z.2.2⟩)
            (hit_deletes_ok bg.2 _ hreq (List.ne_nil_of_length_pos hlen2)
              "X-Wing" (some "Row") 6 _ rfl)⟩
      case isFalse hlen2 =>
        have hz := Nat.le_zero.mp (Nat.not_lt.mp hlen2)
        obtain ⟨_, hnil, _, _⟩ := processDeletes_spec bg.2.candidates _ hreq
        left
        rw [hnil (List.eq_nil_of_length_eq_zero hz)]
        show (bg.1 || decide _, { bg.2 with candidates := bg.2.candidates }) = bg
        rw [hz]
        simp

/-- One X-wing column-pair visit. -/
theorem xwingColStep_fact (d : ℤ) (pos : ℕ → List ℕ)
    (hpos : ∀ c, ∀ r ∈ pos c, r < 9) (bg : Bool × Game) (p : ℕ × ℕ) :
    xwingColStep d pos bg p = bg ∨
    ((xwingColStep d pos bg p).1 = true ∧
      (WFGame bg.2 → measureG (xwingColStep d pos bg p).2 < measureG bg.2 ∧
        WFGame (xwingColStep d pos bg p).2) ∧
      (Sound bg.2 → Sound (xwingColStep d pos bg p).2)) := by
  obtain ⟨c1, c2⟩ := p
  unfold xwingColStep
  dsimp only
  split
  case isFalse => exact Or.inl rfl
  case isTrue hlen =>
    obtain ⟨hl1, hl2⟩ := hlen
    split
    case isFalse => exact Or.inl rfl
    case isTrue hmatch =>
      have hne1 : pos c1 ≠ [] := List.ne_nil_of_length_pos (by omega)
      have hne1' : (pos c1).drop 1 ≠ [] :=
        List.ne_nil_of_length_pos (by rw [List.length_drop]; omega)
      have hr1 : (pos c1).headD 0 < 9 := hpos c1 _ (headD_mem hne1 0)
      have hr2 : ((pos c1).drop 1).headD 0 < 9 :=
        hpos c1 _ (List.mem_of_mem_drop (headD_mem hne1' 0))
      have hreq : ∀ t ∈ ((List.range 9).filter (fun cx => cx ≠ c1 ∧ cx ≠ c2)).flatMap
          (fun cx =>
            (if jsEq (bg.2.board ((pos c1).headD 0) cx) (some 0) = true then
              [((pos c1).headD 0, cx, (some d : JSNum))] else []) ++
            (if jsEq (bg.2.board (((pos c1).drop 1).headD 0) cx) (some 0) = true then
              [(((pos c1).drop 1).headD 0, cx, (some d : JSNum))] else [])),
          t.1 < 9 ∧ t.2.1 < 9 := by
        intro t ht
        obtain ⟨cx, hcx, hmem⟩ := List.mem_flatMap.mp ht
        have hcx9 : cx < 9 := List.mem_range.mp (List.mem_filter.mp hcx).1
        rcases List.mem_append.mp hmem with hm | hm
        · split at hm
          · rw [List.mem_singleton] at hm
            subst hm
            exact ⟨hr1, hcx9⟩
          · exact absurd hm (List.not_mem_nil t)
        · split at hm
          · rw [List.mem_singleton] at hm
            subst hm
            exact ⟨hr2, hcx9⟩
          · exact absurd hm (List.not_mem_nil t)
      split
      case isTrue hlen2 =>
        refine Or.inr ⟨by rw [decide_eq_true hlen2]; exact Bool.or_true _,
          (fun z => ⟨fun hwf => ⟨z.1, z.2.1 hwf⟩, z.2.2⟩)
            (hit_deletes_ok bg.2 _ hreq (List.ne_nil_of_length_pos hlen2)
              "X-Wing" (some "Column") 6 _ rfl)⟩
      case isFalse hlen2 =>
        have hz := Nat.le_zero.mp (Nat.not_lt.mp hlen2)
        obtain ⟨_, hnil, _, _⟩ := processDeletes_spec bg.2.candidates _ hreq
        left
        rw [hnil (List.eq_nil_of_length_eq_zero hz)]
        show (bg.1 || decide _, { bg.2 with candidates := bg.2.candidates }) = bg
        rw [hz]
        simp

theorem applyXWingRows_ok (g : Game) (d : ℤ) : CallOK g (applyXWingRows g d) := by
  unfold applyXWingRows
  dsimp only
  exact callOK_of_scanInv (foldl_inv (scanInv_step (xwingRowStep_fact d _
    (fun r c hc => List.mem_range.mp (List.mem_filter.mp hc).1))) _ _ (Or.inl rfl))

theorem applyXWingColumns_ok (g : Game) (d : ℤ) :
    CallOK g (applyXWingColumns g d) := by
  unfold applyXWingColumns
  dsimp only
  exact callOK_of_scanInv (foldl_inv (scanInv_step (xwingColStep_fact d _
    (fun c r hr => List.mem_range.mp (List.mem_filter.mp hr).1))) _ _ (Or.inl rfl))

theorem applyXWing_ok (g : Game) (opts : Option SolverOptions) :
    CallOK g (applyXWing g opts) := by
  unfold applyXWing
  split
  · exact CallOK.of_eq rfl
  · refine callOK_firstHit (fun dk hdk g' h => ?_)
    obtain ⟨d, hd, hmem⟩ := List.mem_flatMap.mp hdk
    simp only [List.mem_cons, List.not_mem_nil, or_false] at hmem
    rcases hmem with rfl | rfl
    · dsimp only at h
      split at h
      case isFalse hcond => exact absurd rfl hcond
      case isTrue =>
        split at h
        case isFalse => exact absurd h (by simp)
        case isTrue =>
          revert h
          rcases hres : applyXWingRows g d with ⟨b, gr⟩
          cases b
          · intro h
            exact absurd h (by simp)
          · intro h
            obtain rfl := Option.some.inj h
            have hcall := applyXWingRows_ok g d
            rw [hres] at hcall
            exact ⟨fun hwf => hcall.2.1 rfl hwf, hcall.2.2⟩
    · dsimp only at h
      split at h
      case isTrue hcond => exact absurd hcond (by simp)
      case isFalse =>
        split at h
        case isFalse => exact absurd h (by simp)
        case isTrue =>
          revert h
          rcases hres : applyXWingColumns g d with ⟨b, gr⟩
          cases b
          · intro h
            exact absurd h (by simp)
          · intro h
            obtain rfl := Option.some.inj h
            have hcall := applyXWingColumns_ok g d
            rw [hres] at hcall
            exact ⟨fun hwf => hcall.2.1 rfl hwf, hcall.2.2⟩

/-!
### The scheduler
-/

/-- A full pass over the seven strategies satisfies the call contract:
the first-change short circuit returns the first productive strategy's
state, and an all-`false` pass leaves the game untouched. -/
theorem passStrategies_ok (g : Game) (opts : Option SolverOptions) :
    CallOK g (passStrategies g opts) := by
  unfold passStrategies
  dsimp only
  have h1 := applyNakedSingles_ok g opts
  by_cases hb1 : (applyNakedSingles g opts).1 = true
  · rw [if_pos hb1]
    exact ⟨fun h => by simp at h, fun _ => h1.2.1 hb1, h1.2.2⟩
  · rw [if_neg hb1, h1.1 (Bool.eq_false_iff.mpr hb1)]
    have h2 := applyNakedPairs_ok g opts
    by_cases hb2 : (applyNakedPairs g opts).1 = true
    · rw [if_pos hb2]
      exact ⟨fun h => by simp at h, fun _ => h2.2.1 hb2, h2.2.2⟩
    · rw [if_neg hb2, h2.1 (Bool.eq_false_iff.mpr hb2)]
      have h3 := applyHiddenSingles_ok g opts
      by_cases hb3 : (applyHiddenSingles g opts).1 = true
      · rw [if_pos hb3]
        exact ⟨fun h => by simp at h, fun _ => h3.2.1 hb3, h3.2.2⟩
      · rw [if_neg hb3, h3.1 (Bool.eq_false_iff.mpr hb3)]
        have h4 := applyNakedTriples_ok g opts
        by_cases hb4 : (applyNakedTriples g opts).1 = true
        · rw [if_pos hb4]
          exact ⟨fun h => by simp at h, fun _ => h4.2.1 hb4, h4.2.2⟩
        · rw [if_neg hb4, h4.1 (Bool.eq_false_iff.mpr hb4)]
          have h5 := applyHiddenPairs_ok g opts
          by_cases hb5 : (applyHiddenPairs g opts).1 = true
          · rw [if_pos hb5]
            exact ⟨fun h => by simp at h, fun _ => h5.2.1 hb5, h5.2.2⟩
          · rw [if_neg hb5, h5.1 (Bool.eq_false_iff.mpr hb5)]
            have h6 := applyBoxLineReduction_ok g opts
            by_cases hb6 : (applyBoxLineReduction g opts).1 = true
            · rw [if_pos hb6]
              exact ⟨fun h => by simp at h, fun _ => h6.2.1 hb6, h6.2.2⟩
            · rw [if_neg hb6, h6.1 (Bool.eq_false_iff.mpr hb6)]
              have h7 := applyXWing_ok g opts
              by_cases hb7 : (applyXWing g opts).1 = true
              · rw [if_pos hb7]
                exact ⟨fun h => by simp at h, fun _ => h7.2.1 hb7, h7.2.2⟩
              · rw [if_neg hb7, h7.1 (Bool.eq_false_iff.mpr hb7)]
                exact CallOK.of_eq rfl

/-- The snapshot-soundness invariant survives the whole loop for any
fuel, well-formed or not. -/
theorem applyLogicalStrategiesFuel_sound : ∀ (n : ℕ) (g : Game)
    (opts : Option SolverOptions),
    Sound g → Sound (applyLogicalStrategiesFuel n g opts) := by
  intro n
  induction n with
  | zero => intro g opts hs; exact hs
  | succ n ih =>
    intro g opts hs
    unfold applyLogicalStrategiesFuel
    have hp := passStrategies_ok g opts
    rcases hres : passStrategies g opts with ⟨b, g'⟩
    rw [hres] at hp
    cases b
    · exact hp.2.2 hs
    · exact ih g' opts (hp.2.2 hs)

/-- With fuel exceeding the measure, the loop reaches a fixpoint of
`passStrategies`, preserving well-formedness and soundness and never
increasing the measure. -/
theorem applyLogicalStrategiesFuel_adequate : ∀ (n : ℕ) (g : Game)
    (opts : Option SolverOptions), WFGame g → measureG g < n →
    WFGame (applyLogicalStrategiesFuel n g opts) ∧
    passStrategies (applyLogicalStrategiesFuel n g opts) opts =
      (false, applyLogicalStrategiesFuel n g opts) ∧
    (Sound g → Sound (applyLogicalStrategiesFuel n g opts)) ∧
    measureG (applyLogicalStrategiesFuel n g opts) ≤ measureG g := by
  intro n
  induction n with
  | zero => intro g opts _ hm; exact absurd hm (Nat.not_lt_zero _)
  | succ n ih =>
    intro g opts hwf hm
    unfold applyLogicalStrategiesFuel
    have hp := passStrategies_ok g opts
    rcases hres : passStrategies g opts with ⟨b, g'⟩
    rw [hres] at hp
    cases b
    · have hg : g' = g := hp.1 rfl
      subst hg
      exact ⟨hwf, hres, fun hs => hs, le_refl _⟩
    · have hlt : measureG g' < measureG g := (hp.2.1 rfl hwf).1
      have hwf' : WFGame g' := (hp.2.1 rfl hwf).2
      obtain ⟨ha, hb2, hc, hd⟩ := ih g' opts hwf' (by omega)
      exact ⟨ha, hb2, fun hs => hc (hp.2.2 hs), le_trans hd (le_of_lt hlt)⟩

/-- Beyond adequacy the exact fuel value is irrelevant: the embedded
loop computes the same state for every sufficient fuel, so it models the
unbounded `while` of the source. -/
theorem applyLogicalStrategiesFuel_stable : ∀ (n m : ℕ) (g : Game)
    (opts : Option SolverOptions), WFGame g → measureG g < n → measureG g < m →
    applyLogicalStrategiesFuel n g opts = applyLogicalStrategiesFuel m g opts := by
  intro n
  induction n with
  | zero => intro m g opts _ hn; exact absurd hn (Nat.not_lt_zero _)
  | succ n ih =>
    intro m g opts hwf hn hm
    cases m with
    | zero => exact absurd hm (Nat.not_lt_zero _)
    | succ m =>
      show applyLogicalStrategiesFuel (n + 1) g opts =
        applyLogicalStrategiesFuel (m + 1) g opts
      unfold applyLogicalStrategiesFuel
      have hp := passStrategies_ok g opts
      rcases hres : passStrategies g opts with ⟨b, g'⟩
      rw [hres] at hp
      cases b
      · rfl
      · have hlt : measureG g' < measureG g := (hp.2.1 rfl hwf).1
        have hwf' : WFGame g' := (hp.2.1 rfl hwf).2
        exact ih m g' opts hwf' (by omega) (by omega)

/-- `applyLogicalStrategies` on a well-formed state: well-formedness is
kept, the result is a fixpoint of the strategy pass, and soundness is
preserved. -/
theorem applyLogicalStrategies_spec (g : Game) (opts : Option SolverOptions)
    (hwf : WFGame g) :
    WFGame (applyLogicalStrategies g opts) ∧
    passStrategies (applyLogicalStrategies g opts) opts =
      (false, applyLogicalStrategies g opts) ∧
    (Sound g → Sound (applyLogicalStrategies g opts)) := by
  obtain ⟨ha, hb, hc, _⟩ :=
    applyLogicalStrategiesFuel_adequate (measureG g + 1) g opts hwf (by omega)
  exact ⟨ha, hb, hc⟩

/-!
### `solveSudoku` invariants
-/

/-- The very first snapshot recorded on a fresh game trivially satisfies
the running snapshot invariant. -/
theorem sound_initial (g : Game) (hsnap : g.snapshots = []) (k : String)
    (v : Option String) (d : ℕ) (hl : Option Highlight) :
    Sound (addSnapshot g k v d hl) := by
  constructor
  · rw [addSnapshot_snapshots, hsnap]
    exact trivial
  · refine ⟨⟨g.board, g.candidates, k, v, d, hl⟩, ?_, rfl, rfl⟩
    rw [addSnapshot_snapshots, List.getLast?_concat]

/-- Every successful `solveSudoku` run yields a game satisfying the
snapshot-soundness invariant, for any input and options. -/
theorem solveSudoku_sound (input : List (List JSNum) ⊕ String)
    (opts : Option SolverOptions) :
    match solveSudoku input opts with
    | .ok g => Sound g
    | .error _ => True := by
  cases input with
  | inl m =>
    exact applyLogicalStrategiesFuel_sound _ _ opts (sound_initial _ rfl _ _ _ _)
  | inr s =>
    unfold solveSudoku
    dsimp only
    rcases hres : stringToBoard s with e | m
    · exact trivial
    · exact applyLogicalStrategiesFuel_sound _ _ opts (sound_initial _ rfl _ _ _ _)

/-- A length mismatch makes `stringToBoard` throw before any parsing. -/
theorem stringToBoard_length {s : String} (h : s.length ≠ 81) :
    stringToBoard s = .error "Puzzle string must be exactly 81 characters long." := by
  unfold stringToBoard
  rw [if_pos h]
  rfl

/-!
### Backtracking restores the board on failure
-/

theorem findEmptyCell_empty {b : Board} {rc : ℕ × ℕ}
    (h : findEmptyCell b = some rc) : jsEq (b rc.1 rc.2) (some 0) = true := by
  unfold findEmptyCell at h
  have h2 := List.find?_some h
  exact h2

/-- Overwriting the same cell twice keeps only the second write. -/
theorem setCell_setCell (b : Board) (r c : ℕ) (v w : JSNum) :
    setCell (setCell b r c v) r c w = setCell b r c w := by
  unfold setCell
  by_cases hr : r < b.rows.length
  · have h1 : (b.rows.set r ((b.rows.getD r []).set c v)).getD r []
        = (b.rows.getD r []).set c v := getD_set_eq _ _ _ _ hr
    rw [h1, List.set_set, List.set_set]
  · have h2 : b.rows.set r ((b.rows.getD r []).set c v) = b.rows :=
      List.set_eq_of_length_le (le_of_not_lt hr)
    rw [h2]

/-- Writing `0` into a cell that already reads `0` changes nothing. -/
theorem setCell_zero_self {b : Board} {r c : ℕ} (h : b r c = some 0) :
    setCell b r c (some 0) = b := by
  obtain ⟨rows⟩ := b
  unfold setCell
  dsimp only
  by_cases hr : r < rows.length
  · by_cases hc : c < (rows.getD r []).length
    · have hx : (rows.getD r [])[c] = some 0 := by
        rw [← List.getD_eq_getElem (rows.getD r []) (some 0) hc]
        exact h
      have h2 : (rows.getD r []).set c (some 0) = rows.getD r [] := by
        rw [← hx]
        exact list_set_self _ _ hc
      have h3 : rows.getD r [] = rows[r] := by
        rw [List.getD_eq_getElem?_getD, List.getElem?_eq_getElem hr]
        rfl
      rw [h2, h3, list_set_self _ _ hr]
    · have h2 : (rows.getD r []).set c (some 0) = rows.getD r [] :=
        List.set_eq_of_length_le (le_of_not_lt hc)
      have h3 : rows.getD r [] = rows[r] := by
        rw [List.getD_eq_getElem?_getD, List.getElem?_eq_getElem hr]
        rfl
      rw [h2, h3, list_set_self _ _ hr]
  · rw [List.set_eq_of_length_le (le_of_not_lt hr)]

/-- The digit-trial loop of `backtrack` restores the board whenever it
reports failure, assuming the recursive call does. -/
theorem backtrackTry_board (recurse : Game → Bool × Game) (row col : ℕ)
    (hrec : ∀ g, (recurse g).1 = false → (recurse g).2.board = g.board) :
    ∀ (digits : List JSNum) (g : Game), g.board row col = some 0 →
      (backtrackTry recurse row col digits g).1 = false →
      (backtrackTry recurse row col digits g).2.board = g.board := by
  intro digits
  induction digits with
  | nil => intro g _ _; rfl
  | cons digit rest ih =>
    intro g hemp hb
    unfold backtrackTry at hb ⊢
    by_cases hv : isValid g.board row col digit = true
    · rw [if_pos hv] at hb ⊢
      dsimp only at hb ⊢
      rcases hres : recurse { g with
        board := setCell g.board row col digit
        candidates := eliminateFromPeers (setCell g.board row col digit)
          (setCands g.candidates row col [digit]) row col digit } with ⟨bb, g'⟩
      rw [hres] at hb
      cases bb
      · dsimp only at hb ⊢
        have hgb : g'.board = setCell g.board row col digit := by
          have hh := hrec { g with
            board := setCell g.board row col digit
            candidates := eliminateFromPeers (setCell g.board row col digit)
              (setCands g.candidates row col [digit]) row col digit }
            (by rw [hres])
          rw [hres] at hh
          exact hh
        have hb' : setCell g'.board row col (some 0) = g.board := by
          rw [hgb, setCell_setCell]
          exact setCell_zero_self hemp
        have hgoal := ih (rebuildAllCandidates { g' with
          board := setCell g'.board row col (some 0)
          candidates := setCands g'.candidates row col (g.candidates row col) })
          (by show (setCell g'.board row col (some 0)) row col = some 0
              rw [hb']
              exact hemp) hb
        rw [hgoal]
        exact hb'
      · dsimp only at hb
        exact absurd hb (by simp)
    · rw [if_neg hv] at hb ⊢
      exact ih g hemp hb

theorem backtrackFuel_board : ∀ (n : ℕ) (g : Game),
    (backtrackFuel n g).1 = false → (backtrackFuel n g).2.board = g.board := by
  intro n
  induction n with
  | zero => intro g _; rfl
  | succ n ih =>
    intro g h
    unfold backtrackFuel at h ⊢
    rcases hfe : findEmptyCell g.board with _ | rc
    · rw [hfe] at h
    · rw [hfe] at h
      obtain ⟨row, col⟩ := rc
      dsimp only at h ⊢
      have hemp : g.board row col = some 0 :=
        jsEq_some_zero (findEmptyCell_empty hfe)
      exact backtrackTry_board (backtrackFuel n) row col ih
        (g.candidates row col) g hemp h

/-- `backtrack` restores the caller's board whenever it fails. -/
theorem backtrack_board (g : Game) (h : (backtrack g).1 = false) :
    (backtrack g).2.board = g.board :=
  backtrackFuel_board _ g h

/-!
### Exact bookkeeping for the naked-singles scan
-/

theorem filter_length_succ {α : Type} [DecidableEq α] :
    ∀ (l : List α) (p q : α → Bool) (x : α), l.count x = 1 →
    p x = true → q x = false → (∀ a ∈ l, a ≠ x → p a = q a) →
    (l.filter q).length + 1 = (l.filter p).length := by
  intro l
  induction l with
  | nil => intro p q x hcnt; simp at hcnt
  | cons a rest ih =>
    intro p q x hcnt hpx hqx hagree
    by_cases hax : a = x
    · subst hax
      have hrest0 : rest.count a = 0 := by
        rw [List.count_cons_self] at hcnt
        omega
      have hnotin : a ∉ rest := List.count_eq_zero.mp hrest0
      have hfeq : rest.filter p = rest.filter q := by
        apply List.filter_congr
        intro b hb
        exact hagree b (List.mem_cons_of_mem _ hb) (fun hbx => hnotin (hbx ▸ hb))
      rw [List.filter_cons, List.filter_cons, hpx, hqx]
      simp [hfeq]
    · have hcnt' : rest.count x = 1 := by
        rw [List.count_cons_of_ne (fun hh => hax hh.symm)] at hcnt
        exact hcnt
      have hagree' : ∀ b ∈ rest, b ≠ x → p b = q b :=
        fun b hb => hagree b (List.mem_cons_of_mem _ hb)
      have hpq : p a = q a := hagree a (List.mem_cons_self _ _) hax
      rw [List.filter_cons, List.filter_cons, ← hpq]
      cases hpa : p a
      · simp only [Bool.false_eq_true, if_false]
        exact ih p q x hcnt' hpx hqx hagree'
      · simp only [if_true, List.length_cons]
        have := ih p q x hcnt' hpx hqx hagree'
        omega

theorem allCells_nodup : allCells.Nodup := by decide

/-- Filling an empty in-range cell with a non-zero value decreases the
number of empty cells by exactly one. -/
theorem emptyCount_setCell_succ {b : Board} {r c : ℕ} {v : JSNum}
    (hb : ShapeB b) (hr : r < 9) (hc : c < 9)
    (hemp : jsEq (b r c) (some 0) = true) (hv : jsEq v (some 0) = false) :
    emptyCount (setCell b r c v) + 1 = emptyCount b := by
  unfold emptyCount
  refine filter_length_succ allCells _ _ (r, c) ?_ ?_ ?_ ?_
  · exact List.count_eq_one_of_mem allCells_nodup (mem_allCells.mpr ⟨hr, hc⟩)
  · exact hemp
  · show jsEq ((setCell b r c v) r c) (some 0) = false
    rw [setCell_cell_same v hb hr hc]
    exact hv
  · intro a _ hne
    show jsEq (b a.1 a.2) (some 0) = jsEq ((setCell b r c v) a.1 a.2) (some 0)
    rw [setCell_cell_ne v (fun hand => hne (Prod.ext_iff.mpr hand))]

/-- The naked-singles changed flag never resets during the scan. -/
theorem nakedSingles_flag_mono : ∀ (l : List (ℕ × ℕ)) (bg : Bool × Game),
    bg.1 = true → (l.foldl nakedSinglesStep bg).1 = true := by
  intro l
  induction l with
  | nil => intro bg h; exact h
  | cons a rest ih =>
    intro bg h
    refine ih _ ?_
    obtain ⟨r, c⟩ := a
    unfold nakedSinglesStep
    dsimp only
    split
    · rfl
    · exact h

/-- If any cell of the scan list is a naked single at the state the scan
holds when nothing has fired yet, the scan reports a change: the full
scan misses no eligible cell. -/
theorem nakedSingles_fires : ∀ (l : List (ℕ × ℕ)) (g0 : Game) (rc : ℕ × ℕ),
    rc ∈ l → jsEq (g0.board rc.1 rc.2) (some 0) = true →
    (g0.candidates rc.1 rc.2).length = 1 →
    (l.foldl nakedSinglesStep (false, g0)).1 = true := by
  intro l
  induction l with
  | nil => intro g0 rc h; exact absurd h (List.not_mem_nil rc)
  | cons a rest ih =>
    intro g0 rc hmem hemp hlen
    obtain ⟨r, c⟩ := a
    show (rest.foldl nakedSinglesStep (nakedSinglesStep (false, g0) (r, c))).1 = true
    by_cases hfire : jsEq (g0.board r c) (some 0) = true ∧
        (g0.candidates r c).length = 1
    · have hstep : (nakedSinglesStep (false, g0) (r, c)).1 = true := by
        unfold nakedSinglesStep
        dsimp only
        rw [if_pos hfire]
      rcases hres : nakedSinglesStep (false, g0) (r, c) with ⟨bb, gg⟩
      rw [hres] at hstep
      exact nakedSingles_flag_mono rest _ hstep
    · have hstep : nakedSinglesStep (false, g0) (r, c) = (false, g0) := by
        unfold nakedSinglesStep
        dsimp only
        rw [if_neg hfire]
      rw [hstep]
      rcases List.mem_cons.mp hmem with rfl | hrest
      · exact absurd ⟨hemp, hlen⟩ hfire
      · exact ih g0 rc hrest hemp hlen

/-- The running bookkeeping invariant of the naked-singles scan: only
`Naked Single`/difficulty-1 snapshots are appended, the flag tracks
whether any were, and each appended snapshot accounts for exactly one
filled cell. -/
def NSInv (g0 : Game) (bg : Bool × Game) : Prop :=
  ∃ t, bg.2.snapshots = g0.snapshots ++ t ∧
    (∀ s ∈ t, s.kind = "Naked Single" ∧ s.difficulty = 1) ∧
    (bg.1 = true ↔ t ≠ []) ∧
    (WFGame g0 → WFGame bg.2 ∧
      emptyCount bg.2.board + t.length = emptyCount g0.board)

theorem nsInv_init (g0 : Game) : NSInv g0 (false, g0) :=
  ⟨[], by simp, by simp, by simp, fun hwf => ⟨hwf, by simp⟩⟩

theorem nsInv_step (g0 : Game) (bg : Bool × Game) (rc : ℕ × ℕ)
    (hr : rc.1 < 9) (hc : rc.2 < 9) (hinv : NSInv g0 bg) :
    NSInv g0 (nakedSinglesStep bg rc) := by
  obtain ⟨row, col⟩ := rc
  simp only at hr hc
  obtain ⟨t, hsnap, hkinds, hflag, hwfpart⟩ := hinv
  unfold nakedSinglesStep
  dsimp only
  split
  case isFalse => exact ⟨t, hsnap, hkinds, hflag, hwfpart⟩
  case isTrue hcond =>
    obtain ⟨hemp, hlen⟩ := hcond
    refine ⟨t ++ [⟨setCell bg.2.board row col ((bg.2.candidates row col).headD none),
      eliminateFromPeers (setCell bg.2.board row col
        ((bg.2.candidates row col).headD none)) bg.2.candidates row col
        ((bg.2.candidates row col).headD none),
      "Naked Single", some (jsNumToString ((bg.2.candidates row col).headD none)), 1,
      some { Highlight.empty with blocks := some [(row, col)] }⟩], ?_, ?_, ?_, ?_⟩
    · rw [addSnapshot_snapshots]
      dsimp only
      rw [hsnap, List.append_assoc]
    · intro s hs
      rcases List.mem_append.mp hs with h1 | h2
      · exact hkinds s h1
      · rw [List.mem_singleton] at h2
        subst h2
        exact ⟨rfl, rfl⟩
    · simp
    · intro hwfg
      obtain ⟨hwfb, hcount⟩ := hwfpart hwfg
      have hne : bg.2.candidates row col ≠ [] := by
        intro h0
        rw [h0] at hlen
        simp at hlen
      have hdigfull := hwfb.2 row hr col hc hemp _ (headD_mem hne none)
      have hdig := mem_fullCandidateSet_ne_zero hdigfull
      constructor
      · exact (hit_place_wf bg.2 row col _ hr hc hemp hdig hwfb _ _ _ _).2
      · have hsucc := emptyCount_setCell_succ hwfb.1 hr hc hemp hdig
        rw [List.length_append]
        show emptyCount (setCell bg.2.board row col
          ((bg.2.candidates row col).headD none)) + (t.length + 1) = emptyCount g0.board
        omega

/-- The naked-singles bookkeeping at the end of an enabled scan. -/
theorem applyNakedSingles_spec (g : Game) (opts : Option SolverOptions)
    (hflag : flagIsFalse opts (·.nakedSingles) = false) :
    NSInv g (applyNakedSingles g opts) := by
  unfold applyNakedSingles
  rw [if_neg (by simp [hflag])]
  refine foldl_inv_mem allCells (fun bg rc hrc hinv => ?_) _ (nsInv_init g)
  obtain ⟨h1, h2⟩ := mem_allCells.mp hrc
  exact nsInv_step g bg rc h1 h2 hinv

/-!
## Concrete boards and games used to settle the claims
-/

/-- Digits as a board row. -/
def mkRow (l : List ℕ) : List JSNum := l.map (fun n => some (n : ℤ))

/-- A solved grid with the four cells of a deadly rectangle (digits 1 and
3 at rows 3/4, columns 5/8) blanked out: the logical strategies cannot
separate the two symmetric completions, so the logical phase stalls. -/
def deadlyBoard : List (List JSNum) :=
  [mkRow [5,3,4,6,7,8,9,1,2],
   mkRow [6,7,2,1,9,5,3,4,8],
   mkRow [1,9,8,3,4,2,5,6,7],
   mkRow [8,5,9,7,6,0,4,2,0],
   mkRow [4,2,6,8,5,0,7,9,0],
   mkRow [7,1,3,9,2,4,8,5,6],
   mkRow [9,6,1,5,3,7,2,8,4],
   mkRow [2,8,7,4,1,9,6,3,5],
   mkRow [3,4,5,2,8,6,1,7,9]]

/-- One of the two completions of `deadlyBoard`. -/
def deadlySolution : List (List JSNum) :=
  [mkRow [5,3,4,6,7,8,9,1,2],
   mkRow [6,7,2,1,9,5,3,4,8],
   mkRow [1,9,8,3,4,2,5,6,7],
   mkRow [8,5,9,7,6,1,4,2,3],
   mkRow [4,2,6,8,5,3,7,9,1],
   mkRow [7,1,3,9,2,4,8,5,6],
   mkRow [9,6,1,5,3,7,2,8,4],
   mkRow [2,8,7,4,1,9,6,3,5],
   mkRow [3,4,5,2,8,6,1,7,9]]

/-- Spec-modelled notion (section on solvability): `sol` is a complete
valid Sudoku grid extending the clues of `start`.  This follows the
spec's words, not any function of the source, and is used only to state
that a puzzle *has* a solution. -/
def isSudokuSolution (start sol : List (List JSNum)) : Bool :=
  decide (sol.length = 9) && sol.all (fun row => decide (row.length = 9)) &&
  (List.range 9).all (fun r => (List.range 9).all (fun c =>
    digitsZ.any (fun d => decide ((matrixToBoard sol) r c = some d)))) &&
  (List.range 9).all (fun r => (List.range 9).all (fun c1 =>
    (List.range 9).all (fun c2 => decide (c1 = c2) ||
      !decide ((matrixToBoard sol) r c1 = (matrixToBoard sol) r c2)))) &&
  (List.range 9).all (fun c => (List.range 9).all (fun r1 =>
    (List.range 9).all (fun r2 => decide (r1 = r2) ||
      !decide ((matrixToBoard sol) r1 c = (matrixToBoard sol) r2 c)))) &&
  (List.range 3).all (fun br => (List.range 3).all (fun bc =>
    (boxCells br bc).all (fun p1 => (boxCells br bc).all (fun p2 =>
      decide (p1 = p2) ||
      !decide ((matrixToBoard sol) p1.1 p1.2 = (matrixToBoard sol) p2.1 p2.2))))) &&
  (List.range 9).all (fun r => (List.range 9).all (fun c =>
    decide ((matrixToBoard start) r c = some 0) ||
    decide ((matrixToBoard sol) r c = (matrixToBoard start) r c)))

/-- A game whose rows 0 and 1 each hold a strippable hidden pair (digits
1/2 at `(0,0)`/`(0,1)` and 4/5 at `(1,0)`/`(1,1)`). -/
def hpTwoRows : Game :=
  { board := ⟨[some 0 :: some 0 :: List.replicate 7 (some 5),
      some 0 :: some 0 :: List.replicate 7 (some 5)] ++
      List.replicate 7 (List.replicate 9 (some 5))⟩
    candidates := ⟨[[some 1, some 2, some 3] :: [some 1, some 2, some 9] ::
        List.replicate 7 ([] : List JSNum),
      [some 4, some 5, some 6] :: [some 4, some 5, some 8] ::
        List.replicate 7 ([] : List JSNum)] ++
      List.replicate 7 (List.replicate 9 ([] : List JSNum))⟩
    snapshots := [] }

/-- Options that disable only the box orientation of hidden pairs. -/
def hpOpts : Option SolverOptions := some { hiddenPairsBoxes := some false }

/-- A game whose row 0 holds two disjoint hidden pairs (1/2 in columns
0/1 and 4/5 in columns 2/3). -/
def hpTwoPairsOneRow : Game :=
  { board := ⟨(some 0 :: some 0 :: some 0 :: some 0 :: List.replicate 5 (some 5)) ::
      List.replicate 8 (List.replicate 9 (some 5))⟩
    candidates := ⟨([some 1, some 2, some 3] :: [some 1, some 2, some 9] ::
        [some 4, some 5, some 6] :: [some 4, some 5, some 7] ::
        List.replicate 5 ([] : List JSNum)) ::
      List.replicate 8 (List.replicate 9 ([] : List JSNum))⟩
    snapshots := [] }

/-- The all-empty well-formed game: every cell empty with the full
candidate set. -/
def emptyGame : Game :=
  { board := ⟨List.replicate 9 (List.replicate 9 (some 0))⟩
    candidates := ⟨List.replicate 9 (List.replicate 9 fullCandidateSet)⟩
    snapshots := [] }

/-- An all-empty game whose candidate grid is empty, so the digit loop
of `backtrack` has nothing to try and the search fails immediately. -/
def noCandsGame : Game :=
  { board := ⟨List.replicate 9 (List.replicate 9 (some 0))⟩
    candidates := ⟨[]⟩
    snapshots := [] }

/-!
## The claims
-/

set_option maxRecDepth 10000

/-- Claim C1: refuted as a bug in the code.  The spec promises a
backtracking fallback once the logical phase stalls with empty cells, so
the returned board is complete whenever the puzzle has a solution.  The
call to `backtrack` is commented out in `solveSudoku`, so on
`deadlyBoard` — a solvable puzzle (witnessed by `deadlySolution`) whose
deadly rectangle no logical strategy can break — `solveSudoku` returns a
board that still has empty cells. -/
theorem C1_no_backtracking_fallback :
    isSudokuSolution deadlyBoard deadlySolution = true ∧
    ∃ gr : Game, solveSudoku (.inl deadlyBoard) none = .ok gr ∧
      isComplete gr.board = false := by
  refine ⟨by decide, ⟨_, rfl, by decide⟩⟩

/-- Claim C2: the length-81 check is real (first conjunct: any other
length throws, in particular the 80-character scenario), but the
invalid-character check is dead code: `parseInt` turns a non-digit into
NaN, both range comparisons on NaN are false, and the NaN is stored.  An
81-character string starting with `'a'` parses successfully with NaN in
the first cell (second conjunct), refuting the claim's invalid-character
half. -/
theorem C2_length_checked_but_invalid_chars_accepted :
    (∀ s : String, s.length ≠ 81 →
      stringToBoard s = .error "Puzzle string must be exactly 81 characters long.") ∧
    (∃ m, stringToBoard (String.mk ('a' :: List.replicate 80 '1')) = .ok m ∧
      (m.headD []).headD (some 7) = none) := by
  constructor
  · intro s h
    exact stringToBoard_length h
  · exact ⟨_, rfl, by decide⟩

/-- Claim C4, counterexample: the Hidden Pairs dispatcher does NOT scan
an orientation to completion.  On `hpTwoRows` (boxes disabled) both rows
0 and 1 hold strippable hidden pairs, yet one dispatcher call returns
`true` having stripped only row 0: digit 6 — which a completed scan of
the rows orientation would have removed, as the direct row-1 call shows
— is still a candidate of cell `(1,0)`. -/
theorem C4_counterexample_first_unit_return :
    (applyHiddenPairs hpTwoRows hpOpts).1 = true ∧
    setHas ((applyHiddenPairs hpTwoRows hpOpts).2.candidates 1 0) (some 6) = true ∧
    (applyHiddenPairsInRow hpTwoRows 1).1 = true ∧
    setHas ((applyHiddenPairsInRow hpTwoRows 1).2.candidates 1 0) (some 6) = false := by
  refine ⟨by decide, by decide, by decide, by decide⟩

/-- A first-hit scan over items that all miss finds nothing. -/
theorem firstHit_none {α : Type} {f : α → Option Game} :
    ∀ l : List α, (∀ a ∈ l, f a = none) → firstHit f l = none := by
  intro l
  induction l with
  | nil => intro _; rfl
  | cons a rest ih =>
    intro h
    unfold firstHit
    rw [h a (List.mem_cons_self _ _)]
    exact ih (fun x hx => h x (List.mem_cons_of_mem _ hx))

/-- A first-hit scan returns the first productive item's result. -/
theorem firstHit_append_some {α : Type} {f : α → Option Game} {g' : Game}
    (l1 : List α) (a : α) (l2 : List α)
    (h1 : ∀ b ∈ l1, f b = none) (h2 : f a = some g') :
    firstHit f (l1 ++ a :: l2) = some g' := by
  induction l1 with
  | nil =>
    show firstHit f (a :: l2) = some g'
    unfold firstHit
    rw [h2]
  | cons b rest ih =>
    show firstHit f (b :: (rest ++ a :: l2)) = some g'
    unfold firstHit
    rw [h1 b (List.mem_cons_self _ _)]
    exact ih (fun x hx => h1 x (List.mem_cons_of_mem _ hx))

/-- The per-unit loop body of the Hidden Pairs dispatcher over boxes:
`some` exactly on a productive unit (`hiddenPairs.ts`). -/
def hpBoxOpt (g : Game) (bb : ℕ × ℕ) : Option Game :=
  match applyHiddenPairsInBox g bb.1 bb.2 with
  | (true, g') => some g'
  | (false, _) => none

/-- The per-unit loop body of the dispatcher over rows. -/
def hpRowOpt (g : Game) (r : ℕ) : Option Game :=
  match applyHiddenPairsInRow g r with
  | (true, g') => some g'
  | (false, _) => none

/-- The per-unit loop body of the dispatcher over columns. -/
def hpColOpt (g : Game) (c : ℕ) : Option Game :=
  match applyHiddenPairsInColumn g c with
  | (true, g') => some g'
  | (false, _) => none

/-- The dispatcher's selection among the three orientation scans. -/
def hpDispatch (g : Game) (b r c : Option Game) : Bool × Game :=
  match b with
  | some g' => (true, g')
  | none =>
    match r with
    | some g' => (true, g')
    | none =>
      match c with
      | some g' => (true, g')
      | none => (false, g)

/-- With all hidden-pairs flags enabled, `applyHiddenPairs` is the
first-hit scan over box units, then row units, then column units. -/
theorem applyHiddenPairs_eq_dispatch (g : Game) (opts : Option SolverOptions)
    (hp : flagIsFalse opts (·.hiddenPairs) = false)
    (hbx : flagIsFalse opts (·.hiddenPairsBoxes) = false)
    (hrw : flagIsFalse opts (·.hiddenPairsRows) = false)
    (hcl : flagIsFalse opts (·.hiddenPairsCols) = false) :
    applyHiddenPairs g opts = hpDispatch g
      (firstHit (hpBoxOpt g) allBoxes)
      (firstHit (hpRowOpt g) (List.range 9))
      (firstHit (hpColOpt g) (List.range 9)) := by
  unfold applyHiddenPairs
  rw [if_neg (by simp [hp])]
  dsimp only
  rw [hbx, hrw, hcl]
  simp only [Bool.not_false, if_true]
  rfl

/-- Claim C4, amended.  With the strategy and all three orientations
enabled: a box unit preceded only by unproductive box units determines
the whole call — boxes preempt rows and columns (clause 1); when every
box unit is unproductive, the first productive row unit determines the
call (clause 2); when every box and row unit is unproductive, the first
productive column unit does (clause 3); and a call with no productive
unit reports `false` with the game untouched (clause 4).  So the
dispatcher returns at the first productive *unit* in boxes-rows-columns
order, not after completing a category.  Within one unit the scan runs
to completion: a single row call strips both hidden pairs of
`hpTwoPairsOneRow`'s row 0 and records both snapshots (clause 5). -/
theorem C4_amended_unit_scan_and_first_unit_dispatch
    (g : Game) (opts : Option SolverOptions)
    (hp : flagIsFalse opts (·.hiddenPairs) = false)
    (hbx : flagIsFalse opts (·.hiddenPairsBoxes) = false)
    (hrw : flagIsFalse opts (·.hiddenPairsRows) = false)
    (hcl : flagIsFalse opts (·.hiddenPairsCols) = false) :
    (∀ pre bb post, allBoxes = pre ++ bb :: post →
      (∀ b ∈ pre, (applyHiddenPairsInBox g b.1 b.2).1 = false) →
      ∀ g', applyHiddenPairsInBox g bb.1 bb.2 = (true, g') →
      applyHiddenPairs g opts = (true, g')) ∧
    ((∀ b ∈ allBoxes, (applyHiddenPairsInBox g b.1 b.2).1 = false) →
      ∀ pre r post, List.range 9 = pre ++ r :: post →
      (∀ r' ∈ pre, (applyHiddenPairsInRow g r').1 = false) →
      ∀ g', applyHiddenPairsInRow g r = (true, g') →
      applyHiddenPairs g opts = (true, g')) ∧
    ((∀ b ∈ allBoxes, (applyHiddenPairsInBox g b.1 b.2).1 = false) →
      (∀ r ∈ List.range 9, (applyHiddenPairsInRow g r).1 = false) →
      ∀ pre c post, List.range 9 = pre ++ c :: post →
      (∀ c' ∈ pre, (applyHiddenPairsInColumn g c').1 = false) →
      ∀ g', applyHiddenPairsInColumn g c = (true, g') →
      applyHiddenPairs g opts = (true, g')) ∧
    ((∀ b ∈ allBoxes, (applyHiddenPairsInBox g b.1 b.2).1 = false) →
      (∀ r ∈ List.range 9, (applyHiddenPairsInRow g r).1 = false) →
      (∀ c ∈ List.range 9, (applyHiddenPairsInColumn g c).1 = false) →
      applyHiddenPairs g opts = (false, g)) ∧
    ((applyHiddenPairsInRow hpTwoPairsOneRow 0).2.candidates 0 0 =
        [some 1, some 2] ∧
      (applyHiddenPairsInRow hpTwoPairsOneRow 0).2.candidates 0 2 =
        [some 4, some 5] ∧
      (applyHiddenPairsInRow hpTwoPairsOneRow 0).2.snapshots.length = 2) := by
  have hbnone : (∀ b ∈ allBoxes, (applyHiddenPairsInBox g b.1 b.2).1 = false) →
      firstHit (hpBoxOpt g) allBoxes = none := by
    intro hboxes
    refine firstHit_none allBoxes (fun b hbmem => ?_)
    unfold hpBoxOpt
    rcases hres : applyHiddenPairsInBox g b.1 b.2 with ⟨bo, go⟩
    have hfalse := hboxes b hbmem
    rw [hres] at hfalse
    cases bo
    · rfl
    · exact absurd hfalse (by simp)
  have hrnone : (∀ r ∈ List.range 9, (applyHiddenPairsInRow g r).1 = false) →
      firstHit (hpRowOpt g) (List.range 9) = none := by
    intro hrows
    refine firstHit_none (List.range 9) (fun r hrmem => ?_)
    unfold hpRowOpt
    rcases hres : applyHiddenPairsInRow g r with ⟨bo, go⟩
    have hfalse := hrows r hrmem
    rw [hres] at hfalse
    cases bo
    · rfl
    · exact absurd hfalse (by simp)
  refine ⟨?_, ?_, ?_, ?_, by decide, by decide, by decide⟩
  · intro pre bb post hdec hpre g' hhit
    have hb : firstHit (hpBoxOpt g) allBoxes = some g' := by
      rw [hdec]
      refine firstHit_append_some pre bb post (fun b hbmem => ?_) ?_
      · unfold hpBoxOpt
        rcases hres : applyHiddenPairsInBox g b.1 b.2 with ⟨bo, go⟩
        have hfalse := hpre b hbmem
        rw [hres] at hfalse
        cases bo
        · rfl
        · exact absurd hfalse (by simp)
      · unfold hpBoxOpt
        rw [hhit]
    rw [applyHiddenPairs_eq_dispatch g opts hp hbx hrw hcl, hb]
    rfl
  · intro hboxes pre r post hdec hpre g' hhit
    have hrs : firstHit (hpRowOpt g) (List.range 9) = some g' := by
      rw [hdec]
      refine firstHit_append_some pre r post (fun r' hrmem => ?_) ?_
      · unfold hpRowOpt
        rcases hres : applyHiddenPairsInRow g r' with ⟨bo, go⟩
        have hfalse := hpre r' hrmem
        rw [hres] at hfalse
        cases bo
        · rfl
        · exact absurd hfalse (by simp)
      · unfold hpRowOpt
        rw [hhit]
    rw [applyHiddenPairs_eq_dispatch g opts hp hbx hrw hcl, hbnone hboxes, hrs]
    rfl
  · intro hboxes hrows pre c post hdec hpre g' hhit
    have hcs : firstHit (hpColOpt g) (List.range 9) = some g' := by
      rw [hdec]
      refine firstHit_append_some pre c post (fun c' hcmem => ?_) ?_
      · unfold hpColOpt
        rcases hres : applyHiddenPairsInColumn g c' with ⟨bo, go⟩
        have hfalse := hpre c' hcmem
        rw [hres] at hfalse
        cases bo
        · rfl
        · exact absurd hfalse (by simp)
      · unfold hpColOpt
        rw [hhit]
    rw [applyHiddenPairs_eq_dispatch g opts hp hbx hrw hcl, hbnone hboxes,
      hrnone hrows, hcs]
    rfl
  · intro hboxes hrows hcols
    have hcn : firstHit (hpColOpt g) (List.range 9) = none := by
      refine firstHit_none (List.range 9) (fun c hcmem => ?_)
      unfold hpColOpt
      rcases hres : applyHiddenPairsInColumn g c with ⟨bo, go⟩
      have hfalse := hcols c hcmem
      rw [hres] at hfalse
      cases bo
      · rfl
      · exact absurd hfalse (by simp)
    rw [applyHiddenPairs_eq_dispatch g opts hp hbx hrw hcl, hbnone hboxes,
      hrnone hrows, hcn]
    rfl

theorem C4_amended_witness :
    (flagIsFalse none (·.hiddenPairs) = false) ∧
    (flagIsFalse none (·.hiddenPairsBoxes) = false) ∧
    (flagIsFalse none (·.hiddenPairsRows) = false) ∧
    (flagIsFalse none (·.hiddenPairsCols) = false) ∧
    (allBoxes = [] ++ (0, 0) ::
      [(0, 1), (0, 2), (1, 0), (1, 1), (1, 2), (2, 0), (2, 1), (2, 2)]) ∧
    (applyHiddenPairsInBox hpTwoRows 0 0 =
      (true, (applyHiddenPairsInBox hpTwoRows 0 0).2)) ∧
    (applyHiddenPairs hpTwoRows none =
      (true, (applyHiddenPairsInBox hpTwoRows 0 0).2)) := by
  have hbox : applyHiddenPairsInBox hpTwoRows 0 0 =
      (true, (applyHiddenPairsInBox hpTwoRows 0 0).2) := by
    have h1 : (applyHiddenPairsInBox hpTwoRows 0 0).1 = true := by decide
    rw [show applyHiddenPairsInBox hpTwoRows 0 0 =
      ((applyHiddenPairsInBox hpTwoRows 0 0).1,
        (applyHiddenPairsInBox hpTwoRows 0 0).2) from rfl, h1]
  refine ⟨rfl, rfl, rfl, rfl, by decide, hbox,
    (C4_amended_unit_scan_and_first_unit_dispatch hpTwoRows none
        rfl rfl rfl rfl).1
      [] (0, 0)
      [(0, 1), (0, 2), (1, 0), (1, 1), (1, 2), (2, 0), (2, 1), (2, 2)]
      (by decide) (fun b hb => absurd hb (List.not_mem_nil b)) _ hbox⟩

/-- Claim C3: the scheduler.  Within one pass the seven strategies run
in the fixed order Naked Singles, Naked Pairs, Hidden Singles, Naked
Triples, Hidden Pairs, Box-Line Reduction, X-Wing, and the first one
reporting a change ends the pass with that strategy's state (clauses
1-7); a pass where all seven report no change returns `false` (clause
8); a productive pass makes the loop restart from the top — that is,
from Naked Singles — on the new state, and an unproductive pass ends
the loop (clauses 9-10); on well-formed states the loop terminates
exactly at a state on which one full pass over all seven strategies
produces no change (clause 11). -/
theorem C3_scheduler_order_and_termination (g : Game)
    (opts : Option SolverOptions) (hwf : WFGame g) :
    (∀ g1, applyNakedSingles g opts = (true, g1) →
      passStrategies g opts = (true, g1)) ∧
    (∀ g1 g2, applyNakedSingles g opts = (false, g1) →
      applyNakedPairs g1 opts = (true, g2) →
      passStrategies g opts = (true, g2)) ∧
    (∀ g1 g2 g3, applyNakedSingles g opts = (false, g1) →
      applyNakedPairs g1 opts = (false, g2) →
      applyHiddenSingles g2 opts = (true, g3) →
      passStrategies g opts = (true, g3)) ∧
    (∀ g1 g2 g3 g4, applyNakedSingles g opts = (false, g1) →
      applyNakedPairs g1 opts = (false, g2) →
      applyHiddenSingles g2 opts = (false, g3) →
      applyNakedTriples g3 opts = (true, g4) →
      passStrategies g opts = (true, g4)) ∧
    (∀ g1 g2 g3 g4 g5, applyNakedSingles g opts = (false, g1) →
      applyNakedPairs g1 opts = (false, g2) →
      applyHiddenSingles g2 opts = (false, g3) →
      applyNakedTriples g3 opts = (false, g4) →
      applyHiddenPairs g4 opts = (true, g5) →
      passStrategies g opts = (true, g5)) ∧
    (∀ g1 g2 g3 g4 g5 g6, applyNakedSingles g opts = (false, g1) →
      applyNakedPairs g1 opts = (false, g2) →
      applyHiddenSingles g2 opts = (false, g3) →
      applyNakedTriples g3 opts = (false, g4) →
      applyHiddenPairs g4 opts = (false, g5) →
      applyBoxLineReduction g5 opts = (true, g6) →
      passStrategies g opts = (true, g6)) ∧
    (∀ g1 g2 g3 g4 g5 g6 g7, applyNakedSingles g opts = (false, g1) →
      applyNakedPairs g1 opts = (false, g2) →
      applyHiddenSingles g2 opts = (false, g3) →
      applyNakedTriples g3 opts = (false, g4) →
      applyHiddenPairs g4 opts = (false, g5) →
      applyBoxLineReduction g5 opts = (false, g6) →
      applyXWing g6 opts = (true, g7) →
      passStrategies g opts = (true, g7)) ∧
    (∀ g1 g2 g3 g4 g5 g6 g7, applyNakedSingles g opts = (false, g1) →
      applyNakedPairs g1 opts = (false, g2) →
      applyHiddenSingles g2 opts = (false, g3) →
      applyNakedTriples g3 opts = (false, g4) →
      applyHiddenPairs g4 opts = (false, g5) →
      applyBoxLineReduction g5 opts = (false, g6) →
      applyXWing g6 opts = (false, g7) →
      passStrategies g opts = (false, g7)) ∧
    (∀ n g', passStrategies g opts = (true, g') →
      applyLogicalStrategiesFuel (n + 1) g opts =
        applyLogicalStrategiesFuel n g' opts) ∧
    (∀ n g', passStrategies g opts = (false, g') →
      applyLogicalStrategiesFuel (n + 1) g opts = g') ∧
    passStrategies (applyLogicalStrategies g opts) opts =
      (false, applyLogicalStrategies g opts) := by
  refine ⟨?_, ?_, ?_, ?_, ?_, ?_, ?_, ?_, ?_, ?_, ?_⟩
  · intro g1 h1
    unfold passStrategies
    dsimp only
    rw [h1]
    rfl
  · intro g1 g2 h1 h2
    unfold passStrategies
    dsimp only
    rw [h1]
    dsimp only
    rw [if_neg Bool.false_ne_true, h2]
    rfl
  · intro g1 g2 g3 h1 h2 h3
    unfold passStrategies
    dsimp only
    rw [h1]
    dsimp only
    rw [if_neg Bool.false_ne_true, h2]
    dsimp only
    rw [if_neg Bool.false_ne_true, h3]
    rfl
  · intro g1 g2 g3 g4 h1 h2 h3 h4
    unfold passStrategies
    dsimp only
    rw [h1]
    dsimp only
    rw [if_neg Bool.false_ne_true, h2]
    dsimp only
    rw [if_neg Bool.false_ne_true, h3]
    dsimp only
    rw [if_neg Bool.false_ne_true, h4]
    rfl
  · intro g1 g2 g3 g4 g5 h1 h2 h3 h4 h5
    unfold passStrategies
    dsimp only
    rw [h1]
    dsimp only
    rw [if_neg Bool.false_ne_true, h2]
    dsimp only
    rw [if_neg Bool.false_ne_true, h3]
    dsimp only
    rw [if_neg Bool.false_ne_true, h4]
    dsimp only
    rw [if_neg Bool.false_ne_true, h5]
    rfl
  · intro g1 g2 g3 g4 g5 g6 h1 h2 h3 h4 h5 h6
    unfold passStrategies
    dsimp only
    rw [h1]
    dsimp only
    rw [if_neg Bool.false_ne_true, h2]
    dsimp only
    rw [if_neg Bool.false_ne_true, h3]
    dsimp only
    rw [if_neg Bool.false_ne_true, h4]
    dsimp only
    rw [if_neg Bool.false_ne_true, h5]
    dsimp only
    rw [if_neg Bool.false_ne_true, h6]
    rfl
  · intro g1 g2 g3 g4 g5 g6 g7 h1 h2 h3 h4 h5 h6 h7
    unfold passStrategies
    dsimp only
    rw [h1]
    dsimp only
    rw [if_neg Bool.false_ne_true, h2]
    dsimp only
    rw [if_neg Bool.false_ne_true, h3]
    dsimp only
    rw [if_neg Bool.false_ne_true, h4]
    dsimp only
    rw [if_neg Bool.false_ne_true, h5]
    dsimp only
    rw [if_neg Bool.false_ne_true, h6]
    dsimp only
    rw [if_neg Bool.false_ne_true, h7]
    rfl
  · intro g1 g2 g3 g4 g5 g6 g7 h1 h2 h3 h4 h5 h6 h7
    unfold passStrategies
    dsimp only
    rw [h1]
    dsimp only
    rw [if_neg Bool.false_ne_true, h2]
    dsimp only
    rw [if_neg Bool.false_ne_true, h3]
    dsimp only
    rw [if_neg Bool.false_ne_true, h4]
    dsimp only
    rw [if_neg Bool.false_ne_true, h5]
    dsimp only
    rw [if_neg Bool.false_ne_true, h6]
    dsimp only
    rw [if_neg Bool.false_ne_true, h7]
    dsimp only
    rw [if_neg Bool.false_ne_true]
  · intro n g' h
    rw [show applyLogicalStrategiesFuel (n + 1) g opts =
      (match passStrategies g opts with
        | (true, g2) => applyLogicalStrategiesFuel n g2 opts
        | (false, g2) => g2) from rfl, h]
  · intro n g' h
    rw [show applyLogicalStrategiesFuel (n + 1) g opts =
      (match passStrategies g opts with
        | (true, g2) => applyLogicalStrategiesFuel n g2 opts
        | (false, g2) => g2) from rfl, h]
  · exact (applyLogicalStrategies_spec g opts hwf).2.1

theorem C3_scheduler_witness : WFGame emptyGame ∧
    ((∀ g1, applyNakedSingles emptyGame none = (true, g1) →
      passStrategies emptyGame none = (true, g1)) ∧
    passStrategies (applyLogicalStrategies emptyGame none) none =
      (false, applyLogicalStrategies emptyGame none)) := by
  have h := C3_scheduler_order_and_termination emptyGame none (by decide)
  exact ⟨by decide, h.1, h.2.2.2.2.2.2.2.2.2.2⟩

/-- Claim C5: one enabled Naked-Singles call scans all 81 cells without
an early return.  The call reports `true` exactly when it changed the
game; the snapshots it appends are exactly one `Naked Single` snapshot
of difficulty 1 per placement, with the placement count read off the
drop in empty cells; and the scan misses nothing: any cell that is
empty with exactly one candidate at entry (hence also when the
unchanged scan reaches it) forces the call to report `true`. -/
theorem C5_nakedSingles_full_scan (g : Game) (opts : Option SolverOptions)
    (hflag : flagIsFalse opts (·.nakedSingles) = false) (hwf : WFGame g) :
    ((applyNakedSingles g opts).1 = true ↔ (applyNakedSingles g opts).2 ≠ g) ∧
    (∃ t, (applyNakedSingles g opts).2.snapshots = g.snapshots ++ t ∧
      (∀ s ∈ t, s.kind = "Naked Single" ∧ s.difficulty = 1) ∧
      ((applyNakedSingles g opts).1 = true ↔ t ≠ []) ∧
      emptyCount (applyNakedSingles g opts).2.board + t.length =
        emptyCount g.board) ∧
    (∀ rc ∈ allCells, jsEq (g.board rc.1 rc.2) (some 0) = true →
      (g.candidates rc.1 rc.2).length = 1 →
      (applyNakedSingles g opts).1 = true) := by
  obtain ⟨t, hsnap, hkinds, hflagiff, hwfpart⟩ := applyNakedSingles_spec g opts hflag
  obtain ⟨hwfr, hcount⟩ := hwfpart hwf
  have hok := applyNakedSingles_ok g opts
  refine ⟨⟨?_, ?_⟩, ⟨t, hsnap, hkinds, hflagiff, hcount⟩, ?_⟩
  · intro htrue heq
    have hm := (hok.2.1 htrue hwf).1
    rw [heq] at hm
    exact absurd hm (lt_irrefl _)
  · intro hne
    cases hb : (applyNakedSingles g opts).1
    · exact absurd (hok.1 hb) hne
    · rfl
  · intro rc hrc hemp hlen
    unfold applyNakedSingles
    rw [if_neg (by simp [hflag])]
    exact nakedSingles_fires allCells g rc hrc hemp hlen

theorem C5_nakedSingles_witness :
    (flagIsFalse none (·.nakedSingles) = false) ∧ WFGame emptyGame ∧
    ((applyNakedSingles emptyGame none).1 = true ↔
      (applyNakedSingles emptyGame none).2 ≠ emptyGame) := by
  exact ⟨rfl, by decide,
    (C5_nakedSingles_full_scan emptyGame none rfl (by decide)).1⟩

/-- Claim C6: `solveSudoku` is deterministic — two runs on equal inputs
and equal options agree on everything: the whole result, and in the
successful case the final board, candidate grid and snapshot sequence
componentwise. -/
theorem C6_deterministic (i1 i2 : List (List JSNum) ⊕ String)
    (o1 o2 : Option SolverOptions) (hi : i1 = i2) (ho : o1 = o2) :
    solveSudoku i1 o1 = solveSudoku i2 o2 ∧
    ∀ g1 g2, solveSudoku i1 o1 = .ok g1 → solveSudoku i2 o2 = .ok g2 →
      g1.board = g2.board ∧ g1.candidates = g2.candidates ∧
      g1.snapshots.length = g2.snapshots.length ∧ g1.snapshots = g2.snapshots := by
  subst hi
  subst ho
  refine ⟨rfl, fun g1 g2 h1 h2 => ?_⟩
  obtain rfl := Except.ok.inj (h1.symm.trans h2)
  exact ⟨rfl, rfl, rfl, rfl⟩

theorem C6_deterministic_witness :
    ((Sum.inl deadlyBoard : List (List JSNum) ⊕ String) = .inl deadlyBoard) ∧
    ((none : Option SolverOptions) = none) ∧
    (solveSudoku (.inl deadlyBoard) none = solveSudoku (.inl deadlyBoard) none ∧
      ∀ g1 g2, solveSudoku (.inl deadlyBoard) none = .ok g1 →
        solveSudoku (.inl deadlyBoard) none = .ok g2 →
        g1.board = g2.board ∧ g1.candidates = g2.candidates ∧
        g1.snapshots.length = g2.snapshots.length ∧ g1.snapshots = g2.snapshots) :=
  ⟨rfl, rfl, C6_deterministic _ _ _ _ rfl rfl⟩

/-- Claim C7: every successful `solveSudoku` run satisfies snapshot
soundness: along the returned snapshot list, each `removedCandidates`
triple of a snapshot was a candidate of that cell in the immediately
preceding snapshot's grid and is absent from the candidate grid of its
own snapshot (`soundList`, built from `okStep` over `removedOf`). -/
theorem C7_removed_candidates_sound :
    ∀ (input : List (List JSNum) ⊕ String) (opts : Option SolverOptions),
    match solveSudoku input opts with
    | .ok g => soundList g.snapshots
    | .error _ => True := by
  intro input opts
  have h := solveSudoku_sound input opts
  revert h
  cases solveSudoku input opts with
  | ok g => exact fun hs => hs.1
  | error e => exact fun _ => trivial

/-- Claim C8: `solveSudoku` never mutates a matrix argument.  In this
pure model the caller's matrix is immutable by construction; the code
fact behind the guarantee is that the solver starts from
`deepCloneBoard` of the input — visible in the equation below — and
that the clone is a fresh array structure with exactly the caller's
values, entry for entry. -/
theorem C8_input_matrix_not_mutated (m : List (List JSNum))
    (opts : Option SolverOptions) :
    solveSudoku (.inl m) opts = .ok (applyLogicalStrategies
      (addSnapshot
        { board := deepCloneBoard (matrixToBoard m)
          candidates := buildCandidates (deepCloneBoard (matrixToBoard m))
          snapshots := [] } "Initial Board" none 0 none) opts) ∧
    deepCloneBoard (matrixToBoard m) = matrixToBoard m ∧
    ∀ r c, (deepCloneBoard (matrixToBoard m)) r c = (matrixToBoard m) r c := by
  refine ⟨rfl, deepCloneBoard_eq _, fun r c => ?_⟩
  rw [deepCloneBoard_eq]

/-- Claim C9: a failed `backtrack` call leaves the board exactly as it
was at entry — every trial placement, including those of recursive
sub-calls, has been reverted to `0`. -/
theorem C9_backtrack_restores_board (g : Game)
    (h : (backtrack g).1 = false) : (backtrack g).2.board = g.board :=
  backtrack_board g h

theorem C9_backtrack_restores_board_witness :
    (backtrack noCandsGame).1 = false ∧
    (backtrack noCandsGame).2.board = noCandsGame.board :=
  ⟨by decide, C9_backtrack_restores_board noCandsGame (by decide)⟩

/-- Claim C10: `solveSudoku` validates nothing about matrix inputs —
every matrix (any shape, any entries) runs to completion and returns a
game — and an error can only arise from a string input. -/
theorem C10_matrix_input_never_throws :
    (∀ (m : List (List JSNum)) (opts : Option SolverOptions),
      ∃ g, solveSudoku (.inl m) opts = .ok g) ∧
    (∀ (input : List (List JSNum) ⊕ String) (opts : Option SolverOptions)
      (e : String), solveSudoku input opts = .error e → ∃ s, input = .inr s) := by
  constructor
  · intro m opts
    exact ⟨_, rfl⟩
  · intro input opts e h
    cases input with
    | inl m => exact Except.noConfusion h
    | inr s => exact ⟨s, rfl⟩

end SudokuTs
